import Mathlib

/-!
LogAnalyzer: a shallow embedding of the parser, the analyzer and the threats table.

Go strings are byte sequences: `len`, slicing and `strings.Index` all count
bytes.  A Go string is modelled as the list of its bytes, each byte a natural
number below 256.  The patterns of `regexp` used by the program only name
ASCII bytes, so they are matched byte by byte.
-/

namespace LogAnalyzer

/-- A Go string: the list of its bytes. -/
abbrev GoString := List Nat

/-- The bytes of an ASCII literal of the source. -/
def ascii (s : String) : GoString := s.toList.map Char.toNat

/-! ## Package `time` (standard library, only what the program uses) -/

/-- A `time.Duration`: a count of nanoseconds. -/
abbrev Duration := Int

/-- The constant `time.Hour`. -/
def Hour : Duration := 3600 * 1000000000

/-- The constant `time.Minute`. -/
def Minute : Duration := 60 * 1000000000

/-- A `time.Time`: an instant, in nanoseconds since January 1 of year 1, 00:00 UTC
(the zero value of the Go type), together with the offset in seconds of the
zone the value carries.  Comparisons only look at the instant.  The instant is
an unbounded integer: the range of the Go type (billions of years) is never
reached by a parsed timestamp or by the clock. -/
structure Time where
  nanos : Int
  zoneOffset : Int
  deriving DecidableEq, Repr

namespace Time

/-- The zero value `time.Time{}`. -/
def zero : Time := ⟨0, 0⟩

/-- Method `t.Before(u)`. -/
def Before (t u : Time) : Bool := decide (t.nanos < u.nanos)

/-- Method `t.After(u)`. -/
def After (t u : Time) : Bool := decide (u.nanos < t.nanos)

/-- Method `t.Add(d)`. -/
def Add (t : Time) (d : Duration) : Time := ⟨t.nanos + d, t.zoneOffset⟩

end Time

/-! ## Package `strconv` (standard library) -/

/-- Whether a byte is an ASCII digit. -/
def isDigit (b : Nat) : Bool := decide (48 ≤ b) && decide (b ≤ 57)

/-- The value of a run of decimal digits, most significant first. -/
def digitsValue (ds : GoString) : Nat := ds.foldl (fun n b => n * 10 + (b - 48)) 0

/-- Function `strconv.ParseUint(s, 10, 64)` before its range check: the value of a
non-empty string of digits, and a syntax error otherwise. -/
def parseDigits (s : GoString) : Option Nat :=
  if s ≠ [] ∧ s.all isDigit = true then some (digitsValue s) else none

/-- Function `strconv.ParseInt(s, 10, 64)`: an optional sign, then digits; the
value has to fit a signed 64-bit integer.  `none` stands for any error. -/
def ParseInt (s : GoString) : Option Int :=
  match s with
  | [] => none
  | b :: rest =>
    if b = 43 then
      match parseDigits rest with
      | some un => if un ≥ 2 ^ 63 then none else some (un : Int)
      | none => none
    else if b = 45 then
      match parseDigits rest with
      | some un => if un > 2 ^ 63 then none else some (-(un : Int))
      | none => none
    else
      match parseDigits (b :: rest) with
      | some un => if un ≥ 2 ^ 63 then none else some (un : Int)
      | none => none

/-- Function `strconv.Atoi(s)`, where `int` has 64 bits: the same as
`ParseInt(s, 10, 0)`. -/
def Atoi (s : GoString) : Option Int := ParseInt s

/-! ## The line pattern of the parser -/

/-- One atom of a pattern that is a plain sequence: a literal byte, or a greedy
repetition of a byte class (`+` when `atLeastOne`, `*` otherwise), captured or
not. -/
inductive Item where
  | lit (b : Nat)
  | many (cls : Nat → Bool) (atLeastOne : Bool) (capture : Bool)

/-- Class `\S`: any byte but tab, newline, form feed, carriage return and space. -/
def nonSpace (b : Nat) : Bool := !(b = 9 || b = 10 || b = 12 || b = 13 || b = 32)

/-- Class `[^\]]`. -/
def notRBracket (b : Nat) : Bool := !(b = 93)

/-- Class `[^"]`. -/
def notQuote (b : Nat) : Bool := !(b = 34)

/-- A greedy repetition with backtracking: take the longest run of bytes of the
class for which the continuation `k` succeeds. -/
def greedy {α : Type} (cls : Nat → Bool) (k : GoString → GoString → Option α) :
    GoString → GoString → Option α
  | taken, [] => k taken []
  | taken, c :: s =>
    if cls c then
      match greedy cls k (taken ++ [c]) s with
      | some r => some r
      | none => k taken (c :: s)
    else k taken (c :: s)

/-- Match a sequence of atoms at the start of the text; the result is the text
matched and the captured groups, in order. -/
def matchItems : List Item → GoString → Option (GoString × List GoString)
  | [], _ => some ([], [])
  | Item.lit b :: items, s =>
    match s with
    | [] => none
    | c :: rest =>
      if c = b then (matchItems items rest).map (fun r => (c :: r.1, r.2)) else none
  | Item.many cls atLeastOne capture :: items, s =>
    greedy cls (fun taken rest =>
      if atLeastOne && taken.isEmpty then none
      else (matchItems items rest).map
        (fun r => (taken ++ r.1, if capture then taken :: r.2 else r.2))) [] s

/-- The pattern compiled by `NewLogParser`:
`^(\S+) \S+ \S+ \[([^\]]+)\] "(\S+) ([^"]*)" (\d+) (\S+) "([^"]*)" "([^"]*)"`. -/
def logPattern : List Item :=
  [ Item.many nonSpace true true, Item.lit 32,
    Item.many nonSpace true false, Item.lit 32,
    Item.many nonSpace true false, Item.lit 32,
    Item.lit 91, Item.many notRBracket true true, Item.lit 93, Item.lit 32,
    Item.lit 34, Item.many nonSpace true true, Item.lit 32,
    Item.many notQuote false true, Item.lit 34, Item.lit 32,
    Item.many isDigit true true, Item.lit 32,
    Item.many nonSpace true true, Item.lit 32,
    Item.lit 34, Item.many notQuote false true, Item.lit 34, Item.lit 32,
    Item.lit 34, Item.many notQuote false true, Item.lit 34 ]

/-- Method `FindStringSubmatch` of the line pattern: the empty slice when the
line does not match, otherwise the matched text followed by the eight groups.
The pattern starts with `^`, so a match can only start at the first byte. -/
def FindStringSubmatch (line : GoString) : List GoString :=
  match matchItems logPattern line with
  | none => []
  | some (whole, groups) => whole :: groups

/-! ## Package `parser` -/

/-- The structure `LogEntry`. -/
structure LogEntry where
  IP : GoString
  Timestamp : Time
  Method : GoString
  URL : GoString
  Status : Int
  Size : Int
  UserAgent : GoString
  Referer : GoString
  deriving DecidableEq, Repr

/-- The two errors `parseLine` returns. -/
inductive ParseError where
  | invalidFormat (found : Nat)
  | invalidStatus (token : GoString)
  deriving DecidableEq, Repr

/-- The layouts tried by `parseTimestamp`, in order. -/
def layouts : List GoString :=
  [ ascii "02/Jan/2006:15:04:05 -0700", ascii "02/Jan/2006:15:04:05",
    ascii "2006-01-02 15:04:05", ascii "2006/01/02 15:04:05" ]

/-- Method `parseTimestamp`: the first layout that `time.Parse` accepts.  The
library function `time.Parse` is the parameter `timeParse`. -/
def parseTimestamp (timeParse : GoString → GoString → Option Time) (timeStr : GoString) :
    Option Time :=
  layouts.findSome? (fun layout => timeParse layout timeStr)

/-- Method `parseLine`.  `now` is the value `time.Now()` returns. -/
def parseLine (timeParse : GoString → GoString → Option Time) (now : Time)
    (line : GoString) : Except ParseError LogEntry :=
  let fields := FindStringSubmatch line
  if fields.length ≠ 9 then Except.error (ParseError.invalidFormat fields.length)
  else
    let timestamp :=
      match parseTimestamp timeParse (fields.getD 2 []) with
      | some t => t
      | none => now
    match Atoi (fields.getD 5 []) with
    | none => Except.error (ParseError.invalidStatus (fields.getD 5 []))
    | some status =>
      let size : Int :=
        if fields.getD 6 [] ≠ ascii "-" then
          match ParseInt (fields.getD 6 []) with
          | some s => s
          | none => 0
        else 0
      Except.ok
        { IP := fields.getD 1 [], Timestamp := timestamp, Method := fields.getD 3 [],
          URL := fields.getD 4 [], Status := status, Size := size,
          Referer := fields.getD 7 [], UserAgent := fields.getD 8 [] }

/-- Method `IsValid` of `LogEntry`. -/
def LogEntry.IsValid (e : LogEntry) : Bool :=
  decide (e.IP ≠ []) && decide (e.Method ≠ []) && decide (e.Status > 0)

/-- The loop of `ParseFile` over the lines the scanner yields, from line number
`lineNum` on: blank lines are skipped, lines that parse are appended, the others
are dropped.  `blank line` is the test `strings.TrimSpace(line) == ""` and
`now n` the clock when line `n` is parsed. -/
def ParseFile (timeParse : GoString → GoString → Option Time) (now : Nat → Time)
    (blank : GoString → Bool) : Nat → List GoString → List LogEntry
  | _, [] => []
  | lineNum, line :: rest =>
    if blank line then ParseFile timeParse now blank (lineNum + 1) rest
    else
      match parseLine timeParse (now (lineNum + 1)) line with
      | Except.ok entry => entry :: ParseFile timeParse now blank (lineNum + 1) rest
      | Except.error _ => ParseFile timeParse now blank (lineNum + 1) rest

/-! ## Go maps

A map is modelled as the list of its key-value pairs, each key at most once.
The order of the list is not observable by the program: a `range` loop visits
the pairs in an order the runtime picks (see `Runtime`). -/

/-- The Go expression `m[k]`: the value stored at `k`, or the zero value. -/
def mapGet {K V : Type} [DecidableEq K] (m : List (K × V)) (k : K) (zeroValue : V) : V :=
  match m with
  | [] => zeroValue
  | (k', v) :: rest => if k' = k then v else mapGet rest k zeroValue

/-- The Go statement `m[k] = v`. -/
def mapSet {K V : Type} [DecidableEq K] (m : List (K × V)) (k : K) (v : V) : List (K × V) :=
  match m with
  | [] => [(k, v)]
  | (k', v') :: rest => if k' = k then (k, v) :: rest else (k', v') :: mapSet rest k v

/-- The Go statement `m[k]++` on a map of counters. -/
def mapIncr {K : Type} [DecidableEq K] (m : List (K × Nat)) (k : K) : List (K × Nat) :=
  mapSet m k (mapGet m k 0 + 1)

/-! ## Package `regexp`: the five detection patterns

Each pattern of `NewAnalyzer` is `(?i)` applied to an alternation of literals;
one alternative of the first pattern is a literal followed by a class with `+`.
`MatchString` asks whether some alternative matches at some position. -/

/-- Whether the byte `c` of the text matches the ASCII byte `p` of a pattern
under `(?i)`: a letter matches both of its cases. -/
def foldEq (p c : Nat) : Bool :=
  c = p || (decide (97 ≤ p) && decide (p ≤ 122) && c = p - 32) ||
    (decide (65 ≤ p) && decide (p ≤ 90) && c = p + 32)

/-- Match a literal at the start of the text under `(?i)`; the rest of the text
is returned.  Simple case folding also lets `k` match the Kelvin sign U+212A
(bytes E2 84 AA) and `s` match the long s U+017F (bytes C5 BF). -/
def matchFold : GoString → GoString → Option GoString
  | [], text => some text
  | p :: ps, text =>
    match text with
    | [] => none
    | c :: cs =>
      if foldEq p c then matchFold ps cs
      else if (p = 107 ∨ p = 75) ∧ c = 226 ∧ cs.take 2 = [132, 170] then matchFold ps (cs.drop 2)
      else if (p = 115 ∨ p = 83) ∧ c = 197 ∧ cs.take 1 = [191] then matchFold ps (cs.drop 1)
      else none

/-- One alternative of a detection pattern. -/
inductive Alt where
  | lit (s : GoString)
  | litThenClass (s : GoString) (cls : Nat → Bool)

/-- Whether an alternative matches at the start of the text. -/
def Alt.matchesAt : Alt → GoString → Bool
  | Alt.lit s, text => (matchFold s text).isSome
  | Alt.litThenClass s cls, text =>
    match matchFold s text with
    | some (c :: _) => cls c
    | _ => false

/-- Method `MatchString` of a pattern given by its alternatives. -/
def MatchString (alts : List Alt) (s : GoString) : Bool :=
  s.tails.any (fun text => alts.any (fun a => a.matchesAt text))

/-- Class `[0-9a-f]` under `(?i)`. -/
def isHexDigit (b : Nat) : Bool :=
  (decide (48 ≤ b) && decide (b ≤ 57)) || (decide (97 ≤ b) && decide (b ≤ 102)) ||
    (decide (65 ≤ b) && decide (b ≤ 70))

/-- Pattern `(?i)(union|select|insert|update|delete|drop|exec|script|alert|onload|`
`information_schema|concat|char\(|0x[0-9a-f]+|sleep\(|benchmark\()`. -/
def sqlInjectionPattern : List Alt :=
  [ Alt.lit (ascii "union"), Alt.lit (ascii "select"), Alt.lit (ascii "insert"),
    Alt.lit (ascii "update"), Alt.lit (ascii "delete"), Alt.lit (ascii "drop"),
    Alt.lit (ascii "exec"), Alt.lit (ascii "script"), Alt.lit (ascii "alert"),
    Alt.lit (ascii "onload"), Alt.lit (ascii "information_schema"), Alt.lit (ascii "concat"),
    Alt.lit (ascii "char("), Alt.litThenClass (ascii "0x") isHexDigit,
    Alt.lit (ascii "sleep("), Alt.lit (ascii "benchmark(") ]

/-- Pattern `(?i)(<script|javascript:|onload=|onerror=|alert\(|prompt\(|confirm\(|`
`eval\(|document\.|window\.|<iframe|<object|<embed)`. -/
def xssPattern : List Alt :=
  [ Alt.lit (ascii "<script"), Alt.lit (ascii "javascript:"), Alt.lit (ascii "onload="),
    Alt.lit (ascii "onerror="), Alt.lit (ascii "alert("), Alt.lit (ascii "prompt("),
    Alt.lit (ascii "confirm("), Alt.lit (ascii "eval("), Alt.lit (ascii "document."),
    Alt.lit (ascii "window."), Alt.lit (ascii "<iframe"), Alt.lit (ascii "<object"),
    Alt.lit (ascii "<embed") ]

/-- Pattern `(?i)(wp-login|admin|login|auth|signin|password|pwd)`. -/
def bruteForcePattern : List Alt :=
  [ Alt.lit (ascii "wp-login"), Alt.lit (ascii "admin"), Alt.lit (ascii "login"),
    Alt.lit (ascii "auth"), Alt.lit (ascii "signin"), Alt.lit (ascii "password"),
    Alt.lit (ascii "pwd") ]

/-- Pattern `(?i)(\.\.\/|\.\.\\|\/etc\/|\/proc\/|\/var\/|\/usr\/|\/bin\/|\/sbin\/|`
`\/root\/|\/home\/|\.htaccess|\.htpasswd|config\.php|phpinfo|web\.config)`. -/
def scannerPattern : List Alt :=
  [ Alt.lit (ascii "../"), Alt.lit (ascii "..\\"), Alt.lit (ascii "/etc/"),
    Alt.lit (ascii "/proc/"), Alt.lit (ascii "/var/"), Alt.lit (ascii "/usr/"),
    Alt.lit (ascii "/bin/"), Alt.lit (ascii "/sbin/"), Alt.lit (ascii "/root/"),
    Alt.lit (ascii "/home/"), Alt.lit (ascii ".htaccess"), Alt.lit (ascii ".htpasswd"),
    Alt.lit (ascii "config.php"), Alt.lit (ascii "phpinfo"), Alt.lit (ascii "web.config") ]

/-- Pattern `(?i)(bot|crawler|scanner|exploit|hack|injection|nikto|sqlmap|nmap|`
`masscan|zmap|dirb|gobuster|wfuzz|burp|owasp)`. -/
def suspiciousUAPattern : List Alt :=
  [ Alt.lit (ascii "bot"), Alt.lit (ascii "crawler"), Alt.lit (ascii "scanner"),
    Alt.lit (ascii "exploit"), Alt.lit (ascii "hack"), Alt.lit (ascii "injection"),
    Alt.lit (ascii "nikto"), Alt.lit (ascii "sqlmap"), Alt.lit (ascii "nmap"),
    Alt.lit (ascii "masscan"), Alt.lit (ascii "zmap"), Alt.lit (ascii "dirb"),
    Alt.lit (ascii "gobuster"), Alt.lit (ascii "wfuzz"), Alt.lit (ascii "burp"),
    Alt.lit (ascii "owasp") ]

/-! ## Package `analyzer` -/

/-- The text of a threat's `Description`: which message of the source it is, with
the arguments `fmt.Sprintf` formats into it. -/
inductive Description where
  | sqlInjection
  | xss
  | directoryTraversal
  | suspiciousBot (userAgent : GoString)
  | authFailure
  | bruteForce (requestsInWindow : Nat) (windowSize : Duration)
  | ddos (requests : Nat) (duration : Duration)
  deriving DecidableEq, Repr

/-- The structure `SecurityThreat`; the field `Type` of the source is `ThreatType`. -/
structure SecurityThreat where
  ThreatType : GoString
  IP : GoString
  URL : GoString
  Timestamp : Time
  Severity : GoString
  Description : Description
  deriving DecidableEq, Repr

/-- The structure `TimeRange`. -/
structure TimeRange where
  Start : Time
  End : Time
  deriving DecidableEq, Repr

/-- The structure `Statistics`.  The two `float64` fields hold the exact quotient;
the counters are naturals, since no counter can pass the length of the input. -/
structure Statistics where
  TotalRequests : Nat
  UniqueIPs : Nat
  ErrorRate : ℚ
  TopIPs : List (GoString × Nat)
  TopPages : List (GoString × Nat)
  TopUserAgents : List (GoString × Nat)
  StatusCodes : List (Int × Nat)
  MethodDistribution : List (GoString × Nat)
  SecurityThreats : List SecurityThreat
  BandwidthUsage : Int
  AverageResponseSize : ℚ
  TimeRange : TimeRange
  HourlyDistribution : List (Int × Nat)

/-- Method `truncateString`, for `maxLen` at least 3 (the callers pass 100 and 50). -/
def truncateString (s : GoString) (maxLen : Nat) : GoString :=
  if s.length ≤ maxLen then s else s.take (maxLen - 3) ++ ascii "..."

/-- Function `strings.Index(s, sep)` for a separator of one byte `b`: the index of
the first `b`, or -1. -/
def Index (s : GoString) (b : Nat) : Int :=
  match s with
  | [] => -1
  | c :: rest => if c = b then 0 else if Index rest b = -1 then -1 else Index rest b + 1

/-- Method `normalizePage`. -/
def normalizePage (url : GoString) : GoString :=
  let idx := Index url 63
  let url := if idx ≠ -1 then url.take idx.toNat else url
  truncateString url 100

/-- Method `normalizeUserAgent`. -/
def normalizeUserAgent (ua : GoString) : GoString :=
  if ua.length > 100 then ua.take 97 ++ ascii "..." else ua

/-- Method `detectThreats`. -/
def detectThreats (entry : LogEntry) : List SecurityThreat :=
  let threats : List SecurityThreat := []
  let threats :=
    if MatchString sqlInjectionPattern entry.URL then
      threats ++ [{ ThreatType := ascii "SQL_INJECTION", IP := entry.IP, URL := entry.URL,
                    Timestamp := entry.Timestamp, Severity := ascii "HIGH",
                    Description := Description.sqlInjection }]
    else threats
  let threats :=
    if MatchString xssPattern entry.URL || MatchString xssPattern entry.UserAgent then
      threats ++ [{ ThreatType := ascii "XSS", IP := entry.IP, URL := entry.URL,
                    Timestamp := entry.Timestamp, Severity := ascii "MEDIUM",
                    Description := Description.xss }]
    else threats
  let threats :=
    if MatchString scannerPattern entry.URL then
      threats ++ [{ ThreatType := ascii "DIRECTORY_TRAVERSAL", IP := entry.IP, URL := entry.URL,
                    Timestamp := entry.Timestamp, Severity := ascii "HIGH",
                    Description := Description.directoryTraversal }]
    else threats
  let threats :=
    if MatchString suspiciousUAPattern entry.UserAgent then
      threats ++ [{ ThreatType := ascii "SUSPICIOUS_BOT", IP := entry.IP, URL := entry.URL,
                    Timestamp := entry.Timestamp, Severity := ascii "MEDIUM",
                    Description := Description.suspiciousBot (truncateString entry.UserAgent 50) }]
    else threats
  let threats :=
    if MatchString bruteForcePattern entry.URL && decide (entry.Status = 401) then
      threats ++ [{ ThreatType := ascii "AUTH_FAILURE", IP := entry.IP, URL := entry.URL,
                    Timestamp := entry.Timestamp, Severity := ascii "LOW",
                    Description := Description.authFailure }]
    else threats
  threats

/-- What the Go runtime and library decide: the order `sort.Slice` leaves a slice
of times in, and the order in which each of the two `range` loops over the map of
per-IP timestamps visits its pairs. -/
structure Runtime where
  sortSlice : List Time → List Time
  rangeBruteForce : List (GoString × List Time) → List (GoString × List Time)
  rangeAnomalies : List (GoString × List Time) → List (GoString × List Time)

/-- The contract of the runtime: `sort.Slice` permutes the slice so that no
element is `Before` an earlier one, and a `range` loop visits every pair of the
map once. -/
def Runtime.Lawful (rt : Runtime) : Prop :=
  (∀ l, (rt.sortSlice l).Perm l ∧
    (rt.sortSlice l).Pairwise (fun a b => Time.Before b a = false)) ∧
  (∀ m, (rt.rangeBruteForce m).Perm m) ∧ (∀ m, (rt.rangeAnomalies m).Perm m)

/-- The inner loop of `detectBruteForce`, `for j := i; j < len(timestamps) &&`
`timestamps[j].Before(windowEnd); j++`, on the slice from index `i` on. -/
def requestsInWindow (windowEnd : Time) : List Time → Nat
  | [] => 0
  | t :: rest => if t.Before windowEnd then requestsInWindow windowEnd rest + 1 else 0

/-- The outer loop of `detectBruteForce` for one IP, on the sorted slice from index
`i` on: the threat of the first window that reaches the threshold, if any. -/
def scanWindows (ip : GoString) : List Time → Option SecurityThreat
  | [] => none
  | t :: rest =>
    let windowSize := Hour
    let threshold := 50
    let windowEnd := t.Add windowSize
    let n := requestsInWindow windowEnd (t :: rest)
    if n ≥ threshold then
      some { ThreatType := ascii "BRUTE_FORCE", IP := ip, URL := ascii "Multiple",
             Timestamp := t, Severity := ascii "HIGH",
             Description := Description.bruteForce n windowSize }
    else scanWindows ip rest

/-- The state of the loop of `detectBruteForce`: the threats so far, and the map,
whose slices `sort.Slice` reorders in place. -/
structure BruteForceState where
  threats : List SecurityThreat
  ipRequests : List (GoString × List Time)

/-- One iteration of the loop of `detectBruteForce`. -/
def bruteForceStep (rt : Runtime) (st : BruteForceState) (kv : GoString × List Time) :
    BruteForceState :=
  let ip := kv.1
  let timestamps := kv.2
  if timestamps.length < 10 then st
  else
    let timestamps := rt.sortSlice timestamps
    let ipRequests := mapSet st.ipRequests ip timestamps
    match scanWindows ip timestamps with
    | some threat => { threats := st.threats ++ [threat], ipRequests := ipRequests }
    | none => { threats := st.threats, ipRequests := ipRequests }

/-- Method `detectBruteForce`: the threats it returns, and the map as the loop
leaves it. -/
def detectBruteForce (rt : Runtime) (ipRequests : List (GoString × List Time)) :
    BruteForceState :=
  (rt.rangeBruteForce ipRequests).foldl (bruteForceStep rt)
    { threats := [], ipRequests := ipRequests }

/-- Method `t.Sub(u)`: the difference, saturated to the range of a `Duration`. -/
def Time.Sub (t u : Time) : Duration :=
  let d := t.nanos - u.nanos
  if d < -(2 ^ 63) then -(2 ^ 63) else if d > 2 ^ 63 - 1 then 2 ^ 63 - 1 else d

/-- One iteration of the loop of `detectTrafficAnomalies`. -/
def anomalyStep (threats : List SecurityThreat) (kv : GoString × List Time) :
    List SecurityThreat :=
  let ip := kv.1
  let timestamps := kv.2
  if timestamps.length > 1000 then
    let duration := (timestamps.getD (timestamps.length - 1) Time.zero).Sub
      (timestamps.getD 0 Time.zero)
    if duration < 10 * Minute then
      threats ++ [{ ThreatType := ascii "DDOS_ATTEMPT", IP := ip, URL := ascii "Multiple",
                    Timestamp := timestamps.getD 0 Time.zero, Severity := ascii "HIGH",
                    Description := Description.ddos timestamps.length duration }]
    else threats
  else threats

/-- Method `detectTrafficAnomalies`. -/
def detectTrafficAnomalies (rt : Runtime) (ipRequests : List (GoString × List Time)) :
    List SecurityThreat :=
  (rt.rangeAnomalies ipRequests).foldl anomalyStep []

/-- Method `t.Hour()`: the hour of the day in the zone the value carries. -/
def Time.hourOfDay (t : Time) : Int := (t.nanos / 1000000000 + t.zoneOffset) / 3600 % 24

/-- Addition of `int64` values, wrapping around. -/
def wrapInt64 (x : Int) : Int := (x + 2 ^ 63) % 2 ^ 64 - 2 ^ 63

/-- The variables the loop of `Analyze` updates. -/
structure AnalyzeState where
  stats : Statistics
  ipRequestCount : List (GoString × List Time)
  uniqueIPs : List (GoString × Bool)
  errorCount : Nat
  totalSize : Int

/-- One iteration of the loop of `Analyze`. -/
def analyzeStep (st : AnalyzeState) (entry : LogEntry) : AnalyzeState :=
  if !entry.IsValid then st
  else
    let stats := st.stats
    let stats := { stats with TotalRequests := stats.TotalRequests + 1 }
    let stats :=
      if entry.Timestamp.Before stats.TimeRange.Start then
        { stats with TimeRange := { stats.TimeRange with Start := entry.Timestamp } }
      else stats
    let stats :=
      if entry.Timestamp.After stats.TimeRange.End then
        { stats with TimeRange := { stats.TimeRange with End := entry.Timestamp } }
      else stats
    let uniqueIPs := mapSet st.uniqueIPs entry.IP true
    let stats := { stats with TopIPs := mapIncr stats.TopIPs entry.IP }
    let page := normalizePage entry.URL
    let stats := { stats with TopPages := mapIncr stats.TopPages page }
    let ua := normalizeUserAgent entry.UserAgent
    let stats := { stats with TopUserAgents := mapIncr stats.TopUserAgents ua }
    let stats := { stats with StatusCodes := mapIncr stats.StatusCodes entry.Status }
    let stats := { stats with MethodDistribution := mapIncr stats.MethodDistribution entry.Method }
    let hour := entry.Timestamp.hourOfDay
    let stats := { stats with HourlyDistribution := mapIncr stats.HourlyDistribution hour }
    let errorCount := if entry.Status ≥ 400 then st.errorCount + 1 else st.errorCount
    let totalSize := wrapInt64 (st.totalSize + entry.Size)
    let threats := detectThreats entry
    let stats := { stats with SecurityThreats := stats.SecurityThreats ++ threats }
    let ipRequestCount :=
      mapSet st.ipRequestCount entry.IP (mapGet st.ipRequestCount entry.IP [] ++ [entry.Timestamp])
    { stats := stats, ipRequestCount := ipRequestCount, uniqueIPs := uniqueIPs,
      errorCount := errorCount, totalSize := totalSize }

/-- The value `stats` is initialised with: six empty maps, everything else zero. -/
def emptyStatistics : Statistics :=
  { TotalRequests := 0, UniqueIPs := 0, ErrorRate := 0, TopIPs := [], TopPages := [],
    TopUserAgents := [], StatusCodes := [], MethodDistribution := [], SecurityThreats := [],
    BandwidthUsage := 0, AverageResponseSize := 0,
    TimeRange := { Start := Time.zero, End := Time.zero }, HourlyDistribution := [] }

/-- Method `Analyze`. -/
def Analyze (rt : Runtime) (entries : List LogEntry) : Statistics :=
  let stats := emptyStatistics
  match entries with
  | [] => stats
  | first :: _ =>
    let stats :=
      { stats with TimeRange := { Start := first.Timestamp, End := first.Timestamp } }
    let st := entries.foldl analyzeStep
      { stats := stats, ipRequestCount := [], uniqueIPs := [], errorCount := 0, totalSize := 0 }
    let stats := st.stats
    let stats := { stats with UniqueIPs := st.uniqueIPs.length }
    let stats := { stats with BandwidthUsage := st.totalSize }
    let stats :=
      if stats.TotalRequests > 0 then
        { stats with
          ErrorRate := (st.errorCount : ℚ) / (stats.TotalRequests : ℚ) * 100
          AverageResponseSize := (st.totalSize : ℚ) / (stats.TotalRequests : ℚ) }
      else stats
    let bf := detectBruteForce rt st.ipRequestCount
    let stats := { stats with SecurityThreats := stats.SecurityThreats ++ bf.threats }
    let anomalies := detectTrafficAnomalies rt bf.ipRequests
    let stats := { stats with SecurityThreats := stats.SecurityThreats ++ anomalies }
    stats

/-- A runtime to run the model with: insertion sort, and `range` loops that visit
the pairs in the order of the list. -/
def listRuntime : Runtime :=
  { sortSlice := List.insertionSort (fun a b => a.nanos ≤ b.nanos),
    rangeBruteForce := id, rangeAnomalies := id }

/-! ## Package `reporter` -/

/-- The map literal `severityOrder` of the comparison in `displaySecurityThreats`. -/
def severityOrder : List (GoString × Nat) :=
  [(ascii "HIGH", 3), (ascii "MEDIUM", 2), (ascii "LOW", 1)]

/-- The comparison `displaySecurityThreats` passes to `sort.Slice`, on the elements
at the two indices. -/
def threatLess (a b : SecurityThreat) : Bool :=
  if mapGet severityOrder a.Severity 0 ≠ mapGet severityOrder b.Severity 0 then
    decide (mapGet severityOrder a.Severity 0 > mapGet severityOrder b.Severity 0)
  else a.Timestamp.After b.Timestamp

/-- Method `displaySecurityThreats`: the threats in the order in which the loop
appends their rows to the table, one row a threat.  `sortSlice` is the order
`sort.Slice` leaves the slice in for the comparison it is given. -/
def displaySecurityThreats
    (sortSlice : (SecurityThreat → SecurityThreat → Bool) → List SecurityThreat →
      List SecurityThreat)
    (threats : List SecurityThreat) : List SecurityThreat :=
  if threats.length = 0 then []
  else sortSlice threatLess threats

/-- The contract of `sort.Slice` for a comparison: the slice is permuted so that no
element is less than an earlier one. -/
def SortsBy (less : SecurityThreat → SecurityThreat → Bool)
    (sort : List SecurityThreat → List SecurityThreat) : Prop :=
  ∀ l, (sort l).Perm l ∧ (sort l).Pairwise (fun a b => less b a = false)

/-- A sort to run the model with: insertion sort. -/
def insertionSortBy (less : SecurityThreat → SecurityThreat → Bool)
    (l : List SecurityThreat) : List SecurityThreat :=
  List.insertionSort (fun a b => less b a = false) l

/-! ## Definitions used to state the properties -/

/-- The line of the example:
`10.0.0.1 - - [13/Sep/2025:21:00:01 +0200] "GET /index.html HTTP/1.1" 200 512 "-" "Mozilla/5.0"`. -/
def exampleLine : GoString :=
  ascii "10.0.0.1 - - [13/Sep/2025:21:00:01 +0200] \"GET /index.html HTTP/1.1\" 200 512 \"-\" \"Mozilla/5.0\""

/-- A line whose status field is `0`:
`10.0.0.1 - - [x] "GET /" 0 0 "-" "-"`. -/
def zeroStatusLine : GoString :=
  ascii "10.0.0.1 - - [x] \"GET /\" 0 0 \"-\" \"-\""

/-- A line whose size field is `-5`:
`10.0.0.1 - - [x] "GET /" 200 -5 "-" "-"`. -/
def negativeSizeLine : GoString :=
  ascii "10.0.0.1 - - [x] \"GET /\" 200 -5 \"-\" \"-\""

/-- The entry `parseLine` returns on `exampleLine`. -/
def exampleEntry (timeParse : GoString → GoString → Option Time) (now : Time) : LogEntry :=
  { IP := ascii "10.0.0.1",
    Timestamp :=
      match parseTimestamp timeParse (ascii "13/Sep/2025:21:00:01 +0200") with
      | some t => t
      | none => now,
    Method := ascii "GET", URL := ascii "/index.html HTTP/1.1", Status := 200, Size := 512,
    Referer := ascii "-", UserAgent := ascii "Mozilla/5.0" }

/-- The entry `parseLine` returns on `zeroStatusLine` when no layout parses `x`
and the clock shows the zero time. -/
def zeroStatusEntry : LogEntry :=
  { IP := ascii "10.0.0.1", Timestamp := Time.zero, Method := ascii "GET", URL := ascii "/",
    Status := 0, Size := 0, Referer := ascii "-", UserAgent := ascii "-" }

/-- The entry `parseLine` returns on `negativeSizeLine` when no layout parses `x`
and the clock shows the zero time. -/
def negativeSizeEntry : LogEntry :=
  { IP := ascii "10.0.0.1", Timestamp := Time.zero, Method := ascii "GET", URL := ascii "/",
    Status := 200, Size := -5, Referer := ascii "-", UserAgent := ascii "-" }

/-- The size field of a line: the sixth group of the pattern. -/
def sizeToken (line : GoString) : GoString := (FindStringSubmatch line).getD 6 []

/-- The integer a token denotes in base 10, whatever its magnitude: an optional
sign followed by at least one digit.  A token of any other shape denotes none. -/
def tokenValue (token : GoString) : Option Int :=
  match token with
  | [] => none
  | b :: ds =>
    if b = 43 then
      match parseDigits ds with
      | some n => some (n : Int)
      | none => none
    else if b = 45 then
      match parseDigits ds with
      | some n => some (-(n : Int))
      | none => none
    else
      match parseDigits (b :: ds) with
      | some n => some (n : Int)
      | none => none

/-- What the groups of a match look like: one group for each capturing atom, made
of bytes of the atom's class, and not empty when the atom is a `+`. -/
def GroupsOK : List Item → List GoString → Prop
  | [], gs => gs = []
  | Item.lit _ :: items, gs => GroupsOK items gs
  | Item.many cls atLeastOne true :: items, gs =>
    ∃ g rest, gs = g :: rest ∧ (∀ c ∈ g, cls c = true) ∧ (atLeastOne = true → g ≠ []) ∧
      GroupsOK items rest
  | Item.many _ _ false :: items, gs => GroupsOK items gs

/-- An entry that fails `IsValid` (its status is 0, as `parseLine` returns for a
line whose status field is `0`), stamped one second after the zero time. -/
def invalidEntry : LogEntry :=
  { IP := ascii "10.0.0.1", Timestamp := ⟨1000000000, 0⟩, Method := ascii "GET",
    URL := ascii "/", Status := 0, Size := 0, Referer := ascii "-", UserAgent := ascii "-" }

/-- A valid entry, stamped ten seconds after the zero time. -/
def validEntry : LogEntry :=
  { IP := ascii "10.0.0.1", Timestamp := ⟨10000000000, 0⟩, Method := ascii "GET",
    URL := ascii "/", Status := 200, Size := 0, Referer := [], UserAgent := [] }

/-- The timestamps of the valid entries, in the order of the sequence. -/
def validTimestamps (entries : List LogEntry) : List Time :=
  (entries.filter LogEntry.IsValid).map LogEntry.Timestamp

/-- The timestamps of the valid entries of one IP, in the order of the sequence. -/
def timestampsOf (entries : List LogEntry) (ip : GoString) : List Time :=
  ((entries.filter LogEntry.IsValid).filter (fun e => decide (e.IP = ip))).map
    LogEntry.Timestamp

/-- The number of valid entries of one IP. -/
def requestsOf (entries : List LogEntry) (ip : GoString) : Nat :=
  (entries.filter (fun e => e.IsValid && decide (e.IP = ip))).length

/-- The number of valid entries whose status is 400 or more. -/
def errorsOf (entries : List LogEntry) : Nat :=
  (entries.filter (fun e => e.IsValid && decide (e.Status ≥ 400))).length

/-- The keys of a map. -/
def mapKeys {K V : Type} (m : List (K × V)) : List K := m.map Prod.fst

/-- The truncation `T` of the page rule: a string of at most 100 bytes is kept,
a longer one becomes its first 97 bytes followed by `...`. -/
def truncate100 (s : GoString) : GoString :=
  if s.length ≤ 100 then s else s.take 97 ++ ascii "..."

/-- The prefix of a string before its first `?`; the whole string when it has none. -/
def beforeQuery (u : GoString) : GoString := u.takeWhile (fun b => decide (b ≠ 63))

/-- The number of timestamps of a list in the half-open window `[t, t + 1 hour)`. -/
def windowCount (ts : List Time) (t : Time) : Nat :=
  (ts.filter (fun u => !u.Before t && u.Before (t.Add Hour))).length

/-- The number of threats of a given type and IP in a sequence of threats. -/
def countThreats (threatType ip : GoString) (threats : List SecurityThreat) : Nat :=
  threats.countP (fun th => decide (th.ThreatType = threatType) && decide (th.IP = ip))

/-- Fifty-five valid entries of one IP, one second apart, the latest first. -/
def burst55 : List LogEntry :=
  (List.range 55).map (fun i =>
    { IP := ascii "10.0.0.1", Timestamp := ⟨(100 - (i : Int)) * 1000000000, 0⟩,
      Method := ascii "GET", URL := ascii "/", Status := 200, Size := 0, Referer := [],
      UserAgent := [] })

/-- The IPs of the valid entries seen so far, each once, in the order in which
they first appear, after one more entry. -/
def seenStep (ips : List GoString) (e : LogEntry) : List GoString :=
  if e.IsValid then (if e.IP ∈ ips then ips else ips ++ [e.IP]) else ips

/-- The threats one iteration of the loop of `detectBruteForce` appends for one
pair of the map. -/
def bruteForceOf (rt : Runtime) (kv : GoString × List Time) : List SecurityThreat :=
  if kv.2.length < 10 then []
  else
    match scanWindows kv.1 (rt.sortSlice kv.2) with
    | some threat => [threat]
    | none => []

/-- The map of per-IP timestamps with the 55 timestamps of `burst55`. -/
def burstMap : List (GoString × List Time) :=
  [(ascii "10.0.0.1", burst55.map LogEntry.Timestamp)]

/-- The threat `detectBruteForce` reports for `burstMap`: its window starts at the
earliest of the 55 timestamps and holds all of them. -/
def burstThreat : SecurityThreat :=
  { ThreatType := ascii "BRUTE_FORCE", IP := ascii "10.0.0.1", URL := ascii "Multiple",
    Timestamp := ⟨46000000000, 0⟩, Severity := ascii "HIGH",
    Description := Description.bruteForce 55 Hour }

/-- The threats one iteration of the loop of `detectTrafficAnomalies` appends for
one pair of the map. -/
def anomalyOf (kv : GoString × List Time) : List SecurityThreat := anomalyStep [] kv

/-- What the loop of `detectBruteForce` leaves in the map for a slice: the slice
sorted when it has 10 timestamps or more, the slice itself otherwise. -/
def sortedIfLong (rt : Runtime) (ts : List Time) : List Time :=
  if ts.length < 10 then ts else rt.sortSlice ts

/-- A keyword equals a text ignoring case, in the sense of simple Unicode case
folding (the one of `strings.EqualFold` and of `(?i)`): a byte of the keyword is
matched by the same byte, by the other case of a letter, and `k` and `s` also by
the encodings of the Kelvin sign and of the long s. -/
inductive FoldMatch : GoString → GoString → Prop where
  | nil : FoldMatch [] []
  | byte (p c : Nat) (ps cs : GoString) :
      foldEq p c = true → FoldMatch ps cs → FoldMatch (p :: ps) (c :: cs)
  | kelvin (p : Nat) (ps cs : GoString) :
      p = 107 ∨ p = 75 → FoldMatch ps cs → FoldMatch (p :: ps) (226 :: 132 :: 170 :: cs)
  | longS (p : Nat) (ps cs : GoString) :
      p = 115 ∨ p = 83 → FoldMatch ps cs → FoldMatch (p :: ps) (197 :: 191 :: cs)

/-- A text contains a keyword, ignoring case. -/
def ContainsFold (keyword text : GoString) : Prop :=
  ∃ pre mid post, text = pre ++ mid ++ post ∧ FoldMatch keyword mid

/-- The keywords of the check of sensitive pages. -/
def authKeywords : List GoString :=
  [ascii "wp-login", ascii "admin", ascii "login", ascii "auth", ascii "signin",
    ascii "password", ascii "pwd"]

/-- The SQL keywords of the first check. -/
def sqlKeywords : List GoString :=
  [ascii "union", ascii "select", ascii "insert", ascii "update", ascii "delete",
    ascii "drop", ascii "exec"]

/-- The threat the SQL check of `detectThreats` reports for an entry. -/
def sqlThreat (e : LogEntry) : SecurityThreat :=
  { ThreatType := ascii "SQL_INJECTION", IP := e.IP, URL := e.URL, Timestamp := e.Timestamp,
    Severity := ascii "HIGH", Description := Description.sqlInjection }

/-- The threat the check of sensitive pages of `detectThreats` reports for an entry. -/
def authThreat (e : LogEntry) : SecurityThreat :=
  { ThreatType := ascii "AUTH_FAILURE", IP := e.IP, URL := e.URL, Timestamp := e.Timestamp,
    Severity := ascii "LOW", Description := Description.authFailure }

/-- The five threats the checks of `detectThreats` can report for an entry, in the
order of the checks. -/
def allThreats (e : LogEntry) : List SecurityThreat :=
  [ { ThreatType := ascii "SQL_INJECTION", IP := e.IP, URL := e.URL,
      Timestamp := e.Timestamp, Severity := ascii "HIGH",
      Description := Description.sqlInjection },
    { ThreatType := ascii "XSS", IP := e.IP, URL := e.URL, Timestamp := e.Timestamp,
      Severity := ascii "MEDIUM", Description := Description.xss },
    { ThreatType := ascii "DIRECTORY_TRAVERSAL", IP := e.IP, URL := e.URL,
      Timestamp := e.Timestamp, Severity := ascii "HIGH",
      Description := Description.directoryTraversal },
    { ThreatType := ascii "SUSPICIOUS_BOT", IP := e.IP, URL := e.URL,
      Timestamp := e.Timestamp, Severity := ascii "MEDIUM",
      Description := Description.suspiciousBot (truncateString e.UserAgent 50) },
    { ThreatType := ascii "AUTH_FAILURE", IP := e.IP, URL := e.URL,
      Timestamp := e.Timestamp, Severity := ascii "LOW",
      Description := Description.authFailure } ]

/-- The types of the five per-entry threats. -/
def perEntryTypes : List GoString :=
  [ascii "SQL_INJECTION", ascii "XSS", ascii "DIRECTORY_TRAVERSAL", ascii "SUSPICIOUS_BOT",
    ascii "AUTH_FAILURE"]

/-- The (Type, IP, Timestamp) triples of a sequence of threats. -/
def triples (threats : List SecurityThreat) : List (GoString × GoString × Time) :=
  threats.map (fun th => (th.ThreatType, th.IP, th.Timestamp))

/-- The rank of a severity: 3 for `HIGH`, 2 for `MEDIUM`, 1 for `LOW`, 0 otherwise. -/
def severityRank (th : SecurityThreat) : Nat := mapGet severityOrder th.Severity 0

/-- The URL of the injection example: `/login.php?id=1' UNION SELECT password FROM users--`. -/
def injectionURL : GoString := ascii "/login.php?id=1' UNION SELECT password FROM users--"

/-- An entry that asks for `injectionURL`. -/
def injectionEntry : LogEntry :=
  { IP := ascii "10.0.0.1", Timestamp := ⟨10000000000, 0⟩, Method := ascii "GET",
    URL := injectionURL, Status := 200, Size := 0, Referer := ascii "-",
    UserAgent := ascii "Mozilla/5.0" }

/-- A runtime whose `range` loops visit the pairs of the map in the reverse order
of `listRuntime`. -/
def reverseRuntime : Runtime :=
  { sortSlice := listRuntime.sortSlice, rangeBruteForce := List.reverse,
    rangeAnomalies := List.reverse }

/-- A map of per-IP timestamps with 1001 timestamps of one IP, all at the same
instant. -/
def floodMap : List (GoString × List Time) :=
  [(ascii "10.0.0.1", List.replicate 1001 ⟨10000000000, 0⟩)]

/-- The threat `detectTrafficAnomalies` reports for `floodMap`. -/
def floodThreat : SecurityThreat :=
  { ThreatType := ascii "DDOS_ATTEMPT", IP := ascii "10.0.0.1", URL := ascii "Multiple",
    Timestamp := ⟨10000000000, 0⟩, Severity := ascii "HIGH",
    Description := Description.ddos 1001 0 }

/-- A valid entry, stamped ten seconds after the zero time, that triggers no
per-entry check. -/
def floodEntry : LogEntry :=
  { IP := ascii "10.0.0.1", Timestamp := ⟨10000000000, 0⟩, Method := ascii "GET",
    URL := ascii "/", Status := 200, Size := 0, Referer := [], UserAgent := [] }

/-- A sequence of 1001 valid entries of one IP, all at the same instant. -/
def flood1001 : List LogEntry := List.replicate 1001 floodEntry

/-- The map `ipRequestCount` at the end of the loop of `Analyze`: for each IP of a
valid entry, the timestamps of its valid entries in the order of the sequence. -/
def requestMap (entries : List LogEntry) : List (GoString × List Time) :=
  entries.foldl (fun m e =>
    if e.IsValid then mapSet m e.IP (mapGet m e.IP [] ++ [e.Timestamp]) else m) []

/-- The entries of `burst55` followed by the same entries from a second IP. -/
def twoBursts : List LogEntry :=
  burst55 ++ burst55.map (fun e => { e with IP := ascii "10.0.0.2" })

/-- Three threats to render: one of severity `LOW`, then two of severity `HIGH`, the
earlier of the two first. -/
def sampleThreats : List SecurityThreat :=
  [authThreat validEntry, sqlThreat injectionEntry, burstThreat]

/-! ## The parser -/

theorem greedy_some {α : Type} (cls : Nat → Bool) (k : GoString → GoString → Option α)
    (s : GoString) : ∀ (taken : GoString) (r : α), greedy cls k taken s = some r →
      ∃ pre post, s = pre ++ post ∧ (∀ c ∈ pre, cls c = true) ∧
        k (taken ++ pre) post = some r := by
  induction s with
  | nil =>
    intro taken r h
    exact ⟨[], [], rfl, by simp, by simpa [greedy] using h⟩
  | cons c s ih =>
    intro taken r h
    unfold greedy at h
    by_cases hc : cls c = true
    · simp only [hc, if_true] at h
      cases hg : greedy cls k (taken ++ [c]) s with
      | some r' =>
        rw [hg] at h
        obtain ⟨pre, post, hs, hpre, hk⟩ := ih (taken ++ [c]) r' hg
        refine ⟨c :: pre, post, by simp [hs], ?_, ?_⟩
        · intro x hx
          rcases List.mem_cons.1 hx with rfl | hx
          · exact hc
          · exact hpre x hx
        · simp only [Option.some.injEq] at h
          subst h
          simpa using hk
      | none =>
        rw [hg] at h
        exact ⟨[], c :: s, rfl, by simp, by simpa using h⟩
    · simp only [hc] at h
      exact ⟨[], c :: s, rfl, by simp, by simpa using h⟩

theorem matchItems_groups (items : List Item) :
    ∀ (s w : GoString) (gs : List GoString), matchItems items s = some (w, gs) →
      GroupsOK items gs := by
  induction items with
  | nil =>
    intro s w gs h
    simp only [matchItems, Option.some.injEq, Prod.mk.injEq] at h
    simp [GroupsOK, h.2.symm]
  | cons it items ih =>
    intro s w gs h
    cases it with
    | lit b =>
      cases s with
      | nil => simp [matchItems] at h
      | cons c rest =>
        simp only [matchItems] at h
        by_cases hcb : c = b
        · simp only [hcb, if_true, Option.map_eq_some'] at h
          obtain ⟨⟨w', gs'⟩, hm, heq⟩ := h
          simp only [Prod.mk.injEq] at heq
          simp only [GroupsOK]
          exact heq.2 ▸ ih rest w' gs' hm
        · simp [hcb] at h
    | many cls atLeastOne capture =>
      simp only [matchItems] at h
      obtain ⟨pre, post, _, hpre, hk⟩ := greedy_some cls _ s [] (w, gs) h
      simp only [List.nil_append] at hk
      by_cases hemp : (atLeastOne && pre.isEmpty) = true
      · simp [hemp] at hk
      · simp only [hemp, Bool.false_eq_true, if_false, Option.map_eq_some'] at hk
        obtain ⟨⟨w', gs'⟩, hm, heq⟩ := hk
        simp only [Prod.mk.injEq] at heq
        have hrec := ih post w' gs' hm
        cases capture with
        | true =>
          simp only [GroupsOK]
          refine ⟨pre, gs', by simpa using heq.2.symm, hpre, ?_, hrec⟩
          intro hone hnil
          apply hemp
          simp [hone, hnil]
        | false =>
          simp only [GroupsOK, Bool.false_eq_true, if_false] at heq ⊢
          exact heq.2 ▸ hrec

/-- The shape of a successful `FindStringSubmatch`: nine strings, of which the
first, third, fifth and sixth groups are not empty and the fifth is made of
digits. -/
theorem FindStringSubmatch_shape (line : GoString) (h : (FindStringSubmatch line).length = 9) :
    ∃ w g1 g2 g3 g4 g5 g6 g7 g8, FindStringSubmatch line = [w, g1, g2, g3, g4, g5, g6, g7, g8] ∧
      g1 ≠ [] ∧ g3 ≠ [] ∧ g5 ≠ [] ∧ (∀ c ∈ g5, isDigit c = true) ∧ g6 ≠ [] := by
  unfold FindStringSubmatch at h ⊢
  cases hm : matchItems logPattern line with
  | none => simp [hm] at h
  | some r =>
    obtain ⟨w, gs⟩ := r
    have hg := matchItems_groups logPattern line w gs hm
    simp only [logPattern, GroupsOK] at hg
    obtain ⟨g1, r1, e1, -, n1, g2, r2, e2, -, -, g3, r3, e3, -, n3, g4, r4, e4, -, -,
      g5, r5, e5, d5, n5, g6, r6, e6, -, n6, g7, r7, e7, -, -, g8, r8, e8, -, -, e9⟩ := hg
    subst e9 e8 e7 e6 e5 e4 e3 e2 e1
    exact ⟨w, g1, g2, g3, g4, g5, g6, g7, g8, rfl, n1 trivial, n3 trivial, n5 trivial, d5,
      n6 trivial⟩

theorem FindStringSubmatch_exampleLine :
    FindStringSubmatch exampleLine =
      [exampleLine, ascii "10.0.0.1", ascii "13/Sep/2025:21:00:01 +0200", ascii "GET",
        ascii "/index.html HTTP/1.1", ascii "200", ascii "512", ascii "-", ascii "Mozilla/5.0"] := by
  decide

theorem parseDigits_of_digits (g : GoString) (hne : g ≠ []) (hd : ∀ c ∈ g, isDigit c = true) :
    parseDigits g = some (digitsValue g) := by
  unfold parseDigits
  rw [if_pos]
  exact ⟨hne, List.all_eq_true.2 hd⟩

theorem ParseInt_of_digits (g : GoString) (hne : g ≠ []) (hd : ∀ c ∈ g, isDigit c = true) :
    ParseInt g = if digitsValue g ≥ 2 ^ 63 then none else some (digitsValue g : Int) := by
  cases g with
  | nil => exact absurd rfl hne
  | cons b rest =>
    have hb : isDigit b = true := hd b (List.mem_cons_self _ _)
    simp only [isDigit, Bool.and_eq_true, decide_eq_true_eq] at hb
    have h43 : b ≠ 43 := by omega
    have h45 : b ≠ 45 := by omega
    simp only [ParseInt, h43, h45, if_false, parseDigits_of_digits (b :: rest) hne hd]

theorem two63_nat : (2 : Nat) ^ 63 = 9223372036854775808 := by norm_num

theorem two63_int : (2 : Int) ^ 63 = 9223372036854775808 := by norm_num

theorem ParseInt_eq_tokenValue (s : GoString) :
    ParseInt s = match tokenValue s with
      | some v => if -(2 ^ 63) ≤ v ∧ v < 2 ^ 63 then some v else none
      | none => none := by
  cases s with
  | nil => rfl
  | cons b ds =>
    simp only [ParseInt, tokenValue, two63_nat, two63_int]
    split_ifs with h1 h2
    · cases parseDigits ds with
      | none => rfl
      | some un =>
        simp only []
        split_ifs <;> first | rfl | (exfalso; omega)
    · cases parseDigits ds with
      | none => rfl
      | some un =>
        simp only []
        split_ifs <;> first | rfl | (exfalso; omega)
    · cases parseDigits (b :: ds) with
      | none => rfl
      | some un =>
        simp only []
        split_ifs <;> first | rfl | (exfalso; omega)

theorem parseLine_ok (timeParse : GoString → GoString → Option Time) (now : Time)
    (line : GoString) (e : LogEntry) (h : parseLine timeParse now line = Except.ok e) :
    ∃ w g1 g2 g3 g4 g5 g6 g7 g8 status,
      FindStringSubmatch line = [w, g1, g2, g3, g4, g5, g6, g7, g8] ∧
      g1 ≠ [] ∧ g3 ≠ [] ∧ g5 ≠ [] ∧ (∀ c ∈ g5, isDigit c = true) ∧ g6 ≠ [] ∧
      Atoi g5 = some status ∧
      e = { IP := g1,
            Timestamp := (match parseTimestamp timeParse g2 with
              | some t => t
              | none => now),
            Method := g3, URL := g4, Status := status,
            Size := (if g6 ≠ ascii "-" then
              (match ParseInt g6 with
                | some s => s
                | none => 0) else 0),
            Referer := g7, UserAgent := g8 } := by
  unfold parseLine at h
  by_cases hlen : (FindStringSubmatch line).length = 9
  · obtain ⟨w, g1, g2, g3, g4, g5, g6, g7, g8, hf, n1, n3, n5, d5, n6⟩ :=
      FindStringSubmatch_shape line hlen
    refine ⟨w, g1, g2, g3, g4, g5, g6, g7, g8, ?_⟩
    simp only [hf, List.length_cons, List.length_nil, ne_eq, not_true_eq_false, if_false,
      List.getD_cons_succ, List.getD_cons_zero] at h
    cases ha : Atoi g5 with
    | none => simp [ha] at h
    | some status =>
      simp only [ha, Except.ok.injEq] at h
      exact ⟨status, hf, n1, n3, n5, d5, n6, rfl, h.symm⟩
  · simp [hlen] at h

theorem exampleLine_parses (timeParse : GoString → GoString → Option Time) (now : Time) :
    parseLine timeParse now exampleLine = Except.ok (exampleEntry timeParse now) := by
  have hstatus : Atoi (ascii "200") = some 200 := by decide
  have hsize : ParseInt (ascii "512") = some 512 := by decide
  have hdash : ascii "512" ≠ ascii "-" := by decide
  simp only [parseLine, FindStringSubmatch_exampleLine, List.length_cons, List.length_nil,
    ne_eq, not_true_eq_false, if_false, List.getD_cons_succ, List.getD_cons_zero, hstatus,
    hsize, hdash, not_false_eq_true, if_true, exampleEntry]

theorem zeroStatusLine_parses :
    parseLine (fun _ _ => none) Time.zero zeroStatusLine = Except.ok zeroStatusEntry := by
  rfl

theorem negativeSizeLine_parses :
    parseLine (fun _ _ => none) Time.zero negativeSizeLine = Except.ok negativeSizeEntry := by
  rfl

/-- Claim C1, evaluated on the code: `parseLine` succeeds on the line of the
example with IP `10.0.0.1`, status 200, size 512 and method `GET`, but the URL of
the entry is `/index.html HTTP/1.1`, the whole text up to the closing quote, and
not `/index.html`. -/
theorem parseLine_exampleLine (timeParse : GoString → GoString → Option Time) (now : Time) :
    ∃ e, parseLine timeParse now exampleLine = Except.ok e ∧ e.IP = ascii "10.0.0.1" ∧
      e.Status = 200 ∧ e.Size = 512 ∧ e.Method = ascii "GET" ∧
      e.URL = ascii "/index.html HTTP/1.1" ∧ e.URL ≠ ascii "/index.html" := by
  refine ⟨exampleEntry timeParse now, exampleLine_parses timeParse now, rfl, rfl, rfl,
    rfl, rfl, ?_⟩
  show ascii "/index.html HTTP/1.1" ≠ ascii "/index.html"
  decide

/-- Claim C2 as stated fails: `parseLine` succeeds on a line whose status field is
`0`, and the entry it returns does not satisfy `IsValid`. -/
theorem parseLine_zeroStatus_not_valid :
    ∃ e, parseLine (fun _ _ => none) Time.zero zeroStatusLine = Except.ok e ∧
      e.Status = 0 ∧ e.IsValid = false :=
  ⟨zeroStatusEntry, zeroStatusLine_parses, rfl, by decide⟩

theorem Atoi_of_digits (g : GoString) (status : Int) (hne : g ≠ [])
    (hd : ∀ c ∈ g, isDigit c = true) (h : Atoi g = some status) : 0 ≤ status := by
  unfold Atoi at h
  rw [ParseInt_of_digits g hne hd] at h
  split_ifs at h
  simp only [Option.some.injEq] at h
  rw [← h]
  exact Int.ofNat_nonneg _

theorem parseLine_entry_fields (timeParse : GoString → GoString → Option Time) (now : Time)
    (line : GoString) (e : LogEntry) (h : parseLine timeParse now line = Except.ok e) :
    e.IP ≠ [] ∧ e.Method ≠ [] ∧ 0 ≤ e.Status ∧ (e.IsValid = true ↔ e.Status ≠ 0) := by
  obtain ⟨w, g1, g2, g3, g4, g5, g6, g7, g8, status, -, n1, n3, n5, d5, -, ha, he⟩ :=
    parseLine_ok timeParse now line e h
  have hs : 0 ≤ status := Atoi_of_digits g5 status n5 d5 ha
  subst he
  refine ⟨n1, n3, hs, ?_⟩
  simp only [LogEntry.IsValid, Bool.and_eq_true, decide_eq_true_eq]
  constructor
  · intro hv
    omega
  · intro hv
    exact ⟨⟨n1, n3⟩, by omega⟩

theorem ParseFile_mem (timeParse : GoString → GoString → Option Time) (nowAt : Nat → Time)
    (blank : GoString → Bool) (lines : List GoString) :
    ∀ (lineNum : Nat) (e : LogEntry), e ∈ ParseFile timeParse nowAt blank lineNum lines →
      ∃ now line, line ∈ lines ∧ parseLine timeParse now line = Except.ok e := by
  induction lines with
  | nil =>
    intro lineNum e h
    simp [ParseFile] at h
  | cons line rest ih =>
    intro lineNum e h
    unfold ParseFile at h
    by_cases hb : blank line = true
    · simp only [hb, if_true] at h
      obtain ⟨now, l, hl, hp⟩ := ih _ e h
      exact ⟨now, l, List.mem_cons_of_mem _ hl, hp⟩
    · simp only [hb, Bool.false_eq_true, if_false] at h
      cases hp : parseLine timeParse (nowAt (lineNum + 1)) line with
      | error err =>
        rw [hp] at h
        obtain ⟨now, l, hl, hp'⟩ := ih _ e h
        exact ⟨now, l, List.mem_cons_of_mem _ hl, hp'⟩
      | ok entry =>
        rw [hp] at h
        rcases List.mem_cons.1 h with rfl | h'
        · exact ⟨_, line, List.mem_cons_self _ _, hp⟩
        · obtain ⟨now, l, hl, hp'⟩ := ih _ e h'
          exact ⟨now, l, List.mem_cons_of_mem _ hl, hp'⟩

/-- Claim C2, amended: every entry `parseLine` returns, and so every entry of the
sequence `ParseFile` returns, has a non-empty IP, a non-empty method and a status
that is not negative; it satisfies `IsValid` exactly when its status is not 0. -/
theorem parseLine_entry_valid_iff (timeParse : GoString → GoString → Option Time)
    (nowAt : Nat → Time) (blank : GoString → Bool) (lineNum : Nat) (lines : List GoString) :
    (∀ (now : Time) (line : GoString) (e : LogEntry),
      parseLine timeParse now line = Except.ok e →
        e.IP ≠ [] ∧ e.Method ≠ [] ∧ 0 ≤ e.Status ∧ (e.IsValid = true ↔ e.Status ≠ 0)) ∧
    (∀ e ∈ ParseFile timeParse nowAt blank lineNum lines,
      e.IP ≠ [] ∧ e.Method ≠ [] ∧ 0 ≤ e.Status ∧ (e.IsValid = true ↔ e.Status ≠ 0)) := by
  refine ⟨fun now line e h => parseLine_entry_fields timeParse now line e h, ?_⟩
  intro e he
  obtain ⟨now, line, -, hp⟩ := ParseFile_mem timeParse nowAt blank lines lineNum e he
  exact parseLine_entry_fields timeParse now line e hp

/-- The amended claim C2 at the line of the example and at a file made of the line
with status `0`: the first entry is valid, the second is returned by `ParseFile`
and is not. -/
theorem parseLine_entry_valid_iff_witness :
    (∃ e, parseLine (fun _ _ => none) Time.zero exampleLine = Except.ok e ∧
      e.IP ≠ [] ∧ e.Method ≠ [] ∧ 0 ≤ e.Status ∧ (e.IsValid = true ↔ e.Status ≠ 0)) ∧
    (∃ e, e ∈ ParseFile (fun _ _ => none) (fun _ => Time.zero) (fun _ => false) 0
        [zeroStatusLine] ∧
      e.IP ≠ [] ∧ e.Method ≠ [] ∧ 0 ≤ e.Status ∧ (e.IsValid = true ↔ e.Status ≠ 0) ∧
      e.IsValid = false) := by
  have hthm := parseLine_entry_valid_iff (fun _ _ => none) (fun _ => Time.zero)
    (fun _ => false) 0 [zeroStatusLine]
  have he := exampleLine_parses (fun _ _ => none) Time.zero
  refine ⟨⟨_, he, hthm.1 Time.zero exampleLine _ he⟩, ?_⟩
  have hmem : zeroStatusEntry ∈
      ParseFile (fun _ _ => none) (fun _ => Time.zero) (fun _ => false) 0 [zeroStatusLine] := by
    decide
  obtain ⟨h1, h2, h3, h4⟩ := hthm.2 _ hmem
  exact ⟨_, hmem, h1, h2, h3, h4, by decide⟩

theorem tokenValue_dash : tokenValue (ascii "-") = none := by decide

theorem tokenValue_neg (s : GoString) (v : Int) (h : tokenValue s = some v) (hv : v < 0) :
    s.head? = some 45 := by
  cases s with
  | nil => simp [tokenValue] at h
  | cons b ds =>
    simp only [tokenValue] at h
    split_ifs at h with h1 h2
    · cases hp : parseDigits ds with
      | none => simp [hp] at h
      | some n =>
        simp only [hp, Option.some.injEq] at h
        omega
    · simp [h2]
    · cases hp : parseDigits (b :: ds) with
      | none => simp [hp] at h
      | some n =>
        simp only [hp, Option.some.injEq] at h
        omega

/-- Claim C3 as stated fails: on a line whose size field is `-5`, `parseLine`
succeeds and the size of the entry is -5, a negative integer. -/
theorem parseLine_negativeSize :
    ∃ e, parseLine (fun _ _ => none) Time.zero negativeSizeLine = Except.ok e ∧
      sizeToken negativeSizeLine = ascii "-5" ∧ e.Size = -5 ∧ e.Size < 0 :=
  ⟨negativeSizeEntry, negativeSizeLine_parses, by decide, rfl, by decide⟩

/-- Claim C3, amended: when `parseLine` succeeds, the size of the entry is the
value of the size token if the token is a base-10 integer, with an optional sign,
that fits 64 signed bits, and 0 otherwise, in particular for the token `-`; the
size is negative only for a token that starts with a minus sign. -/
theorem parseLine_size (timeParse : GoString → GoString → Option Time) (now : Time)
    (line : GoString) (e : LogEntry) (h : parseLine timeParse now line = Except.ok e) :
    e.Size = (match tokenValue (sizeToken line) with
      | some v => if -(2 ^ 63) ≤ v ∧ v < 2 ^ 63 then v else 0
      | none => 0) ∧
    (sizeToken line = ascii "-" → e.Size = 0) ∧
    (e.Size < 0 → (sizeToken line).head? = some 45) ∧
    (-(2 ^ 63) ≤ e.Size ∧ e.Size < 2 ^ 63) := by
  obtain ⟨w, g1, g2, g3, g4, g5, g6, g7, g8, status, hf, -, -, -, -, -, -, he⟩ :=
    parseLine_ok timeParse now line e h
  have htok : sizeToken line = g6 := by simp [sizeToken, hf]
  have hsize : e.Size = (match tokenValue g6 with
      | some v => if -(2 ^ 63) ≤ v ∧ v < 2 ^ 63 then v else 0
      | none => 0) := by
    subst he
    show ((if g6 ≠ ascii "-" then (match ParseInt g6 with
            | some s => s
            | none => 0) else 0 : Int)) = _
    by_cases hd : g6 = ascii "-"
    · subst hd
      simp [tokenValue_dash]
    · rw [if_pos hd, ParseInt_eq_tokenValue]
      cases tokenValue g6 with
      | none => rfl
      | some v =>
        simp only []
        split_ifs <;> rfl
  rw [htok]
  refine ⟨hsize, ?_, ?_, ?_⟩
  · intro hd
    rw [hsize, hd, tokenValue_dash]
  · intro hneg
    rw [hsize] at hneg
    cases hv : tokenValue g6 with
    | none => simp [hv] at hneg
    | some v =>
      simp only [hv] at hneg
      split_ifs at hneg
      · exact tokenValue_neg g6 v hv hneg
      · omega
  · rw [hsize]
    cases tokenValue g6 with
    | none => simp only []; norm_num
    | some v =>
      simp only []
      split_ifs with hr
      · exact hr
      · norm_num

/-- The amended claim C3 at the line whose size field is `-5`. -/
theorem parseLine_size_witness :
    parseLine (fun _ _ => none) Time.zero negativeSizeLine = Except.ok negativeSizeEntry ∧
      negativeSizeEntry.Size = (match tokenValue (sizeToken negativeSizeLine) with
        | some v => if -(2 ^ 63) ≤ v ∧ v < 2 ^ 63 then v else 0
        | none => 0) ∧
      (sizeToken negativeSizeLine).head? = some 45 :=
  ⟨negativeSizeLine_parses,
    (parseLine_size (fun _ _ => none) Time.zero negativeSizeLine negativeSizeEntry
      negativeSizeLine_parses).1,
    (parseLine_size (fun _ _ => none) Time.zero negativeSizeLine negativeSizeEntry
      negativeSizeLine_parses).2.2.1 (by decide)⟩

/-! ## Maps -/

theorem mapKeys_mapSet {K V : Type} [DecidableEq K] (m : List (K × V)) (k : K) (v : V) :
    mapKeys (mapSet m k v) = if k ∈ mapKeys m then mapKeys m else mapKeys m ++ [k] := by
  induction m with
  | nil => simp [mapSet, mapKeys]
  | cons kv rest ih =>
    obtain ⟨k', v'⟩ := kv
    unfold mapKeys at ih ⊢
    by_cases hk : k' = k
    · simp [mapSet, hk]
    · have hk' : ¬ k = k' := fun h => hk h.symm
      simp only [mapSet, hk, if_false, List.map_cons, ih, List.mem_cons, hk', false_or]
      split_ifs <;> simp

theorem mapGet_mapSet {K V : Type} [DecidableEq K] (m : List (K × V)) (k k' : K) (v z : V) :
    mapGet (mapSet m k v) k' z = if k' = k then v else mapGet m k' z := by
  induction m with
  | nil =>
    by_cases h : k' = k
    · simp [mapSet, mapGet, h]
    · have h' : ¬ k = k' := fun e => h e.symm
      simp [mapSet, mapGet, h, h']
  | cons kv rest ih =>
    obtain ⟨k1, v1⟩ := kv
    by_cases h1 : k1 = k
    · subst h1
      by_cases h : k' = k1
      · simp [mapSet, mapGet, h]
      · have h' : ¬ k1 = k' := fun e => h e.symm
        simp [mapSet, mapGet, h, h']
    · simp only [mapSet, h1, if_false, mapGet, ih]
      by_cases h : k1 = k'
      · have : ¬ k' = k := fun e => h1 (h.trans e)
        simp [h, this]
      · simp [h]

theorem mapKeys_nodup_mapSet {K V : Type} [DecidableEq K] (m : List (K × V)) (k : K) (v : V)
    (h : (mapKeys m).Nodup) : (mapKeys (mapSet m k v)).Nodup := by
  rw [mapKeys_mapSet]
  split_ifs with hk
  · exact h
  · exact List.Nodup.append h (List.nodup_singleton k) (by simpa using hk)

theorem mapGet_of_not_mem {K V : Type} [DecidableEq K] (m : List (K × V)) (k : K) (z : V)
    (h : k ∉ mapKeys m) : mapGet m k z = z := by
  induction m with
  | nil => rfl
  | cons kv rest ih =>
    obtain ⟨k1, v1⟩ := kv
    simp only [mapKeys, List.map_cons, List.mem_cons, not_or] at h
    have h1 : ¬ k1 = k := fun e => h.1 e.symm
    simp only [mapGet, h1, if_false]
    exact ih h.2

theorem sum_mapIncr {K : Type} [DecidableEq K] (m : List (K × Nat)) (k : K) :
    ((mapIncr m k).map Prod.snd).sum = (m.map Prod.snd).sum + 1 := by
  induction m with
  | nil => simp [mapIncr, mapSet, mapGet]
  | cons kv rest ih =>
    obtain ⟨k1, v1⟩ := kv
    unfold mapIncr at ih ⊢
    by_cases h1 : k1 = k
    · simp [mapSet, mapGet, h1]
      omega
    · simp only [mapSet, mapGet, h1, if_false, List.map_cons, List.sum_cons, ih]
      omega

/-! ## Loops -/

theorem foldl_proj {σ α β : Type} (step : σ → α → σ) (proj : σ → β) (g : β → α → β)
    (h : ∀ s a, proj (step s a) = g (proj s) a) (l : List α) :
    ∀ s, proj (l.foldl step s) = l.foldl g (proj s) := by
  induction l with
  | nil => intro s; rfl
  | cons a l ih =>
    intro s
    simp only [List.foldl_cons, ih, h]

theorem foldl_count {α : Type} (p : α → Bool) (l : List α) :
    ∀ n : Nat, l.foldl (fun n a => if p a then n + 1 else n) n = n + (l.filter p).length := by
  induction l with
  | nil => intro n; rfl
  | cons a l ih =>
    intro n
    by_cases h : p a = true
    · simp only [List.foldl_cons, h, if_true, ih, List.filter_cons_of_pos, List.length_cons]
      omega
    · simp only [List.foldl_cons, h, Bool.false_eq_true, if_false, ih]
      simp [h]

theorem foldl_collect {α β : Type} (p : α → Bool) (f : α → List β) (l : List α) :
    ∀ acc : List β, l.foldl (fun acc a => if p a then acc ++ f a else acc) acc =
      acc ++ (l.filter p).flatMap f := by
  induction l with
  | nil => intro acc; simp
  | cons a l ih =>
    intro acc
    by_cases h : p a = true
    · simp [List.foldl_cons, h, ih]
    · simp [List.foldl_cons, h, ih]

theorem step_TotalRequests (s : AnalyzeState) (e : LogEntry) :
    (analyzeStep s e).stats.TotalRequests =
      if e.IsValid then s.stats.TotalRequests + 1 else s.stats.TotalRequests := by
  unfold analyzeStep
  by_cases hv : e.IsValid = true
  · simp only [hv, Bool.not_true, Bool.false_eq_true, if_false, if_true]
    split_ifs <;> rfl
  · simp [hv]

theorem step_TopIPs (s : AnalyzeState) (e : LogEntry) :
    (analyzeStep s e).stats.TopIPs =
      if e.IsValid then mapIncr s.stats.TopIPs e.IP else s.stats.TopIPs := by
  unfold analyzeStep
  by_cases hv : e.IsValid = true
  · simp only [hv, Bool.not_true, Bool.false_eq_true, if_false, if_true]
    split_ifs <;> rfl
  · simp [hv]

theorem step_uniqueIPs (s : AnalyzeState) (e : LogEntry) :
    (analyzeStep s e).uniqueIPs =
      if e.IsValid then mapSet s.uniqueIPs e.IP true else s.uniqueIPs := by
  unfold analyzeStep
  by_cases hv : e.IsValid = true
  · simp [hv]
  · simp [hv]

theorem step_errorCount (s : AnalyzeState) (e : LogEntry) :
    (analyzeStep s e).errorCount =
      if (e.IsValid && decide (e.Status ≥ 400)) then s.errorCount + 1 else s.errorCount := by
  unfold analyzeStep
  by_cases hv : e.IsValid = true
  · simp [hv]
  · simp [hv]

theorem step_SecurityThreats (s : AnalyzeState) (e : LogEntry) :
    (analyzeStep s e).stats.SecurityThreats =
      if e.IsValid then s.stats.SecurityThreats ++ detectThreats e
      else s.stats.SecurityThreats := by
  unfold analyzeStep
  by_cases hv : e.IsValid = true
  · simp only [hv, Bool.not_true, Bool.false_eq_true, if_false, if_true]
    split_ifs <;> rfl
  · simp [hv]

theorem step_ipRequestCount (s : AnalyzeState) (e : LogEntry) :
    (analyzeStep s e).ipRequestCount =
      if e.IsValid then
        mapSet s.ipRequestCount e.IP (mapGet s.ipRequestCount e.IP [] ++ [e.Timestamp])
      else s.ipRequestCount := by
  unfold analyzeStep
  by_cases hv : e.IsValid = true
  · simp [hv]
  · simp [hv]

theorem step_Start (s : AnalyzeState) (e : LogEntry) :
    (analyzeStep s e).stats.TimeRange.Start =
      if e.IsValid && e.Timestamp.Before s.stats.TimeRange.Start then e.Timestamp
      else s.stats.TimeRange.Start := by
  unfold analyzeStep
  by_cases hv : e.IsValid = true
  · simp only [hv, Bool.not_true, Bool.false_eq_true, if_false, if_true, Bool.true_and]
    split_ifs <;> rfl
  · simp [hv]

theorem step_End (s : AnalyzeState) (e : LogEntry) :
    (analyzeStep s e).stats.TimeRange.End =
      if e.IsValid && e.Timestamp.After s.stats.TimeRange.End then e.Timestamp
      else s.stats.TimeRange.End := by
  unfold analyzeStep
  by_cases hv : e.IsValid = true
  · simp only [hv, Bool.not_true, Bool.false_eq_true, if_false, if_true, Bool.true_and]
    split_ifs <;> rfl
  · simp [hv]

theorem loop_TotalRequests (l : List LogEntry) (s : AnalyzeState) :
    (l.foldl analyzeStep s).stats.TotalRequests =
      s.stats.TotalRequests + (l.filter LogEntry.IsValid).length := by
  rw [foldl_proj analyzeStep (fun s => s.stats.TotalRequests)
    (fun n e => if e.IsValid then n + 1 else n) step_TotalRequests l s, foldl_count]

theorem loop_errorCount (l : List LogEntry) (s : AnalyzeState) :
    (l.foldl analyzeStep s).errorCount = s.errorCount + errorsOf l := by
  rw [foldl_proj analyzeStep (fun s => s.errorCount)
    (fun n e => if (e.IsValid && decide (e.Status ≥ 400)) then n + 1 else n)
    step_errorCount l s, foldl_count]
  rfl

theorem loop_TopIPs (l : List LogEntry) (s : AnalyzeState) :
    (l.foldl analyzeStep s).stats.TopIPs =
      l.foldl (fun m e => if e.IsValid then mapIncr m e.IP else m) s.stats.TopIPs :=
  foldl_proj analyzeStep (fun s => s.stats.TopIPs)
    (fun m e => if e.IsValid then mapIncr m e.IP else m) step_TopIPs l s

theorem loop_uniqueIPs (l : List LogEntry) (s : AnalyzeState) :
    (l.foldl analyzeStep s).uniqueIPs =
      l.foldl (fun m e => if e.IsValid then mapSet m e.IP true else m) s.uniqueIPs :=
  foldl_proj analyzeStep (fun s => s.uniqueIPs)
    (fun m e => if e.IsValid then mapSet m e.IP true else m) step_uniqueIPs l s

theorem loop_ipRequestCount (l : List LogEntry) (s : AnalyzeState) :
    (l.foldl analyzeStep s).ipRequestCount =
      l.foldl (fun m e =>
        if e.IsValid then mapSet m e.IP (mapGet m e.IP [] ++ [e.Timestamp]) else m)
        s.ipRequestCount :=
  foldl_proj analyzeStep (fun s => s.ipRequestCount)
    (fun m e => if e.IsValid then mapSet m e.IP (mapGet m e.IP [] ++ [e.Timestamp]) else m)
    step_ipRequestCount l s

theorem loop_SecurityThreats (l : List LogEntry) (s : AnalyzeState) :
    (l.foldl analyzeStep s).stats.SecurityThreats =
      s.stats.SecurityThreats ++ (l.filter LogEntry.IsValid).flatMap detectThreats := by
  rw [foldl_proj analyzeStep (fun s => s.stats.SecurityThreats)
    (fun acc e => if e.IsValid then acc ++ detectThreats e else acc)
    step_SecurityThreats l s, foldl_collect]

theorem TotalRequests_eq (rt : Runtime) (entries : List LogEntry) :
    (Analyze rt entries).TotalRequests = (entries.filter LogEntry.IsValid).length := by
  cases entries with
  | nil => rfl
  | cons first rest =>
    unfold Analyze
    simp only []
    split_ifs
    all_goals
      show (AnalyzeState.stats _).TotalRequests = _
      rw [loop_TotalRequests]
      simp [emptyStatistics]

theorem TopIPs_eq_fold (rt : Runtime) (entries : List LogEntry) :
    (Analyze rt entries).TopIPs =
      entries.foldl (fun m e => if e.IsValid then mapIncr m e.IP else m) [] := by
  cases entries with
  | nil => rfl
  | cons first rest =>
    unfold Analyze
    simp only []
    split_ifs
    all_goals
      show (AnalyzeState.stats _).TopIPs = _
      rw [loop_TopIPs]
      rfl

theorem UniqueIPs_eq_fold (rt : Runtime) (entries : List LogEntry) :
    (Analyze rt entries).UniqueIPs =
      (entries.foldl (fun m e => if e.IsValid then mapSet m e.IP true else m) []).length := by
  cases entries with
  | nil => rfl
  | cons first rest =>
    unfold Analyze
    simp only []
    split_ifs
    all_goals
      show (AnalyzeState.uniqueIPs _).length = _
      rw [loop_uniqueIPs]

theorem ErrorRate_eq (rt : Runtime) (entries : List LogEntry) :
    (Analyze rt entries).ErrorRate =
      if (entries.filter LogEntry.IsValid).length > 0 then
        (errorsOf entries : ℚ) / ((entries.filter LogEntry.IsValid).length : ℚ) * 100
      else 0 := by
  cases entries with
  | nil => rfl
  | cons first rest =>
    unfold Analyze
    simp only [loop_TotalRequests, loop_errorCount, emptyStatistics, zero_add]
    split_ifs with h1
    · rfl
    · show (AnalyzeState.stats _).ErrorRate = 0
      rw [foldl_proj analyzeStep (fun s => s.stats.ErrorRate) (fun r _ => r) ?_]
      · simp
      · intro s e
        unfold analyzeStep
        by_cases hv : e.IsValid = true
        · simp only [hv, Bool.not_true, Bool.false_eq_true, if_false]
          split_ifs <;> rfl
        · simp [hv]

/-! ## The maps `Analyze` builds -/

theorem mem_foldl_seenStep (l : List LogEntry) (ip : GoString) :
    ∀ ks : List GoString, ip ∈ l.foldl seenStep ks ↔
      ip ∈ ks ∨ ∃ e ∈ l, e.IsValid = true ∧ e.IP = ip := by
  induction l with
  | nil => intro ks; simp
  | cons a l ih =>
    intro ks
    rw [List.foldl_cons, ih]
    unfold seenStep
    by_cases hv : a.IsValid = true
    · by_cases hm : a.IP ∈ ks
      · simp only [hv, hm, if_true, List.mem_cons, exists_eq_or_imp, true_and]
        constructor
        · rintro (h | h)
          · exact Or.inl h
          · exact Or.inr (Or.inr h)
        · rintro (h | h | h)
          · exact Or.inl h
          · exact Or.inl (h ▸ hm)
          · exact Or.inr h
      · simp only [hv, hm, if_true, if_false, List.mem_append, List.mem_singleton,
          List.mem_cons, exists_eq_or_imp, true_and, List.not_mem_nil, or_false]
        constructor
        · rintro ((h | h) | h)
          · exact Or.inl h
          · exact Or.inr (Or.inl h.symm)
          · exact Or.inr (Or.inr h)
        · rintro (h | h | h)
          · exact Or.inl (Or.inl h)
          · exact Or.inl (Or.inr h.symm)
          · exact Or.inr h
    · simp only [hv, Bool.false_eq_true, if_false, List.mem_cons, exists_eq_or_imp, false_and,
        false_or]

theorem nodup_foldl_seenStep (l : List LogEntry) :
    ∀ ks : List GoString, ks.Nodup → (l.foldl seenStep ks).Nodup := by
  induction l with
  | nil => intro ks h; exact h
  | cons a l ih =>
    intro ks h
    rw [List.foldl_cons]
    apply ih
    unfold seenStep
    split_ifs with hv hm
    · exact h
    · exact List.Nodup.append h (List.nodup_singleton _) (by simpa using hm)
    · exact h

theorem mapKeys_countFold (l : List LogEntry) (m : List (GoString × Nat)) :
    mapKeys (l.foldl (fun m e => if e.IsValid then mapIncr m e.IP else m) m) =
      l.foldl seenStep (mapKeys m) := by
  refine foldl_proj (fun m e => if e.IsValid then mapIncr m e.IP else m) mapKeys seenStep ?_ l m
  intro m e
  unfold seenStep mapIncr
  split_ifs <;> simp_all [mapKeys_mapSet]

theorem mapKeys_uniqueFold (l : List LogEntry) (m : List (GoString × Bool)) :
    mapKeys (l.foldl (fun m e => if e.IsValid then mapSet m e.IP true else m) m) =
      l.foldl seenStep (mapKeys m) := by
  refine foldl_proj (fun m e => if e.IsValid then mapSet m e.IP true else m) mapKeys seenStep
    ?_ l m
  intro m e
  unfold seenStep
  split_ifs <;> simp_all [mapKeys_mapSet]

theorem mapKeys_requestFold (l : List LogEntry) (m : List (GoString × List Time)) :
    mapKeys (l.foldl (fun m e =>
      if e.IsValid then mapSet m e.IP (mapGet m e.IP [] ++ [e.Timestamp]) else m) m) =
      l.foldl seenStep (mapKeys m) := by
  refine foldl_proj (fun m e =>
    if e.IsValid then mapSet m e.IP (mapGet m e.IP [] ++ [e.Timestamp]) else m) mapKeys
    seenStep ?_ l m
  intro m e
  unfold seenStep
  split_ifs <;> simp_all [mapKeys_mapSet]

theorem mapGet_countFold (l : List LogEntry) (ip : GoString) (m : List (GoString × Nat)) :
    mapGet (l.foldl (fun m e => if e.IsValid then mapIncr m e.IP else m) m) ip 0 =
      mapGet m ip 0 + requestsOf l ip := by
  rw [foldl_proj (fun m e => if e.IsValid then mapIncr m e.IP else m) (fun m => mapGet m ip 0)
    (fun n e => if (e.IsValid && decide (e.IP = ip)) then n + 1 else n) ?_ l m, foldl_count]
  · rfl
  · intro m e
    by_cases hv : e.IsValid = true
    · by_cases hi : e.IP = ip
      · simp [hv, hi, mapIncr, mapGet_mapSet]
      · have hi' : ¬ ip = e.IP := fun h => hi h.symm
        simp [hv, hi, hi', mapIncr, mapGet_mapSet]
    · simp [hv]

theorem sum_countFold (l : List LogEntry) (m : List (GoString × Nat)) :
    ((l.foldl (fun m e => if e.IsValid then mapIncr m e.IP else m) m).map Prod.snd).sum =
      (m.map Prod.snd).sum + (l.filter LogEntry.IsValid).length := by
  rw [foldl_proj (fun m e => if e.IsValid then mapIncr m e.IP else m)
    (fun m => (m.map Prod.snd).sum) (fun n e => if e.IsValid then n + 1 else n) ?_ l m,
    foldl_count]
  intro m e
  by_cases hv : e.IsValid = true
  · simp [hv, sum_mapIncr]
  · simp [hv]

theorem mapGet_requestFold (l : List LogEntry) (ip : GoString)
    (m : List (GoString × List Time)) :
    mapGet (l.foldl (fun m e =>
      if e.IsValid then mapSet m e.IP (mapGet m e.IP [] ++ [e.Timestamp]) else m) m) ip [] =
      mapGet m ip [] ++ timestampsOf l ip := by
  rw [foldl_proj (fun m e =>
      if e.IsValid then mapSet m e.IP (mapGet m e.IP [] ++ [e.Timestamp]) else m)
    (fun m => mapGet m ip [])
    (fun ts e => if (e.IsValid && decide (e.IP = ip)) then ts ++ [e.Timestamp] else ts) ?_ l m,
    foldl_collect]
  · congr 1
    unfold timestampsOf
    induction l with
    | nil => rfl
    | cons a l ih =>
      by_cases hv : a.IsValid = true
      · by_cases hi : a.IP = ip
        · simp [List.filter_cons, hv, hi, ih]
        · simp [List.filter_cons, hv, hi, ih]
      · simp [List.filter_cons, hv, ih]
  · intro m e
    by_cases hv : e.IsValid = true
    · by_cases hi : e.IP = ip
      · simp [hv, hi, mapGet_mapSet]
      · have hi' : ¬ ip = e.IP := fun h => hi h.symm
        simp [hv, hi, hi', mapGet_mapSet]
    · simp [hv]

/-- Claim C6: an IP is a key of `TopIPs` exactly when some valid entry has it; the
count stored for it is the number of valid entries with that IP, so a key never has
count 0; no key occurs twice, `UniqueIPs` is the number of keys, and the counts sum to
`TotalRequests`. -/
theorem Analyze_TopIPs (rt : Runtime) (entries : List LogEntry) (ip : GoString) :
    (ip ∈ mapKeys (Analyze rt entries).TopIPs ↔ ∃ e ∈ entries, e.IsValid = true ∧ e.IP = ip) ∧
    mapGet (Analyze rt entries).TopIPs ip 0 = requestsOf entries ip ∧
    (ip ∈ mapKeys (Analyze rt entries).TopIPs → 0 < mapGet (Analyze rt entries).TopIPs ip 0) ∧
    (mapKeys (Analyze rt entries).TopIPs).Nodup ∧
    (Analyze rt entries).UniqueIPs = (mapKeys (Analyze rt entries).TopIPs).length ∧
    ((Analyze rt entries).TopIPs.map Prod.snd).sum = (Analyze rt entries).TotalRequests := by
  have hkeys : mapKeys (Analyze rt entries).TopIPs = entries.foldl seenStep [] := by
    rw [TopIPs_eq_fold, mapKeys_countFold]
    rfl
  have hmem : ip ∈ mapKeys (Analyze rt entries).TopIPs ↔
      ∃ e ∈ entries, e.IsValid = true ∧ e.IP = ip := by
    rw [hkeys, mem_foldl_seenStep]
    simp
  have hget : mapGet (Analyze rt entries).TopIPs ip 0 = requestsOf entries ip := by
    rw [TopIPs_eq_fold, mapGet_countFold]
    simp [mapGet]
  refine ⟨hmem, hget, ?_, ?_, ?_, ?_⟩
  · intro h
    rw [hget]
    obtain ⟨e, he, hv, hip⟩ := hmem.1 h
    unfold requestsOf
    apply List.length_pos_of_mem (a := e)
    simp [List.mem_filter, he, hv, hip]
  · rw [hkeys]
    exact nodup_foldl_seenStep entries [] List.nodup_nil
  · have h := congrArg List.length (mapKeys_uniqueFold entries [])
    simp only [mapKeys, List.length_map, List.map_nil] at h
    rw [hkeys, UniqueIPs_eq_fold, h]
  · rw [TopIPs_eq_fold, sum_countFold, TotalRequests_eq]
    simp

/-! ## The error rate and the page rule -/

theorem errorsOf_le (l : List LogEntry) : errorsOf l ≤ (l.filter LogEntry.IsValid).length := by
  unfold errorsOf
  induction l with
  | nil => simp
  | cons a l ih =>
    by_cases hv : a.IsValid = true
    · by_cases hs : a.Status ≥ 400
      · simp [List.filter_cons, hv, hs, ih]
      · simp only [List.filter_cons, hv, hs, decide_False, Bool.and_false, Bool.false_eq_true,
          if_false, if_true, List.length_cons]
        omega
    · simp only [List.filter_cons, hv, Bool.false_and, Bool.false_eq_true, if_false]
      exact ih

theorem errorsOf_eq_zero (l : List LogEntry) (h : ∀ e ∈ l, ¬ e.Status ≥ 400) :
    errorsOf l = 0 := by
  unfold errorsOf
  rw [List.length_eq_zero, List.filter_eq_nil_iff]
  intro e he
  simp [h e he]

/-- Claim C7: the error rate `Analyze` returns is `100 * e / n`, with `e` the number
of valid entries whose status is 400 or more and `n = TotalRequests`, and 0 when
`n = 0`; it lies between 0 and 100, and it is 0 when no entry has a status of 400
or more. -/
theorem Analyze_ErrorRate_bounds (rt : Runtime) (entries : List LogEntry) :
    (Analyze rt entries).ErrorRate =
      (if (Analyze rt entries).TotalRequests = 0 then 0
        else 100 * (errorsOf entries : ℚ) / ((Analyze rt entries).TotalRequests : ℚ)) ∧
    0 ≤ (Analyze rt entries).ErrorRate ∧ (Analyze rt entries).ErrorRate ≤ 100 ∧
    ((∀ e ∈ entries, ¬ e.Status ≥ 400) → (Analyze rt entries).ErrorRate = 0) := by
  rw [ErrorRate_eq, TotalRequests_eq]
  have hle := errorsOf_le entries
  by_cases hn : (entries.filter LogEntry.IsValid).length = 0
  · simp [hn]
  · have hpos : 0 < (entries.filter LogEntry.IsValid).length := Nat.pos_of_ne_zero hn
    have hq : (0 : ℚ) < ((entries.filter LogEntry.IsValid).length : ℚ) := by exact_mod_cast hpos
    have hleq : (errorsOf entries : ℚ) ≤ ((entries.filter LogEntry.IsValid).length : ℚ) := by
      exact_mod_cast hle
    have hnn : (0 : ℚ) ≤ (errorsOf entries : ℚ) := by exact_mod_cast Nat.zero_le _
    simp only [gt_iff_lt, hpos, if_true, hn, if_false]
    refine ⟨by ring, ?_, ?_, ?_⟩
    · exact mul_nonneg (div_nonneg hnn hq.le) (by norm_num)
    · have h1 : (errorsOf entries : ℚ) / ((entries.filter LogEntry.IsValid).length : ℚ) ≤ 1 :=
        (div_le_one hq).2 hleq
      linarith
    · intro h
      rw [errorsOf_eq_zero entries h]
      simp

theorem Index_spec (b : Nat) (s : GoString) :
    (Index s b = -1 ∨ 0 ≤ Index s b) ∧
      (if Index s b ≠ -1 then s.take (Index s b).toNat else s) =
        s.takeWhile (fun c => decide (c ≠ b)) := by
  induction s with
  | nil => simp [Index]
  | cons c rest ih =>
    obtain ⟨hr, ht⟩ := ih
    unfold Index
    by_cases hc : c = b
    · simp [hc]
    · have htw : List.takeWhile (fun c => decide (c ≠ b)) (c :: rest) =
          c :: List.takeWhile (fun c => decide (c ≠ b)) rest := by
        rw [List.takeWhile_cons, if_pos (by simpa using hc)]
      rw [htw]
      by_cases hi : Index rest b = -1
      · rw [if_neg (by simpa using hi)] at ht
        simp only [hc, hi, if_false, if_true, ne_eq, not_true_eq_false, true_or, true_and]
        rw [← ht]
      · have hnn : 0 ≤ Index rest b := by
          rcases hr with h | h
          · exact absurd h hi
          · exact h
        have hne : Index rest b + 1 ≠ -1 := by omega
        have htn : (Index rest b + 1).toNat = (Index rest b).toNat + 1 := by omega
        rw [if_pos hi] at ht
        simp only [hc, hi, if_false, ne_eq, hne, not_false_eq_true, if_true, htn,
          List.take_succ_cons]
        rw [← ht]
        exact ⟨Or.inr (by omega), rfl⟩

/-- Claim C8: `normalizePage(u)` is `T(p)`, with `p` the prefix of `u` before its
first `?` (all of `u` when it has none) and `T` the truncation to 97 bytes followed
by `...` of a string longer than 100 bytes; so the result has no `?` and at most 100
bytes.  Strings are sequences of bytes and lengths count bytes, as `len` does. -/
theorem normalizePage_eq (u : GoString) :
    normalizePage u = truncate100 (beforeQuery u) ∧ 63 ∉ normalizePage u ∧
      (normalizePage u).length ≤ 100 := by
  have heq : normalizePage u = truncate100 (beforeQuery u) := by
    unfold normalizePage truncateString truncate100 beforeQuery
    simp only [(Index_spec 63 u).2]
  have hq : 63 ∉ beforeQuery u := by
    intro h
    have := List.mem_takeWhile_imp h
    simp at this
  rw [heq]
  unfold truncate100
  split_ifs with hlen
  · exact ⟨rfl, hq, hlen⟩
  · refine ⟨rfl, ?_, ?_⟩
    · intro h
      rcases List.mem_append.1 h with h | h
      · exact hq (List.mem_of_mem_take h)
      · revert h
        decide
    · simp only [List.length_append, List.length_take]
      have : (ascii "...").length = 3 := by decide
      omega

/-! ## Comparisons of times -/

theorem Before_eq_true (a b : Time) : a.Before b = true ↔ a.nanos < b.nanos := by
  simp [Time.Before]

theorem Before_eq_false (a b : Time) : a.Before b = false ↔ b.nanos ≤ a.nanos := by
  simp [Time.Before]

/-! ## The time range and the statistics of an input with no valid entry -/

theorem foldl_analyzeStep_of_no_valid (l : List LogEntry) (h : l.filter LogEntry.IsValid = []) :
    ∀ s : AnalyzeState, l.foldl analyzeStep s = s := by
  induction l with
  | nil => intro s; rfl
  | cons a l ih =>
    intro s
    have ha : a.IsValid = false := by
      by_contra hc
      simp [List.filter_cons, hc] at h
    have hl : l.filter LogEntry.IsValid = [] := by
      simpa [List.filter_cons, ha] using h
    rw [List.foldl_cons, ih hl]
    simp [analyzeStep, ha]

/-- What `Analyze` returns when no entry is valid: the six maps are empty, the two
rates are 0 and there is no threat, but the time range is the timestamp of the first
entry whenever there is one. -/
theorem Analyze_of_no_valid (rt : Runtime) (hrt : rt.Lawful) (entries : List LogEntry)
    (h : (Analyze rt entries).TotalRequests = 0) :
    (Analyze rt entries).TopIPs = [] ∧ (Analyze rt entries).TopPages = [] ∧
    (Analyze rt entries).TopUserAgents = [] ∧ (Analyze rt entries).StatusCodes = [] ∧
    (Analyze rt entries).MethodDistribution = [] ∧
    (Analyze rt entries).HourlyDistribution = [] ∧
    (Analyze rt entries).ErrorRate = 0 ∧ (Analyze rt entries).AverageResponseSize = 0 ∧
    (Analyze rt entries).SecurityThreats = [] ∧
    (Analyze rt entries).TimeRange =
      (match entries with
        | [] => { Start := Time.zero, End := Time.zero }
        | first :: _ => { Start := first.Timestamp, End := first.Timestamp }) := by
  rw [TotalRequests_eq, List.length_eq_zero] at h
  cases entries with
  | nil => exact ⟨rfl, rfl, rfl, rfl, rfl, rfl, rfl, rfl, rfl, rfl⟩
  | cons first rest =>
    have hbf : rt.rangeBruteForce [] = [] := List.Perm.eq_nil (hrt.2.1 [])
    have han : rt.rangeAnomalies [] = [] := List.Perm.eq_nil (hrt.2.2 [])
    unfold Analyze
    simp only [foldl_analyzeStep_of_no_valid _ h, emptyStatistics, gt_iff_lt, lt_self_iff_false,
      if_false, detectBruteForce, detectTrafficAnomalies, hbf, han, List.foldl_nil,
      List.append_nil, and_self]

theorem foldl_earliest (l : List LogEntry) :
    ∀ s : Time,
      let r := l.foldl (fun start e =>
        if e.IsValid && e.Timestamp.Before start then e.Timestamp else start) s
      (r = s ∨ r ∈ validTimestamps l) ∧ Time.Before s r = false ∧
        ∀ t ∈ validTimestamps l, Time.Before t r = false := by
  induction l with
  | nil =>
    intro s
    simp [validTimestamps, Time.Before]
  | cons a l ih =>
    intro s
    simp only [List.foldl_cons]
    by_cases hv : a.IsValid = true
    · by_cases hb : a.Timestamp.Before s = true
      · obtain ⟨h1, h2, h3⟩ := ih a.Timestamp
        simp only [hv, hb, Bool.and_self, if_true]
        have hvt : validTimestamps (a :: l) = a.Timestamp :: validTimestamps l := by
          simp [validTimestamps, List.filter_cons, hv]
        rw [hvt]
        refine ⟨Or.inr ?_, ?_, ?_⟩
        · rcases h1 with h | h
          · rw [h]; exact List.mem_cons_self _ _
          · exact List.mem_cons_of_mem _ h
        · rw [Before_eq_false] at h2 ⊢
          rw [Before_eq_true] at hb
          omega
        · intro t ht
          rcases List.mem_cons.1 ht with rfl | ht
          · exact h2
          · exact h3 t ht
      · obtain ⟨h1, h2, h3⟩ := ih s
        simp only [hv, hb, Bool.and_false, Bool.false_eq_true, if_false]
        have hvt : validTimestamps (a :: l) = a.Timestamp :: validTimestamps l := by
          simp [validTimestamps, List.filter_cons, hv]
        rw [hvt]
        refine ⟨?_, h2, ?_⟩
        · rcases h1 with h | h
          · exact Or.inl h
          · exact Or.inr (List.mem_cons_of_mem _ h)
        · intro t ht
          rcases List.mem_cons.1 ht with rfl | ht
          · rw [Before_eq_false] at h2 ⊢
            simp only [Bool.not_eq_true, Before_eq_false] at hb
            omega
          · exact h3 t ht
    · obtain ⟨h1, h2, h3⟩ := ih s
      have hvt : validTimestamps (a :: l) = validTimestamps l := by
        simp [validTimestamps, List.filter_cons, hv]
      simp only [hv, Bool.false_and, Bool.false_eq_true, if_false]
      rw [hvt]
      exact ⟨h1, h2, h3⟩

theorem foldl_latest (l : List LogEntry) :
    ∀ s : Time,
      let r := l.foldl (fun last e =>
        if e.IsValid && e.Timestamp.After last then e.Timestamp else last) s
      (r = s ∨ r ∈ validTimestamps l) ∧ Time.After s r = false ∧
        ∀ t ∈ validTimestamps l, Time.After t r = false := by
  induction l with
  | nil =>
    intro s
    simp [validTimestamps, Time.After]
  | cons a l ih =>
    intro s
    simp only [List.foldl_cons]
    by_cases hv : a.IsValid = true
    · by_cases hb : a.Timestamp.After s = true
      · obtain ⟨h1, h2, h3⟩ := ih a.Timestamp
        simp only [hv, hb, Bool.and_self, if_true]
        have hvt : validTimestamps (a :: l) = a.Timestamp :: validTimestamps l := by
          simp [validTimestamps, List.filter_cons, hv]
        rw [hvt]
        refine ⟨Or.inr ?_, ?_, ?_⟩
        · rcases h1 with h | h
          · rw [h]; exact List.mem_cons_self _ _
          · exact List.mem_cons_of_mem _ h
        · simp only [Time.After, decide_eq_false_iff_not, decide_eq_true_eq, not_lt] at h2 hb ⊢
          omega
        · intro t ht
          rcases List.mem_cons.1 ht with rfl | ht
          · exact h2
          · exact h3 t ht
      · obtain ⟨h1, h2, h3⟩ := ih s
        simp only [hv, hb, Bool.and_false, Bool.false_eq_true, if_false]
        have hvt : validTimestamps (a :: l) = a.Timestamp :: validTimestamps l := by
          simp [validTimestamps, List.filter_cons, hv]
        rw [hvt]
        refine ⟨?_, h2, ?_⟩
        · rcases h1 with h | h
          · exact Or.inl h
          · exact Or.inr (List.mem_cons_of_mem _ h)
        · intro t ht
          rcases List.mem_cons.1 ht with rfl | ht
          · simp only [Time.After, decide_eq_false_iff_not, decide_eq_true_eq, not_lt,
              Bool.not_eq_true] at h2 hb ⊢
            omega
          · exact h3 t ht
    · obtain ⟨h1, h2, h3⟩ := ih s
      have hvt : validTimestamps (a :: l) = validTimestamps l := by
        simp [validTimestamps, List.filter_cons, hv]
      simp only [hv, Bool.false_and, Bool.false_eq_true, if_false]
      rw [hvt]
      exact ⟨h1, h2, h3⟩

theorem TimeRange_eq_fold (rt : Runtime) (first : LogEntry) (rest : List LogEntry) :
    (Analyze rt (first :: rest)).TimeRange.Start =
      (first :: rest).foldl (fun start e =>
        if e.IsValid && e.Timestamp.Before start then e.Timestamp else start) first.Timestamp ∧
    (Analyze rt (first :: rest)).TimeRange.End =
      (first :: rest).foldl (fun last e =>
        if e.IsValid && e.Timestamp.After last then e.Timestamp else last) first.Timestamp := by
  have hs := foldl_proj analyzeStep (fun s => s.stats.TimeRange.Start)
    (fun start e => if e.IsValid && e.Timestamp.Before start then e.Timestamp else start)
    step_Start (first :: rest)
  have he := foldl_proj analyzeStep (fun s => s.stats.TimeRange.End)
    (fun last e => if e.IsValid && e.Timestamp.After last then e.Timestamp else last)
    step_End (first :: rest)
  unfold Analyze
  simp only []
  split_ifs
  all_goals
    constructor
    · show (AnalyzeState.stats _).TimeRange.Start = _
      rw [hs]
    · show (AnalyzeState.stats _).TimeRange.End = _
      rw [he]

/-- What the time range is when the first entry is valid: `Start` is a timestamp of
a valid entry that no valid entry is before, and `End` one that no valid entry is
after. -/
theorem TimeRange_of_first_valid (rt : Runtime) (first : LogEntry) (rest : List LogEntry)
    (h : first.IsValid = true) :
    (Analyze rt (first :: rest)).TimeRange.Start ∈ validTimestamps (first :: rest) ∧
    (∀ t ∈ validTimestamps (first :: rest),
      Time.Before t (Analyze rt (first :: rest)).TimeRange.Start = false) ∧
    (Analyze rt (first :: rest)).TimeRange.End ∈ validTimestamps (first :: rest) ∧
    (∀ t ∈ validTimestamps (first :: rest),
      Time.After t (Analyze rt (first :: rest)).TimeRange.End = false) := by
  obtain ⟨hs, he⟩ := TimeRange_eq_fold rt first rest
  have hmem : first.Timestamp ∈ validTimestamps (first :: rest) := by
    simp [validTimestamps, List.filter_cons, h]
  obtain ⟨a1, -, a3⟩ := foldl_earliest (first :: rest) first.Timestamp
  obtain ⟨b1, -, b3⟩ := foldl_latest (first :: rest) first.Timestamp
  rw [hs, he]
  refine ⟨?_, a3, ?_, b3⟩
  · rcases a1 with h1 | h1
    · rw [h1]; exact hmem
    · exact h1
  · rcases b1 with h1 | h1
    · rw [h1]; exact hmem
    · exact h1

/-- Claim C4, evaluated on the code: on a sequence made of one entry that fails
`IsValid`, `Analyze` returns `TotalRequests = 0`, six empty maps and rates 0, but the
time range is set: `Start` and `End` are the timestamp of that entry, not the zero
time. -/
theorem Analyze_invalid_only (rt : Runtime) :
    (Analyze rt [invalidEntry]).TotalRequests = 0 ∧
    (Analyze rt [invalidEntry]).TopIPs = [] ∧ (Analyze rt [invalidEntry]).TopPages = [] ∧
    (Analyze rt [invalidEntry]).TopUserAgents = [] ∧
    (Analyze rt [invalidEntry]).StatusCodes = [] ∧
    (Analyze rt [invalidEntry]).MethodDistribution = [] ∧
    (Analyze rt [invalidEntry]).HourlyDistribution = [] ∧
    (Analyze rt [invalidEntry]).ErrorRate = 0 ∧
    (Analyze rt [invalidEntry]).AverageResponseSize = 0 ∧
    (Analyze rt [invalidEntry]).TimeRange.Start = invalidEntry.Timestamp ∧
    (Analyze rt [invalidEntry]).TimeRange.End = invalidEntry.Timestamp ∧
    (Analyze rt [invalidEntry]).TimeRange.Start ≠ Time.zero ∧
    (Analyze rt [invalidEntry]).TimeRange.End ≠ Time.zero := by
  refine ⟨rfl, rfl, rfl, rfl, rfl, rfl, rfl, rfl, rfl, rfl, rfl, ?_, ?_⟩
  · show invalidEntry.Timestamp ≠ Time.zero
    decide
  · show invalidEntry.Timestamp ≠ Time.zero
    decide

/-- Claim C5, evaluated on the code: when the first entry fails `IsValid` and is
stamped before the only valid entry, `TimeRange.Start` is the timestamp of the
invalid entry, which is earlier than the timestamp of every valid entry. -/
theorem Analyze_invalid_first (rt : Runtime) :
    (Analyze rt [invalidEntry, validEntry]).TotalRequests = 1 ∧
    validTimestamps [invalidEntry, validEntry] = [validEntry.Timestamp] ∧
    (Analyze rt [invalidEntry, validEntry]).TimeRange.Start = invalidEntry.Timestamp ∧
    (Analyze rt [invalidEntry, validEntry]).TimeRange.End = validEntry.Timestamp ∧
    (Analyze rt [invalidEntry, validEntry]).TimeRange.Start ∉
      validTimestamps [invalidEntry, validEntry] ∧
    ((Analyze rt [invalidEntry, validEntry]).TimeRange.Start).Before validEntry.Timestamp =
      true := by
  refine ⟨rfl, by decide, rfl, rfl, ?_, ?_⟩
  · show invalidEntry.Timestamp ∉ validTimestamps [invalidEntry, validEntry]
    decide
  · show invalidEntry.Timestamp.Before validEntry.Timestamp = true
    decide

/-! ## The sliding window of `detectBruteForce` -/

theorem requestsInWindow_sorted (w : Time) (l : List Time)
    (h : l.Pairwise (fun a b => Time.Before b a = false)) :
    requestsInWindow w l = (l.filter (fun u => u.Before w)).length := by
  induction l with
  | nil => rfl
  | cons a l ih =>
    rw [List.pairwise_cons] at h
    unfold requestsInWindow
    by_cases ha : a.Before w = true
    · simp only [ha, if_true, List.filter_cons_of_pos, List.length_cons, ih h.2]
    · simp only [ha, Bool.false_eq_true, if_false, List.filter_cons, if_false]
      symm
      rw [List.length_eq_zero, List.filter_eq_nil_iff]
      intro b hb
      have h1 := (Before_eq_false b a).1 (h.1 b hb)
      simp only [Bool.not_eq_true, Before_eq_false] at ha ⊢
      omega

theorem windowCount_congr (l : List Time) (t x : Time) (h : t.nanos = x.nanos) :
    windowCount l t = windowCount l x := by
  unfold windowCount
  congr 1
  apply List.filter_congr
  intro u _
  simp [Time.Before, Time.Add, h]

theorem windowCount_cons (l : List Time) (a t : Time) :
    windowCount (a :: l) t =
      (if (!a.Before t && a.Before (t.Add Hour)) then 1 else 0) + windowCount l t := by
  unfold windowCount
  rw [List.filter_cons]
  split_ifs
  · simp
    omega
  · simp

theorem windowCount_le_length (l : List Time) (t : Time) : windowCount l t ≤ l.length :=
  List.length_filter_le _ _

theorem windowCount_perm (l l' : List Time) (t : Time) (h : l.Perm l') :
    windowCount l t = windowCount l' t := by
  unfold windowCount
  exact (h.filter _).length_eq

theorem windowCount_head_sorted (t : Time) (rest : List Time)
    (h : (t :: rest).Pairwise (fun a b => Time.Before b a = false)) :
    windowCount (t :: rest) t = requestsInWindow (t.Add Hour) (t :: rest) := by
  rw [requestsInWindow_sorted _ _ h]
  unfold windowCount
  congr 1
  apply List.filter_congr
  intro u hu
  rw [List.pairwise_cons] at h
  have : u.Before t = false := by
    rcases List.mem_cons.1 hu with rfl | hu
    · simp [Time.Before]
    · exact h.1 u hu
  simp [this]

/-- What `scanWindows` returns on a sorted slice: nothing when no window of the
slice holds 50 timestamps, and otherwise the threat of the earliest such window. -/
theorem scanWindows_spec (ip : GoString) (l : List Time)
    (hs : l.Pairwise (fun a b => Time.Before b a = false)) :
    match scanWindows ip l with
    | none => ∀ t ∈ l, windowCount l t < 50
    | some th => th.ThreatType = ascii "BRUTE_FORCE" ∧ th.IP = ip ∧
        th.URL = ascii "Multiple" ∧ th.Severity = ascii "HIGH" ∧ th.Timestamp ∈ l ∧
        50 ≤ windowCount l th.Timestamp ∧
        ∀ t ∈ l, 50 ≤ windowCount l t → Time.Before t th.Timestamp = false := by
  induction l with
  | nil => simp [scanWindows]
  | cons t rest ih =>
    have hhead := windowCount_head_sorted t rest hs
    have hs' := hs
    rw [List.pairwise_cons] at hs'
    have ih' := ih hs'.2
    unfold scanWindows
    simp only []
    by_cases hn : requestsInWindow (t.Add Hour) (t :: rest) ≥ 50
    · rw [if_pos hn]
      refine ⟨rfl, rfl, rfl, rfl, List.mem_cons_self _ _, ?_, ?_⟩
      · show 50 ≤ windowCount (t :: rest) t
        omega
      intro x hx _
      rcases List.mem_cons.1 hx with rfl | hx
      · simp [Time.Before]
      · exact hs'.1 x hx
    · rw [if_neg hn]
      have hlt : windowCount (t :: rest) t < 50 := by omega
      have key : ∀ x ∈ rest, 50 ≤ windowCount (t :: rest) x → 50 ≤ windowCount rest x := by
        intro x hx h50
        rw [windowCount_cons] at h50
        by_cases hin : (!t.Before x && t.Before (x.Add Hour)) = true
        · exfalso
          have h1 := (Before_eq_false x t).1 (hs'.1 x hx)
          simp only [Bool.and_eq_true, Bool.not_eq_true', Before_eq_false] at hin
          have : t.nanos = x.nanos := by omega
          rw [← windowCount_cons, ← windowCount_congr _ t x this] at h50
          omega
        · simp only [hin, Bool.false_eq_true, if_false, zero_add] at h50
          exact h50
      cases hr : scanWindows ip rest with
      | none =>
        rw [hr] at ih'
        simp only [] at ih' ⊢
        intro x hx
        rcases List.mem_cons.1 hx with rfl | hx'
        · exact hlt
        · by_contra hge
          have := key x hx' (by omega)
          have := ih' x hx'
          omega
      | some th =>
        rw [hr] at ih'
        simp only [] at ih' ⊢
        obtain ⟨h1, h2, h3, h4, h5, h6, h7⟩ := ih'
        refine ⟨h1, h2, h3, h4, List.mem_cons_of_mem _ h5, ?_, ?_⟩
        · rw [windowCount_cons]
          omega
        · intro x hx h50
          rcases List.mem_cons.1 hx with rfl | hx'
          · omega
          · exact h7 x hx' (key x hx' h50)

theorem listRuntime_lawful : listRuntime.Lawful := by
  haveI : IsTotal Time (fun a b => a.nanos ≤ b.nanos) := ⟨fun a b => le_total a.nanos b.nanos⟩
  haveI : IsTrans Time (fun a b => a.nanos ≤ b.nanos) := ⟨fun a b c h1 h2 => le_trans h1 h2⟩
  refine ⟨fun l => ⟨?_, ?_⟩, fun m => List.Perm.refl _, fun m => List.Perm.refl _⟩
  · exact List.perm_insertionSort _ l
  · have h := List.sorted_insertionSort (fun a b : Time => a.nanos ≤ b.nanos) l
    refine List.Pairwise.imp ?_ h
    intro a b hab
    exact (Before_eq_false b a).2 hab

set_option maxRecDepth 100000 in
theorem burst_threats : (detectBruteForce listRuntime burstMap).threats = [burstThreat] := by
  decide

theorem mapGet_of_mem {K V : Type} [DecidableEq K] (m : List (K × V)) (k : K) (v z : V)
    (hm : (mapKeys m).Nodup) (h : (k, v) ∈ m) : mapGet m k z = v := by
  induction m with
  | nil => simp at h
  | cons kv rest ih =>
    obtain ⟨k1, v1⟩ := kv
    simp only [mapKeys, List.map_cons, List.nodup_cons] at hm
    rcases List.mem_cons.1 h with heq | hmem
    · simp only [Prod.mk.injEq] at heq
      simp [mapGet, heq.1, heq.2]
    · have hne : ¬ k1 = k := by
        intro e
        apply hm.1
        rw [e]
        exact List.mem_map.2 ⟨(k, v), hmem, rfl⟩
      simp only [mapGet, hne, if_false]
      exact ih hm.2 hmem

theorem step_threats (rt : Runtime) (st : BruteForceState) (kv : GoString × List Time) :
    (bruteForceStep rt st kv).threats = st.threats ++ bruteForceOf rt kv := by
  unfold bruteForceStep bruteForceOf
  simp only []
  split_ifs
  · simp
  · cases scanWindows kv.1 (rt.sortSlice kv.2) <;> simp

theorem foldl_append {α β : Type} (f : α → List β) (l : List α) :
    ∀ acc : List β, l.foldl (fun acc a => acc ++ f a) acc = acc ++ l.flatMap f := by
  induction l with
  | nil => intro acc; simp
  | cons a l ih => intro acc; simp [ih]

theorem detectBruteForce_threats (rt : Runtime) (m : List (GoString × List Time)) :
    (detectBruteForce rt m).threats = (rt.rangeBruteForce m).flatMap (bruteForceOf rt) := by
  unfold detectBruteForce
  rw [foldl_proj (bruteForceStep rt) (fun st => st.threats)
    (fun acc kv => acc ++ bruteForceOf rt kv) (step_threats rt), foldl_append]
  rfl

theorem bruteForceOf_spec (rt : Runtime) (hrt : rt.Lawful) (ip : GoString) (ts : List Time) :
    (∀ th ∈ bruteForceOf rt (ip, ts), th.ThreatType = ascii "BRUTE_FORCE" ∧ th.IP = ip ∧
        th.URL = ascii "Multiple" ∧ th.Severity = ascii "HIGH" ∧ th.Timestamp ∈ ts ∧
        50 ≤ windowCount ts th.Timestamp ∧
        ∀ t ∈ ts, 50 ≤ windowCount ts t → Time.Before t th.Timestamp = false) ∧
    (bruteForceOf rt (ip, ts)).length = if ∃ t ∈ ts, 50 ≤ windowCount ts t then 1 else 0 := by
  obtain ⟨hperm, hsorted⟩ := hrt.1 ts
  have hspec := scanWindows_spec ip (rt.sortSlice ts) hsorted
  unfold bruteForceOf
  simp only []
  by_cases hlen : ts.length < 10
  · rw [if_pos hlen]
    refine ⟨by simp, ?_⟩
    rw [if_neg]
    · rfl
    · rintro ⟨t, -, h50⟩
      have := windowCount_le_length ts t
      omega
  · rw [if_neg hlen]
    cases hr : scanWindows ip (rt.sortSlice ts) with
    | none =>
      rw [hr] at hspec
      simp only [] at hspec ⊢
      refine ⟨by simp, ?_⟩
      rw [if_neg]
      · rfl
      · rintro ⟨t, ht, h50⟩
        have := hspec t (hperm.mem_iff.2 ht)
        rw [windowCount_perm _ _ t hperm] at this
        omega
    | some th =>
      rw [hr] at hspec
      simp only [] at hspec ⊢
      obtain ⟨h1, h2, h3, h4, h5, h6, h7⟩ := hspec
      rw [windowCount_perm _ _ _ hperm] at h6
      constructor
      · intro th' hth'
        rw [List.mem_singleton] at hth'
        subst hth'
        refine ⟨h1, h2, h3, h4, hperm.mem_iff.1 h5, h6, ?_⟩
        intro t ht h50
        apply h7 t (hperm.mem_iff.2 ht)
        rw [windowCount_perm _ _ t hperm]
        exact h50
      · rw [if_pos ⟨th.Timestamp, hperm.mem_iff.1 h5, h6⟩]
        rfl

theorem mem_mapKeys_of_mem {K V : Type} (m : List (K × V)) (k : K) (v : V) (h : (k, v) ∈ m) :
    k ∈ mapKeys m :=
  List.mem_map.2 ⟨(k, v), h, rfl⟩

/-- Claim C10: every threat `detectBruteForce` returns has type `BRUTE_FORCE` and URL
`Multiple`; its timestamp is a timestamp of its IP whose window `[t, t + 1 hour)`
holds at least 50 of the IP's timestamps, and no timestamp of the IP with such a
window is earlier. -/
theorem detectBruteForce_first_window (rt : Runtime) (m : List (GoString × List Time))
    (th : SecurityThreat) (hrt : rt.Lawful) (hm : (mapKeys m).Nodup)
    (hth : th ∈ (detectBruteForce rt m).threats) :
    th.ThreatType = ascii "BRUTE_FORCE" ∧ th.URL = ascii "Multiple" ∧
    th.Timestamp ∈ mapGet m th.IP [] ∧
    50 ≤ windowCount (mapGet m th.IP []) th.Timestamp ∧
    ∀ t ∈ mapGet m th.IP [], 50 ≤ windowCount (mapGet m th.IP []) t →
      Time.Before t th.Timestamp = false := by
  rw [detectBruteForce_threats, List.mem_flatMap] at hth
  obtain ⟨⟨ip, ts⟩, hkv, hmem⟩ := hth
  have hkv' : (ip, ts) ∈ m := (hrt.2.1 m).mem_iff.1 hkv
  obtain ⟨h1, h2, h3, -, h5, h6, h7⟩ := (bruteForceOf_spec rt hrt ip ts).1 th hmem
  have hget : mapGet m th.IP [] = ts := by
    rw [h2]
    exact mapGet_of_mem m ip ts [] hm hkv'
  rw [hget]
  exact ⟨h1, h3, h5, h6, h7⟩

/-- Claim C10 at the map that holds the 55 timestamps of one IP, one second apart:
the threat is stamped with the earliest of them. -/
theorem detectBruteForce_first_window_witness :
    burstThreat ∈ (detectBruteForce listRuntime burstMap).threats ∧
    burstThreat.URL = ascii "Multiple" ∧
    burstThreat.Timestamp ∈ mapGet burstMap burstThreat.IP [] ∧
    50 ≤ windowCount (mapGet burstMap burstThreat.IP []) burstThreat.Timestamp ∧
    ∀ t ∈ mapGet burstMap burstThreat.IP [],
      50 ≤ windowCount (mapGet burstMap burstThreat.IP []) t →
        Time.Before t burstThreat.Timestamp = false := by
  have hth : burstThreat ∈ (detectBruteForce listRuntime burstMap).threats := by
    rw [burst_threats]
    exact List.mem_singleton.2 rfl
  have h := detectBruteForce_first_window listRuntime burstMap burstThreat listRuntime_lawful
    (by decide) hth
  exact ⟨hth, h.2⟩

theorem countThreats_append (ty ip : GoString) (l1 l2 : List SecurityThreat) :
    countThreats ty ip (l1 ++ l2) = countThreats ty ip l1 + countThreats ty ip l2 := by
  simp [countThreats, List.countP_append]

theorem countThreats_eq_zero (ty ip : GoString) (l : List SecurityThreat)
    (h : ∀ th ∈ l, ¬ (th.ThreatType = ty ∧ th.IP = ip)) : countThreats ty ip l = 0 := by
  unfold countThreats
  rw [List.countP_eq_zero]
  intro th hth
  simpa using h th hth

theorem countThreats_bruteForceOf (rt : Runtime) (hrt : rt.Lawful) (ip ip' : GoString)
    (ts : List Time) :
    countThreats (ascii "BRUTE_FORCE") ip' (bruteForceOf rt (ip, ts)) =
      if ip = ip' then (if ∃ t ∈ ts, 50 ≤ windowCount ts t then 1 else 0) else 0 := by
  obtain ⟨hall, hlen⟩ := bruteForceOf_spec rt hrt ip ts
  by_cases hip : ip = ip'
  · rw [if_pos hip, ← hlen]
    unfold countThreats
    rw [List.countP_eq_length]
    intro th hth
    obtain ⟨h1, h2, -⟩ := hall th hth
    simp [h1, h2, hip]
  · rw [if_neg hip]
    apply countThreats_eq_zero
    intro th hth hc
    exact hip ((hall th hth).2.1.symm.trans hc.2)

theorem countThreats_flatMap (rt : Runtime) (hrt : rt.Lawful) (ip : GoString)
    (m : List (GoString × List Time)) (hm : (mapKeys m).Nodup) :
    countThreats (ascii "BRUTE_FORCE") ip (m.flatMap (bruteForceOf rt)) =
      if ∃ t ∈ mapGet m ip [], 50 ≤ windowCount (mapGet m ip []) t then 1 else 0 := by
  induction m with
  | nil => simp [countThreats, mapGet]
  | cons kv rest ih =>
    obtain ⟨k, v⟩ := kv
    simp only [mapKeys, List.map_cons, List.nodup_cons] at hm
    rw [List.flatMap_cons, countThreats_append, countThreats_bruteForceOf rt hrt]
    by_cases hk : k = ip
    · have hzero : countThreats (ascii "BRUTE_FORCE") ip (rest.flatMap (bruteForceOf rt)) = 0 := by
        apply countThreats_eq_zero
        intro th hth hc
        rw [List.mem_flatMap] at hth
        obtain ⟨⟨k', v'⟩, hkv, hmem⟩ := hth
        have := ((bruteForceOf_spec rt hrt k' v').1 th hmem).2.1
        apply hm.1
        rw [hk, ← hc.2, this]
        exact mem_mapKeys_of_mem rest k' v' hkv
      simp only [hk, if_true, hzero, mapGet, add_zero]
    · simp only [hk, if_false, mapGet, zero_add]
      exact ih hm.2

theorem countThreats_detectBruteForce (rt : Runtime) (hrt : rt.Lawful) (ip : GoString)
    (m : List (GoString × List Time)) (hm : (mapKeys m).Nodup) :
    countThreats (ascii "BRUTE_FORCE") ip (detectBruteForce rt m).threats =
      if ∃ t ∈ mapGet m ip [], 50 ≤ windowCount (mapGet m ip []) t then 1 else 0 := by
  rw [detectBruteForce_threats, ← countThreats_flatMap rt hrt ip m hm]
  unfold countThreats
  exact List.Perm.countP_eq _ (List.Perm.flatMap_right _ (hrt.2.1 m))

theorem detectThreats_eq (e : LogEntry) :
    detectThreats e =
      (if MatchString sqlInjectionPattern e.URL then
        [{ ThreatType := ascii "SQL_INJECTION", IP := e.IP, URL := e.URL,
           Timestamp := e.Timestamp, Severity := ascii "HIGH",
           Description := Description.sqlInjection }] else []) ++
      ((if MatchString xssPattern e.URL || MatchString xssPattern e.UserAgent then
        [{ ThreatType := ascii "XSS", IP := e.IP, URL := e.URL,
           Timestamp := e.Timestamp, Severity := ascii "MEDIUM",
           Description := Description.xss }] else []) ++
      ((if MatchString scannerPattern e.URL then
        [{ ThreatType := ascii "DIRECTORY_TRAVERSAL", IP := e.IP, URL := e.URL,
           Timestamp := e.Timestamp, Severity := ascii "HIGH",
           Description := Description.directoryTraversal }] else []) ++
      ((if MatchString suspiciousUAPattern e.UserAgent then
        [{ ThreatType := ascii "SUSPICIOUS_BOT", IP := e.IP, URL := e.URL,
           Timestamp := e.Timestamp, Severity := ascii "MEDIUM",
           Description := Description.suspiciousBot (truncateString e.UserAgent 50) }]
        else []) ++
      (if MatchString bruteForcePattern e.URL && decide (e.Status = 401) then
        [{ ThreatType := ascii "AUTH_FAILURE", IP := e.IP, URL := e.URL,
           Timestamp := e.Timestamp, Severity := ascii "LOW",
           Description := Description.authFailure }] else [])))) := by
  unfold detectThreats
  simp only []
  split_ifs <;> rfl

theorem detectThreats_type (e : LogEntry) (th : SecurityThreat) (h : th ∈ detectThreats e) :
    th.ThreatType ∈ [ascii "SQL_INJECTION", ascii "XSS", ascii "DIRECTORY_TRAVERSAL",
      ascii "SUSPICIOUS_BOT", ascii "AUTH_FAILURE"] := by
  rw [detectThreats_eq] at h
  simp only [List.mem_append, List.mem_ite_nil_right, List.mem_singleton] at h
  rcases h with ⟨-, rfl⟩ | ⟨-, rfl⟩ | ⟨-, rfl⟩ | ⟨-, rfl⟩ | ⟨-, rfl⟩ <;> simp

theorem detectThreats_not_bruteForce (e : LogEntry) (th : SecurityThreat)
    (h : th ∈ detectThreats e) : th.ThreatType ≠ ascii "BRUTE_FORCE" := by
  intro hc
  have := detectThreats_type e th h
  rw [hc] at this
  revert this
  decide

theorem anomalies_type (l : List (GoString × List Time)) :
    ∀ acc : List SecurityThreat, (∀ th ∈ acc, th.ThreatType = ascii "DDOS_ATTEMPT") →
      ∀ th ∈ l.foldl anomalyStep acc, th.ThreatType = ascii "DDOS_ATTEMPT" := by
  induction l with
  | nil => intro acc h; exact h
  | cons kv l ih =>
    intro acc h
    rw [List.foldl_cons]
    apply ih
    unfold anomalyStep
    simp only []
    split_ifs
    · intro th hth
      rcases List.mem_append.1 hth with h1 | h1
      · exact h th h1
      · rw [List.mem_singleton] at h1
        rw [h1]
    · exact h
    · exact h

theorem detectTrafficAnomalies_type (rt : Runtime) (m : List (GoString × List Time))
    (th : SecurityThreat) (h : th ∈ detectTrafficAnomalies rt m) :
    th.ThreatType = ascii "DDOS_ATTEMPT" :=
  anomalies_type _ [] (by simp) th h

theorem SecurityThreats_eq (rt : Runtime) (first : LogEntry) (rest : List LogEntry) :
    (Analyze rt (first :: rest)).SecurityThreats =
      ((first :: rest).filter LogEntry.IsValid).flatMap detectThreats ++
      (detectBruteForce rt ((first :: rest).foldl (fun m e =>
        if e.IsValid then mapSet m e.IP (mapGet m e.IP [] ++ [e.Timestamp]) else m) [])).threats ++
      detectTrafficAnomalies rt (detectBruteForce rt ((first :: rest).foldl (fun m e =>
        if e.IsValid then mapSet m e.IP (mapGet m e.IP [] ++ [e.Timestamp]) else m)
        [])).ipRequests := by
  unfold Analyze
  simp only [loop_ipRequestCount]
  split_ifs
  all_goals
    show (AnalyzeState.stats _).SecurityThreats ++ _ ++ _ = _
    rw [loop_SecurityThreats]
    rfl

theorem requestMap_nodup (entries : List LogEntry) :
    (mapKeys (entries.foldl (fun m e =>
      if e.IsValid then mapSet m e.IP (mapGet m e.IP [] ++ [e.Timestamp]) else m)
      ([] : List (GoString × List Time)))).Nodup := by
  rw [mapKeys_requestFold]
  exact nodup_foldl_seenStep entries _ List.nodup_nil

theorem requestMap_get (entries : List LogEntry) (ip : GoString) :
    mapGet (entries.foldl (fun m e =>
      if e.IsValid then mapSet m e.IP (mapGet m e.IP [] ++ [e.Timestamp]) else m)
      ([] : List (GoString × List Time))) ip [] = timestampsOf entries ip := by
  rw [mapGet_requestFold]
  simp [mapGet]

theorem exists_window_of_within_hour (rt : Runtime) (hrt : rt.Lawful) (ts : List Time)
    (hlen : 50 ≤ ts.length) (hspan : ∀ a ∈ ts, ∀ b ∈ ts, Time.Before b (a.Add Hour) = true) :
    ∃ t ∈ ts, 50 ≤ windowCount ts t := by
  obtain ⟨hperm, hsorted⟩ := hrt.1 ts
  cases hsl : rt.sortSlice ts with
  | nil =>
    rw [hsl] at hperm
    have := hperm.length_eq
    simp at this
    omega
  | cons t0 rest =>
    rw [hsl] at hperm hsorted
    rw [List.pairwise_cons] at hsorted
    have ht0 : t0 ∈ ts := hperm.mem_iff.1 (List.mem_cons_self _ _)
    refine ⟨t0, ht0, ?_⟩
    have hall : ts.filter (fun u => !u.Before t0 && u.Before (t0.Add Hour)) = ts := by
      rw [List.filter_eq_self]
      intro u hu
      have hu' : u ∈ t0 :: rest := hperm.mem_iff.2 hu
      have h1 : u.Before t0 = false := by
        rcases List.mem_cons.1 hu' with rfl | h
        · simp [Time.Before]
        · exact hsorted.1 u h
      simp [h1, hspan t0 ht0 u hu]
    unfold windowCount
    rw [hall]
    exact hlen

/-- Claim C9: among the threats `Analyze` returns, the number of `BRUTE_FORCE` threats
of an IP is 1 when some timestamp `t` of a valid entry of the IP has at least 50 of
the IP's valid-entry timestamps in `[t, t + 1 hour)`, and 0 otherwise; every such
threat has severity `HIGH`; and 55 valid entries of one IP that all lie within one
hour give exactly one. -/
theorem Analyze_bruteForce_count (rt : Runtime) (entries : List LogEntry) (ip : GoString)
    (hrt : rt.Lawful) :
    countThreats (ascii "BRUTE_FORCE") ip (Analyze rt entries).SecurityThreats =
      (if ∃ t ∈ timestampsOf entries ip, 50 ≤ windowCount (timestampsOf entries ip) t then 1
        else 0) ∧
    (∀ th ∈ (Analyze rt entries).SecurityThreats,
      th.ThreatType = ascii "BRUTE_FORCE" → th.Severity = ascii "HIGH") ∧
    ((timestampsOf entries ip).length = 55 →
      (∀ a ∈ timestampsOf entries ip, ∀ b ∈ timestampsOf entries ip,
        Time.Before b (a.Add Hour) = true) →
      countThreats (ascii "BRUTE_FORCE") ip (Analyze rt entries).SecurityThreats = 1) := by
  have hcount : countThreats (ascii "BRUTE_FORCE") ip (Analyze rt entries).SecurityThreats =
      (if ∃ t ∈ timestampsOf entries ip, 50 ≤ windowCount (timestampsOf entries ip) t then 1
        else 0) := by
    cases entries with
    | nil => simp [Analyze, emptyStatistics, countThreats, timestampsOf]
    | cons first rest =>
      rw [SecurityThreats_eq, countThreats_append, countThreats_append,
        countThreats_detectBruteForce rt hrt ip _ (requestMap_nodup _), requestMap_get]
      have h1 : countThreats (ascii "BRUTE_FORCE") ip
          (((first :: rest).filter LogEntry.IsValid).flatMap detectThreats) = 0 := by
        apply countThreats_eq_zero
        intro th hth hc
        rw [List.mem_flatMap] at hth
        obtain ⟨e, -, he⟩ := hth
        exact detectThreats_not_bruteForce e th he hc.1
      have h2 : ∀ m, countThreats (ascii "BRUTE_FORCE") ip (detectTrafficAnomalies rt m) = 0 := by
        intro m
        apply countThreats_eq_zero
        intro th hth hc
        have := detectTrafficAnomalies_type rt m th hth
        rw [hc.1] at this
        revert this
        decide
      rw [h1, h2]
      omega
  refine ⟨hcount, ?_, ?_⟩
  · intro th hth hty
    cases entries with
    | nil => simp [Analyze, emptyStatistics] at hth
    | cons first rest =>
      rw [SecurityThreats_eq] at hth
      rcases List.mem_append.1 hth with h | h
      · rcases List.mem_append.1 h with h | h
        · rw [List.mem_flatMap] at h
          obtain ⟨e, -, he⟩ := h
          exact absurd hty (detectThreats_not_bruteForce e th he)
        · rw [detectBruteForce_threats, List.mem_flatMap] at h
          obtain ⟨⟨k, v⟩, -, hmem⟩ := h
          exact ((bruteForceOf_spec rt hrt k v).1 th hmem).2.2.2.1
      · have := detectTrafficAnomalies_type rt _ th h
        rw [hty] at this
        exact absurd this (by decide)
  · intro hlen hspan
    rw [hcount, if_pos]
    exact exists_window_of_within_hour rt hrt _ (by omega) hspan

set_option maxRecDepth 100000 in
/-- Claim C9 at 55 valid entries of one IP, one second apart: exactly one
`BRUTE_FORCE` threat. -/
theorem Analyze_bruteForce_count_witness :
    listRuntime.Lawful ∧ (timestampsOf burst55 (ascii "10.0.0.1")).length = 55 ∧
    countThreats (ascii "BRUTE_FORCE") (ascii "10.0.0.1")
      (Analyze listRuntime burst55).SecurityThreats = 1 :=
  ⟨listRuntime_lawful, by decide,
    (Analyze_bruteForce_count listRuntime burst55 (ascii "10.0.0.1") listRuntime_lawful).2.2
      (by decide) (by decide)⟩

/-! ## The burst check of `detectTrafficAnomalies` -/

theorem anomalyStep_eq (acc : List SecurityThreat) (kv : GoString × List Time) :
    anomalyStep acc kv = acc ++ anomalyOf kv := by
  unfold anomalyOf anomalyStep
  simp only []
  split_ifs <;> simp

theorem detectTrafficAnomalies_eq (rt : Runtime) (m : List (GoString × List Time)) :
    detectTrafficAnomalies rt m = (rt.rangeAnomalies m).flatMap anomalyOf := by
  unfold detectTrafficAnomalies
  have h : ∀ (l : List (GoString × List Time)) (acc : List SecurityThreat),
      l.foldl anomalyStep acc = acc ++ l.flatMap anomalyOf := by
    intro l
    induction l with
    | nil => intro acc; simp
    | cons kv l ih =>
      intro acc
      rw [List.foldl_cons, ih, anomalyStep_eq]
      simp
  rw [h]
  rfl

theorem Sub_lt_iff (t u : Time) : t.Sub u < 10 * Minute ↔ t.nanos - u.nanos < 10 * Minute := by
  have key : ∀ d : Int, (if d < -9223372036854775808 then (-9223372036854775808 : Int)
      else if d > 9223372036854775807 then 9223372036854775807 else d) < 600000000000 ↔
      d < 600000000000 := by
    intro d
    split_ifs <;> constructor <;> intro h <;> omega
  have h10 : (10 * Minute : Int) = 600000000000 := by norm_num [Minute]
  rw [h10]
  have := key (t.nanos - u.nanos)
  simpa [Time.Sub, two63_int] using this

theorem Sub_nonneg (t u : Time) (h : u.nanos ≤ t.nanos) : 0 ≤ t.Sub u := by
  have key : ∀ d : Int, 0 ≤ d → 0 ≤ (if d < -9223372036854775808 then (-9223372036854775808 : Int)
      else if d > 9223372036854775807 then 9223372036854775807 else d) := by
    intro d hd
    split_ifs <;> omega
  have := key (t.nanos - u.nanos) (by omega)
  simpa [Time.Sub, two63_int] using this
/-- What one iteration of the loop of `detectTrafficAnomalies` reports for a pair. -/
theorem anomalyOf_eq (ip : GoString) (ts : List Time) :
    anomalyOf (ip, ts) =
      if 1000 < ts.length ∧
          (ts.getD (ts.length - 1) Time.zero).nanos - (ts.getD 0 Time.zero).nanos < 10 * Minute
      then
        [{ ThreatType := ascii "DDOS_ATTEMPT", IP := ip, URL := ascii "Multiple",
           Timestamp := ts.getD 0 Time.zero, Severity := ascii "HIGH",
           Description := Description.ddos ts.length
             ((ts.getD (ts.length - 1) Time.zero).Sub (ts.getD 0 Time.zero)) }]
      else [] := by
  unfold anomalyOf anomalyStep
  simp only [gt_iff_lt, Sub_lt_iff, List.nil_append]
  split_ifs with h1 h2 h3 h3 h3
  · rfl
  · exact absurd ⟨h1, h2⟩ h3
  · exact absurd h3.2 h2
  · rfl
  · exact absurd h3.1 h1
  · rfl

theorem anomalyOf_IP (kv : GoString × List Time) (th : SecurityThreat) (h : th ∈ anomalyOf kv) :
    th.IP = kv.1 := by
  obtain ⟨ip, ts⟩ := kv
  rw [anomalyOf_eq] at h
  split_ifs at h
  · rw [List.mem_singleton] at h
    rw [h]
  · simp at h

theorem countThreats_flatMap_of (ty ip : GoString)
    (f : GoString × List Time → List SecurityThreat)
    (hf : ∀ kv, ∀ th ∈ f kv, th.IP = kv.1) (hnil : f (ip, []) = [])
    (m : List (GoString × List Time)) (hm : (mapKeys m).Nodup) :
    countThreats ty ip (m.flatMap f) = countThreats ty ip (f (ip, mapGet m ip [])) := by
  induction m with
  | nil => simp [countThreats, mapGet, hnil]
  | cons kv rest ih =>
    obtain ⟨k, v⟩ := kv
    simp only [mapKeys, List.map_cons, List.nodup_cons] at hm
    rw [List.flatMap_cons, countThreats_append]
    by_cases hk : k = ip
    · have hzero : countThreats ty ip (rest.flatMap f) = 0 := by
        apply countThreats_eq_zero
        intro th hth hc
        rw [List.mem_flatMap] at hth
        obtain ⟨⟨k', v'⟩, hkv, hmem⟩ := hth
        have := hf (k', v') th hmem
        apply hm.1
        rw [hk, ← hc.2, this]
        exact mem_mapKeys_of_mem rest k' v' hkv
      simp only [hk, hzero, mapGet, if_true, add_zero]
    · have hzero : countThreats ty ip (f (k, v)) = 0 := by
        apply countThreats_eq_zero
        intro th hth hc
        exact hk ((hf (k, v) th hth).symm.trans hc.2)
      simp only [hzero, hk, mapGet, if_false, zero_add]
      exact ih hm.2

theorem countThreats_anomalies (rt : Runtime) (hrt : rt.Lawful) (ip : GoString)
    (m : List (GoString × List Time)) (hm : (mapKeys m).Nodup) :
    countThreats (ascii "DDOS_ATTEMPT") ip (detectTrafficAnomalies rt m) =
      if 1000 < (mapGet m ip []).length ∧
          ((mapGet m ip []).getD ((mapGet m ip []).length - 1) Time.zero).nanos -
            ((mapGet m ip []).getD 0 Time.zero).nanos < 10 * Minute
      then 1 else 0 := by
  rw [detectTrafficAnomalies_eq]
  have hperm : countThreats (ascii "DDOS_ATTEMPT") ip ((rt.rangeAnomalies m).flatMap anomalyOf) =
      countThreats (ascii "DDOS_ATTEMPT") ip (m.flatMap anomalyOf) := by
    unfold countThreats
    exact List.Perm.countP_eq _ (List.Perm.flatMap_right _ (hrt.2.2 m))
  rw [hperm, countThreats_flatMap_of _ ip anomalyOf anomalyOf_IP (by rw [anomalyOf_eq]; simp) m hm,
    anomalyOf_eq]
  split_ifs
  · simp [countThreats]
  · simp [countThreats]

/-- Claim C11: for a map of per-IP timestamps, `detectTrafficAnomalies` reports one
`DDOS_ATTEMPT` threat for an IP when its list has more than 1000 timestamps and its
last timestamp is less than 10 minutes after its first, and none otherwise, so none
for exactly 1000 timestamps or a span of exactly 10 minutes; every threat it reports
has severity `HIGH`, URL `Multiple` and the first timestamp of the list of its IP. -/
theorem detectTrafficAnomalies_count (rt : Runtime) (m : List (GoString × List Time))
    (ip : GoString) (hrt : rt.Lawful) (hm : (mapKeys m).Nodup) :
    countThreats (ascii "DDOS_ATTEMPT") ip (detectTrafficAnomalies rt m) =
      (if 1000 < (mapGet m ip []).length ∧
          ((mapGet m ip []).getD ((mapGet m ip []).length - 1) Time.zero).nanos -
            ((mapGet m ip []).getD 0 Time.zero).nanos < 10 * Minute
        then 1 else 0) ∧
    (∀ th ∈ detectTrafficAnomalies rt m, th.ThreatType = ascii "DDOS_ATTEMPT" ∧
      th.Severity = ascii "HIGH" ∧ th.URL = ascii "Multiple" ∧
      (mapGet m th.IP []).head? = some th.Timestamp) ∧
    ((mapGet m ip []).length = 1000 →
      countThreats (ascii "DDOS_ATTEMPT") ip (detectTrafficAnomalies rt m) = 0) ∧
    (((mapGet m ip []).getD ((mapGet m ip []).length - 1) Time.zero).nanos -
        ((mapGet m ip []).getD 0 Time.zero).nanos = 10 * Minute →
      countThreats (ascii "DDOS_ATTEMPT") ip (detectTrafficAnomalies rt m) = 0) := by
  have hcount := countThreats_anomalies rt hrt ip m hm
  refine ⟨hcount, ?_, ?_, ?_⟩
  · intro th hth
    rw [detectTrafficAnomalies_eq, List.mem_flatMap] at hth
    obtain ⟨⟨k, ts⟩, hkv, hmem⟩ := hth
    have hkv' : (k, ts) ∈ m := (hrt.2.2 m).mem_iff.1 hkv
    rw [anomalyOf_eq] at hmem
    split_ifs at hmem with hc
    · rw [List.mem_singleton] at hmem
      subst hmem
      refine ⟨rfl, rfl, rfl, ?_⟩
      show (mapGet m k []).head? = some (ts.getD 0 Time.zero)
      rw [mapGet_of_mem m k ts [] hm hkv']
      cases ts with
      | nil => simp at hc
      | cons t rest => rfl
    · simp at hmem
  · intro hlen
    rw [hcount, if_neg]
    intro hc
    omega
  · intro hspan
    rw [hcount, if_neg]
    intro hc
    omega

theorem getD_replicate_zero (n : Nat) (t : Time) (i : Nat) (hi : i < n) :
    (List.replicate n t).getD i Time.zero = t := by
  rw [List.getD_eq_getElem?_getD, List.getElem?_replicate, if_pos hi]
  rfl

theorem anomalyStep_replicate (ip : GoString) (n : Nat) (t : Time) (hn : 1000 < n) :
    anomalyStep [] (ip, List.replicate n t) =
      [{ ThreatType := ascii "DDOS_ATTEMPT", IP := ip, URL := ascii "Multiple",
         Timestamp := t, Severity := ascii "HIGH", Description := Description.ddos n 0 }] := by
  have hlen : (List.replicate n t).length = n := List.length_replicate _ _
  have h0 : (List.replicate n t).getD 0 Time.zero = t :=
    getD_replicate_zero n t 0 (by omega)
  have h1 : (List.replicate n t).getD (n - 1) Time.zero = t :=
    getD_replicate_zero n t (n - 1) (by omega)
  have hsub : t.Sub t = 0 := by simp [Time.Sub]
  have hlt : (0 : Duration) < 10 * Minute := by decide
  unfold anomalyStep
  simp only [hlen, h0, h1, hsub, gt_iff_lt, hn, if_true, hlt, List.nil_append]

theorem flood_anomalies : detectTrafficAnomalies listRuntime floodMap = [floodThreat] := by
  show [(ascii "10.0.0.1", List.replicate 1001 (⟨10000000000, 0⟩ : Time))].foldl anomalyStep []
    = [floodThreat]
  rw [List.foldl_cons, List.foldl_nil, anomalyStep_replicate _ 1001 _ (by decide)]
  rfl

/-- Claim C11 at a map with 1001 timestamps of one IP at the same instant: one
threat, stamped with the first timestamp. -/
theorem detectTrafficAnomalies_count_witness :
    detectTrafficAnomalies listRuntime floodMap = [floodThreat] ∧
    countThreats (ascii "DDOS_ATTEMPT") (ascii "10.0.0.1")
      (detectTrafficAnomalies listRuntime floodMap) =
      (if 1000 < (mapGet floodMap (ascii "10.0.0.1") []).length ∧
          ((mapGet floodMap (ascii "10.0.0.1") []).getD
              ((mapGet floodMap (ascii "10.0.0.1") []).length - 1) Time.zero).nanos -
            ((mapGet floodMap (ascii "10.0.0.1") []).getD 0 Time.zero).nanos < 10 * Minute
        then 1 else 0) ∧
    countThreats (ascii "DDOS_ATTEMPT") (ascii "10.0.0.1")
      (detectTrafficAnomalies listRuntime floodMap) = 1 :=
  ⟨flood_anomalies,
    (detectTrafficAnomalies_count listRuntime floodMap (ascii "10.0.0.1") listRuntime_lawful
      (by decide)).1,
    by rw [flood_anomalies]; decide⟩

/-! ## The map `detectBruteForce` leaves to `detectTrafficAnomalies` -/

theorem map_ext {K V : Type} [DecidableEq K] (z : V) (a : List (K × V)) :
    ∀ b : List (K × V), mapKeys a = mapKeys b → (mapKeys a).Nodup →
      (∀ k ∈ mapKeys a, mapGet a k z = mapGet b k z) → a = b := by
  induction a with
  | nil =>
    intro b hk _ _
    cases b with
    | nil => rfl
    | cons kv b => simp [mapKeys] at hk
  | cons kv a ih =>
    intro b hk hn hg
    obtain ⟨k, v⟩ := kv
    cases b with
    | nil => simp [mapKeys] at hk
    | cons kv' b =>
      obtain ⟨k', v'⟩ := kv'
      simp only [mapKeys, List.map_cons, List.cons.injEq] at hk
      obtain ⟨hkk, hrest⟩ := hk
      subst hkk
      simp only [mapKeys, List.map_cons, List.nodup_cons] at hn
      have hv : v = v' := by
        have := hg k (by simp [mapKeys])
        simpa [mapGet] using this
      subst hv
      congr 1
      apply ih b hrest hn.2
      intro k2 hk2
      have hne : ¬ k = k2 := by
        intro e
        apply hn.1
        rw [e]
        exact hk2
      have := hg k2 (by simp only [mapKeys, List.map_cons]; exact List.mem_cons_of_mem _ hk2)
      simpa [mapGet, hne] using this

theorem step_ipRequests (rt : Runtime) (st : BruteForceState) (kv : GoString × List Time) :
    (bruteForceStep rt st kv).ipRequests =
      if kv.2.length < 10 then st.ipRequests
      else mapSet st.ipRequests kv.1 (rt.sortSlice kv.2) := by
  unfold bruteForceStep
  simp only []
  split_ifs
  · rfl
  · cases scanWindows kv.1 (rt.sortSlice kv.2) <;> rfl

theorem detectBruteForce_ipRequests (rt : Runtime) (m : List (GoString × List Time)) :
    (detectBruteForce rt m).ipRequests =
      (rt.rangeBruteForce m).foldl (fun mp kv =>
        if kv.2.length < 10 then mp else mapSet mp kv.1 (rt.sortSlice kv.2)) m := by
  unfold detectBruteForce
  rw [foldl_proj (bruteForceStep rt) (fun st => st.ipRequests)
    (fun mp kv => if kv.2.length < 10 then mp else mapSet mp kv.1 (rt.sortSlice kv.2))
    (step_ipRequests rt)]

theorem sortFold_keys (rt : Runtime) (l : List (GoString × List Time)) :
    ∀ mp : List (GoString × List Time), (∀ kv ∈ l, kv.1 ∈ mapKeys mp) →
      mapKeys (l.foldl (fun mp kv =>
        if kv.2.length < 10 then mp else mapSet mp kv.1 (rt.sortSlice kv.2)) mp) =
        mapKeys mp := by
  induction l with
  | nil => intro mp _; rfl
  | cons kv l ih =>
    intro mp h
    have hstep : mapKeys (if kv.2.length < 10 then mp else mapSet mp kv.1 (rt.sortSlice kv.2)) =
        mapKeys mp := by
      split_ifs
      · rfl
      · rw [mapKeys_mapSet, if_pos (h kv (List.mem_cons_self _ _))]
    rw [List.foldl_cons, ih, hstep]
    intro kv' hkv'
    rw [hstep]
    exact h kv' (List.mem_cons_of_mem _ hkv')

theorem sortFold_get (rt : Runtime) (ip : GoString) (l : List (GoString × List Time)) :
    ∀ mp : List (GoString × List Time), (mapKeys l).Nodup →
      (∀ kv ∈ l, mapGet mp kv.1 [] = kv.2) →
      mapGet (l.foldl (fun mp kv =>
        if kv.2.length < 10 then mp else mapSet mp kv.1 (rt.sortSlice kv.2)) mp) ip [] =
        if ip ∈ mapKeys l then sortedIfLong rt (mapGet mp ip []) else mapGet mp ip [] := by
  induction l with
  | nil => intro mp _ _; simp [mapKeys]
  | cons kv l ih =>
    intro mp hn h
    obtain ⟨k, v⟩ := kv
    simp only [mapKeys, List.map_cons, List.nodup_cons] at hn
    have hkv : mapGet mp k [] = v := h (k, v) (List.mem_cons_self _ _)
    have hget : ∀ k2, mapGet (if v.length < 10 then mp else mapSet mp k (rt.sortSlice v)) k2 [] =
        if k2 = k then sortedIfLong rt v else mapGet mp k2 [] := by
      intro k2
      unfold sortedIfLong
      by_cases h10 : v.length < 10
      · simp only [h10, if_true]
        split_ifs with hk2
        · rw [hk2, hkv]
        · rfl
      · simp only [h10, if_false, mapGet_mapSet]
    rw [List.foldl_cons, ih _ hn.2]
    · simp only [hget, mapKeys, List.map_cons, List.mem_cons]
      by_cases hik : ip = k
      · have hnot : ip ∉ List.map Prod.fst l := by rw [hik]; exact hn.1
        simp only [hik, if_true, true_or]
        rw [hik] at hnot
        rw [if_neg hnot, hkv]
      · simp only [hik, if_false, false_or]
    · intro kv' hkv'
      have hne : ¬ kv'.1 = k := by
        intro e
        apply hn.1
        rw [← e]
        exact List.mem_map.2 ⟨kv', hkv', rfl⟩
      rw [hget, if_neg hne]
      exact h kv' (List.mem_cons_of_mem _ hkv')

theorem sortedIfLong_nil (rt : Runtime) : sortedIfLong rt [] = [] := by
  simp [sortedIfLong]

/-- The map the loop of `detectBruteForce` leaves: the same keys, and at each key
the slice sorted when it has 10 timestamps or more. -/
theorem detectBruteForce_map (rt : Runtime) (hrt : rt.Lawful) (m : List (GoString × List Time))
    (hm : (mapKeys m).Nodup) :
    mapKeys (detectBruteForce rt m).ipRequests = mapKeys m ∧
    (∀ ip, mapGet (detectBruteForce rt m).ipRequests ip [] =
      sortedIfLong rt (mapGet m ip [])) ∧
    (detectBruteForce rt m).ipRequests = m.map (fun kv => (kv.1, sortedIfLong rt kv.2)) := by
  have hperm := hrt.2.1 m
  have hkeysPerm : (mapKeys (rt.rangeBruteForce m)).Perm (mapKeys m) := hperm.map _
  have hkeys : mapKeys (detectBruteForce rt m).ipRequests = mapKeys m := by
    rw [detectBruteForce_ipRequests]
    apply sortFold_keys
    intro kv hkv
    exact List.mem_map.2 ⟨kv, hperm.mem_iff.1 hkv, rfl⟩
  have hget : ∀ ip, mapGet (detectBruteForce rt m).ipRequests ip [] =
      sortedIfLong rt (mapGet m ip []) := by
    intro ip
    rw [detectBruteForce_ipRequests, sortFold_get rt ip _ m (hkeysPerm.nodup_iff.2 hm)]
    · split_ifs with hin
      · rfl
      · have : ip ∉ mapKeys m := fun h => hin (hkeysPerm.mem_iff.2 h)
        rw [mapGet_of_not_mem m ip [] this, sortedIfLong_nil]
    · intro kv hkv
      exact mapGet_of_mem m kv.1 kv.2 [] hm (hperm.mem_iff.1 hkv)
  refine ⟨hkeys, hget, ?_⟩
  apply map_ext [] _ _ _ (hkeys ▸ hm)
  · intro k hk
    rw [hget]
    rw [hkeys] at hk
    obtain ⟨⟨k', v⟩, hkv, rfl⟩ := List.mem_map.1 hk
    have hmem : (k', sortedIfLong rt v) ∈ m.map (fun kv => (kv.1, sortedIfLong rt kv.2)) :=
      List.mem_map.2 ⟨(k', v), hkv, rfl⟩
    have hn' : (mapKeys (m.map (fun kv => (kv.1, sortedIfLong rt kv.2)))).Nodup := by
      have : mapKeys (m.map (fun kv => (kv.1, sortedIfLong rt kv.2))) = mapKeys m := by
        simp [mapKeys, List.map_map, Function.comp_def]
      rw [this]
      exact hm
    rw [mapGet_of_mem m k' v [] hm hkv, mapGet_of_mem _ k' _ [] hn' hmem]
  · rw [hkeys]
    simp [mapKeys, List.map_map, Function.comp_def]

/-! ## The threats `Analyze` returns -/

theorem range_nil (rt : Runtime) (hrt : rt.Lawful) :
    rt.rangeBruteForce [] = [] ∧ rt.rangeAnomalies [] = [] :=
  ⟨List.Perm.eq_nil (hrt.2.1 []), List.Perm.eq_nil (hrt.2.2 [])⟩

/-- The threats `Analyze` returns: the per-entry threats of the valid entries, then
the threats of `detectBruteForce`, then those of `detectTrafficAnomalies` on the map
`detectBruteForce` leaves. -/
theorem threats_decomp (rt : Runtime) (hrt : rt.Lawful) (entries : List LogEntry) :
    (Analyze rt entries).SecurityThreats =
      (entries.filter LogEntry.IsValid).flatMap detectThreats ++
      (detectBruteForce rt (requestMap entries)).threats ++
      detectTrafficAnomalies rt (detectBruteForce rt (requestMap entries)).ipRequests := by
  cases entries with
  | nil =>
    obtain ⟨h1, h2⟩ := range_nil rt hrt
    simp [Analyze, emptyStatistics, requestMap, detectBruteForce, detectTrafficAnomalies, h1, h2]
  | cons first rest => exact SecurityThreats_eq rt first rest

theorem requestMap_keys_nodup (entries : List LogEntry) :
    (mapKeys (requestMap entries)).Nodup := requestMap_nodup entries

theorem requestMap_at (entries : List LogEntry) (ip : GoString) :
    mapGet (requestMap entries) ip [] = timestampsOf entries ip := requestMap_get entries ip

theorem perEntry_count_zero (ty ip : GoString) (entries : List LogEntry)
    (hty : ty ∉ perEntryTypes) :
    countThreats ty ip ((entries.filter LogEntry.IsValid).flatMap detectThreats) = 0 := by
  apply countThreats_eq_zero
  intro th hth hc
  rw [List.mem_flatMap] at hth
  obtain ⟨e, -, he⟩ := hth
  apply hty
  rw [← hc.1]
  exact detectThreats_type e th he

theorem bruteForce_type (rt : Runtime) (m : List (GoString × List Time)) (th : SecurityThreat)
    (h : th ∈ (detectBruteForce rt m).threats) : th.ThreatType = ascii "BRUTE_FORCE" := by
  have hscan : ∀ (ip : GoString) (l : List Time) (t : SecurityThreat),
      scanWindows ip l = some t → t.ThreatType = ascii "BRUTE_FORCE" := by
    intro ip l
    induction l with
    | nil => intro t ht; simp [scanWindows] at ht
    | cons a l ih =>
      intro t ht
      unfold scanWindows at ht
      simp only [] at ht
      split_ifs at ht
      · simp only [Option.some.injEq] at ht
        rw [← ht]
      · exact ih t ht
  rw [detectBruteForce_threats, List.mem_flatMap] at h
  obtain ⟨kv, -, hmem⟩ := h
  unfold bruteForceOf at hmem
  split_ifs at hmem
  · simp at hmem
  · cases hs : scanWindows kv.1 (rt.sortSlice kv.2) with
    | none => simp [hs] at hmem
    | some t =>
      simp only [hs, List.mem_singleton] at hmem
      rw [hmem]
      exact hscan _ _ t hs

theorem bruteForce_count_eq (rt : Runtime) (hrt : rt.Lawful) (entries : List LogEntry)
    (ip : GoString) :
    countThreats (ascii "BRUTE_FORCE") ip (Analyze rt entries).SecurityThreats =
      if ∃ t ∈ timestampsOf entries ip, 50 ≤ windowCount (timestampsOf entries ip) t then 1
      else 0 := by
  rw [threats_decomp rt hrt, countThreats_append, countThreats_append,
    perEntry_count_zero _ _ _ (by decide),
    countThreats_detectBruteForce rt hrt ip _ (requestMap_keys_nodup _), requestMap_at]
  have h2 : countThreats (ascii "BRUTE_FORCE") ip
      (detectTrafficAnomalies rt (detectBruteForce rt (requestMap entries)).ipRequests) = 0 := by
    apply countThreats_eq_zero
    intro th hth hc
    have := detectTrafficAnomalies_type rt _ th hth
    rw [hc.1] at this
    exact absurd this (by decide)
  rw [h2]
  omega

theorem ddos_count_eq (rt : Runtime) (hrt : rt.Lawful) (entries : List LogEntry)
    (ip : GoString) :
    countThreats (ascii "DDOS_ATTEMPT") ip (Analyze rt entries).SecurityThreats =
      if 1000 < (sortedIfLong rt (timestampsOf entries ip)).length ∧
          ((sortedIfLong rt (timestampsOf entries ip)).getD
              ((sortedIfLong rt (timestampsOf entries ip)).length - 1) Time.zero).nanos -
            ((sortedIfLong rt (timestampsOf entries ip)).getD 0 Time.zero).nanos < 10 * Minute
      then 1 else 0 := by
  obtain ⟨hkeys, hget, -⟩ := detectBruteForce_map rt hrt (requestMap entries)
    (requestMap_keys_nodup entries)
  rw [threats_decomp rt hrt, countThreats_append, countThreats_append,
    perEntry_count_zero _ _ _ (by decide),
    countThreats_anomalies rt hrt ip _ (hkeys ▸ requestMap_keys_nodup entries), hget,
    requestMap_at]
  have h2 : countThreats (ascii "DDOS_ATTEMPT") ip
      (detectBruteForce rt (requestMap entries)).threats = 0 := by
    apply countThreats_eq_zero
    intro th hth hc
    have := bruteForce_type rt _ th hth
    rw [hc.1] at this
    exact absurd this (by decide)
  rw [h2]
  omega

theorem sorted_first_le (l : List Time) (hs : l.Pairwise (fun a b => Time.Before b a = false))
    (u : Time) (hu : u ∈ l) : (l.getD 0 Time.zero).nanos ≤ u.nanos := by
  cases l with
  | nil => simp at hu
  | cons a l =>
    rw [List.pairwise_cons] at hs
    rcases List.mem_cons.1 hu with rfl | h
    · exact le_refl _
    · exact (Before_eq_false u a).1 (hs.1 u h)

theorem sorted_le_last (l : List Time) (hs : l.Pairwise (fun a b => Time.Before b a = false)) :
    ∀ u ∈ l, u.nanos ≤ (l.getD (l.length - 1) Time.zero).nanos := by
  induction l with
  | nil => intro u hu; simp at hu
  | cons a l ih =>
    rw [List.pairwise_cons] at hs
    cases l with
    | nil =>
      intro u hu
      simp only [List.mem_singleton] at hu
      rw [hu]
      exact le_refl _
    | cons b l' =>
      have ih' := ih hs.2
      have hidx : (a :: b :: l').getD ((a :: b :: l').length - 1) Time.zero =
          (b :: l').getD ((b :: l').length - 1) Time.zero := by
        simp [List.getD_cons_succ]
      rw [hidx]
      intro u hu
      rcases List.mem_cons.1 hu with rfl | h
      · have h1 := (Before_eq_false b u).1 (hs.1 b (List.mem_cons_self _ _))
        have h2 := ih' b (List.mem_cons_self _ _)
        omega
      · exact ih' u h

theorem getD_mem (l : List Time) (i : Nat) (hi : i < l.length) : l.getD i Time.zero ∈ l := by
  rw [List.getD_eq_getElem?_getD, List.getElem?_eq_getElem hi]
  exact List.getElem_mem hi

/-- When a DDoS burst is reported for an IP, the window of one hour that starts at
its earliest timestamp holds all its timestamps. -/
theorem window_of_burst (rt : Runtime) (hrt : rt.Lawful) (ts : List Time)
    (hlen : 1000 < (sortedIfLong rt ts).length)
    (hspan : ((sortedIfLong rt ts).getD ((sortedIfLong rt ts).length - 1) Time.zero).nanos -
      ((sortedIfLong rt ts).getD 0 Time.zero).nanos < 10 * Minute) :
    ∃ t ∈ ts, 50 ≤ windowCount ts t := by
  obtain ⟨hperm, hsorted⟩ := hrt.1 ts
  have hlong : ¬ ts.length < 10 := by
    intro h
    simp only [sortedIfLong, h, if_true] at hlen
    omega
  have hS : sortedIfLong rt ts = rt.sortSlice ts := by simp [sortedIfLong, hlong]
  rw [hS] at hlen hspan
  have hlen' : 1000 < ts.length := by rw [← hperm.length_eq]; exact hlen
  have hfirst : (rt.sortSlice ts).getD 0 Time.zero ∈ ts :=
    hperm.mem_iff.1 (getD_mem _ 0 (by omega))
  refine ⟨_, hfirst, ?_⟩
  have hall : ts.filter (fun u => !u.Before ((rt.sortSlice ts).getD 0 Time.zero) &&
      u.Before (((rt.sortSlice ts).getD 0 Time.zero).Add Hour)) = ts := by
    rw [List.filter_eq_self]
    intro u hu
    have hu' := hperm.mem_iff.2 hu
    have h1 := sorted_first_le _ hsorted u hu'
    have h2 := sorted_le_last _ hsorted u hu'
    have hm : (10 * Minute : Int) = 600000000000 := by norm_num [Minute]
    have hh : (Hour : Int) = 3600000000000 := by norm_num [Hour]
    rw [hm] at hspan
    simp only [Time.Before, Time.Add, hh, Bool.and_eq_true, Bool.not_eq_true',
      decide_eq_false_iff_not, decide_eq_true_eq, not_lt]
    constructor <;> omega
  unfold windowCount
  rw [hall]
  omega

/-- Claim C18: for every IP, `Analyze` reports at most as many `DDOS_ATTEMPT` threats
as `BRUTE_FORCE` threats, so an IP that has a `DDOS_ATTEMPT` threat has its
`BRUTE_FORCE` threat: more than 1000 timestamps within 10 minutes lie in the window
of one hour that starts at the earliest of them. -/
theorem Analyze_ddos_implies_bruteForce (rt : Runtime) (entries : List LogEntry)
    (ip : GoString) (hrt : rt.Lawful) :
    countThreats (ascii "DDOS_ATTEMPT") ip (Analyze rt entries).SecurityThreats ≤
      countThreats (ascii "BRUTE_FORCE") ip (Analyze rt entries).SecurityThreats ∧
    (0 < countThreats (ascii "DDOS_ATTEMPT") ip (Analyze rt entries).SecurityThreats →
      countThreats (ascii "BRUTE_FORCE") ip (Analyze rt entries).SecurityThreats = 1) := by
  rw [ddos_count_eq rt hrt, bruteForce_count_eq rt hrt]
  by_cases hc : 1000 < (sortedIfLong rt (timestampsOf entries ip)).length ∧
      ((sortedIfLong rt (timestampsOf entries ip)).getD
          ((sortedIfLong rt (timestampsOf entries ip)).length - 1) Time.zero).nanos -
        ((sortedIfLong rt (timestampsOf entries ip)).getD 0 Time.zero).nanos < 10 * Minute
  · have hw := window_of_burst rt hrt _ hc.1 hc.2
    rw [if_pos hc, if_pos hw]
    exact ⟨le_refl _, fun _ => rfl⟩
  · rw [if_neg hc]
    exact ⟨Nat.zero_le _, fun h => absurd h (by decide)⟩

theorem timestampsOf_replicate (e : LogEntry) (hv : e.IsValid = true) (n : Nat) :
    timestampsOf (List.replicate n e) e.IP = List.replicate n e.Timestamp := by
  induction n with
  | zero => rfl
  | succ n ih =>
    unfold timestampsOf at ih ⊢
    rw [List.replicate_succ, List.filter_cons_of_pos hv, List.filter_cons_of_pos (by simp),
      List.map_cons, ih, List.replicate_succ]

theorem sortedIfLong_replicate (rt : Runtime) (hrt : rt.Lawful) (n : Nat) (t : Time) :
    sortedIfLong rt (List.replicate n t) = List.replicate n t := by
  unfold sortedIfLong
  split_ifs
  · rfl
  · exact List.perm_replicate.1 (hrt.1 _).1

theorem flood_ddos_count :
    countThreats (ascii "DDOS_ATTEMPT") (ascii "10.0.0.1")
      (Analyze listRuntime flood1001).SecurityThreats = 1 := by
  have hts : timestampsOf flood1001 (ascii "10.0.0.1") =
      List.replicate 1001 floodEntry.Timestamp :=
    timestampsOf_replicate floodEntry (by decide) 1001
  have hlen : (List.replicate 1001 floodEntry.Timestamp).length = 1001 :=
    List.length_replicate _ _
  rw [ddos_count_eq listRuntime listRuntime_lawful, hts,
    sortedIfLong_replicate listRuntime listRuntime_lawful, hlen,
    getD_replicate_zero 1001 _ 0 (by decide), getD_replicate_zero 1001 _ 1000 (by decide),
    if_pos]
  exact ⟨by decide, by decide⟩

/-- Claim C18 at 1001 valid entries of one IP at the same instant: one
`DDOS_ATTEMPT` threat and one `BRUTE_FORCE` threat for that IP. -/
theorem Analyze_ddos_implies_bruteForce_witness :
    listRuntime.Lawful ∧
    countThreats (ascii "DDOS_ATTEMPT") (ascii "10.0.0.1")
      (Analyze listRuntime flood1001).SecurityThreats = 1 ∧
    countThreats (ascii "BRUTE_FORCE") (ascii "10.0.0.1")
      (Analyze listRuntime flood1001).SecurityThreats = 1 :=
  ⟨listRuntime_lawful, flood_ddos_count,
    (Analyze_ddos_implies_bruteForce listRuntime flood1001 (ascii "10.0.0.1")
      listRuntime_lawful).2 (by rw [flood_ddos_count]; decide)⟩

theorem sortedIfLong_sorted (rt : Runtime) (hrt : rt.Lawful) (ts : List Time)
    (h : 10 ≤ ts.length) :
    (sortedIfLong rt ts).Perm ts ∧
      (sortedIfLong rt ts).Pairwise (fun a b => Time.Before b a = false) := by
  have : ¬ ts.length < 10 := by omega
  simp only [sortedIfLong, this, if_false]
  exact hrt.1 ts

/-- The `DDOS_ATTEMPT` threats `Analyze` returns come from `detectTrafficAnomalies`,
from the sorted slice of their IP. -/
theorem ddos_threat_origin (rt : Runtime) (hrt : rt.Lawful) (entries : List LogEntry)
    (th : SecurityThreat) (hth : th ∈ (Analyze rt entries).SecurityThreats)
    (hty : th.ThreatType = ascii "DDOS_ATTEMPT") :
    1000 < (sortedIfLong rt (timestampsOf entries th.IP)).length ∧
    th.Timestamp = (sortedIfLong rt (timestampsOf entries th.IP)).getD 0 Time.zero ∧
    th.Description = Description.ddos (sortedIfLong rt (timestampsOf entries th.IP)).length
      (((sortedIfLong rt (timestampsOf entries th.IP)).getD
        ((sortedIfLong rt (timestampsOf entries th.IP)).length - 1) Time.zero).Sub
        ((sortedIfLong rt (timestampsOf entries th.IP)).getD 0 Time.zero)) ∧
    ((sortedIfLong rt (timestampsOf entries th.IP)).getD
        ((sortedIfLong rt (timestampsOf entries th.IP)).length - 1) Time.zero).nanos -
      ((sortedIfLong rt (timestampsOf entries th.IP)).getD 0 Time.zero).nanos < 10 * Minute := by
  obtain ⟨hkeys, hget, -⟩ := detectBruteForce_map rt hrt (requestMap entries)
    (requestMap_keys_nodup entries)
  rw [threats_decomp rt hrt] at hth
  rcases List.mem_append.1 hth with h | h
  · rcases List.mem_append.1 h with h | h
    · rw [List.mem_flatMap] at h
      obtain ⟨e, -, he⟩ := h
      have := detectThreats_type e th he
      rw [hty] at this
      exact absurd this (by decide)
    · have := bruteForce_type rt _ th h
      rw [hty] at this
      exact absurd this (by decide)
  · rw [detectTrafficAnomalies_eq, List.mem_flatMap] at h
    obtain ⟨⟨k, S⟩, hkv, hmem⟩ := h
    have hkv' := (hrt.2.2 _).mem_iff.1 hkv
    have hS : S = sortedIfLong rt (timestampsOf entries k) := by
      rw [← requestMap_at, ← hget]
      exact (mapGet_of_mem _ k S [] (hkeys ▸ requestMap_keys_nodup entries) hkv').symm
    rw [anomalyOf_eq] at hmem
    split_ifs at hmem with hc
    · rw [List.mem_singleton] at hmem
      subst hmem
      subst hS
      exact ⟨hc.1, rfl, rfl, hc.2⟩
    · simp at hmem

/-- Claim C19: the map `detectTrafficAnomalies` reads holds, for each IP, the
timestamps of its valid entries, sorted by `detectBruteForce` when they are 10 or
more; so every `DDOS_ATTEMPT` threat `Analyze` returns is stamped with a timestamp
of a valid entry of its IP that none is before, and the span it tests goes from
that earliest timestamp to a latest one and is not negative. -/
theorem Analyze_ddos_timestamp (rt : Runtime) (entries : List LogEntry) (hrt : rt.Lawful) :
    (∀ ip, mapGet (detectBruteForce rt (requestMap entries)).ipRequests ip [] =
      sortedIfLong rt (timestampsOf entries ip)) ∧
    (∀ ts : List Time, 10 ≤ ts.length → (sortedIfLong rt ts).Perm ts ∧
      (sortedIfLong rt ts).Pairwise (fun a b => Time.Before b a = false)) ∧
    (∀ th ∈ (Analyze rt entries).SecurityThreats, th.ThreatType = ascii "DDOS_ATTEMPT" →
      th.Timestamp ∈ timestampsOf entries th.IP ∧
      (∀ t ∈ timestampsOf entries th.IP, Time.Before t th.Timestamp = false) ∧
      ∃ latest ∈ timestampsOf entries th.IP,
        (∀ t ∈ timestampsOf entries th.IP, Time.After t latest = false) ∧
        th.Description =
          Description.ddos (timestampsOf entries th.IP).length (latest.Sub th.Timestamp) ∧
        0 ≤ latest.Sub th.Timestamp ∧ latest.Sub th.Timestamp < 10 * Minute) := by
  refine ⟨?_, fun ts h => sortedIfLong_sorted rt hrt ts h, ?_⟩
  · intro ip
    rw [(detectBruteForce_map rt hrt (requestMap entries) (requestMap_keys_nodup entries)).2.1,
      requestMap_at]
  · intro th hth hty
    obtain ⟨hlen, hts, hdesc, hspan⟩ := ddos_threat_origin rt hrt entries th hth hty
    have hlong : 10 ≤ (timestampsOf entries th.IP).length := by
      by_contra hc
      have : (timestampsOf entries th.IP).length < 10 := by omega
      simp only [sortedIfLong, this, if_true] at hlen
      omega
    obtain ⟨hperm, hsorted⟩ := sortedIfLong_sorted rt hrt _ hlong
    have hfirst := getD_mem (sortedIfLong rt (timestampsOf entries th.IP)) 0 (by omega)
    have hlast := getD_mem (sortedIfLong rt (timestampsOf entries th.IP))
      ((sortedIfLong rt (timestampsOf entries th.IP)).length - 1) (by omega)
    have hle := sorted_first_le _ hsorted _ hlast
    refine ⟨hts ▸ hperm.mem_iff.1 hfirst, ?_, _, hperm.mem_iff.1 hlast, ?_, ?_, ?_, ?_⟩
    · intro t ht
      rw [hts, Before_eq_false]
      exact sorted_first_le _ hsorted t (hperm.mem_iff.2 ht)
    · intro t ht
      have := sorted_le_last _ hsorted t (hperm.mem_iff.2 ht)
      simp only [Time.After, decide_eq_false_iff_not, not_lt]
      exact this
    · rw [hdesc, hts, hperm.length_eq]
    · rw [hts]
      exact Sub_nonneg _ _ hle
    · rw [hts, Sub_lt_iff]
      exact hspan

/-- Claim C19 at 1001 valid entries of one IP at the same instant: the one
`DDOS_ATTEMPT` threat is stamped with a timestamp of a valid entry of its IP. -/
theorem Analyze_ddos_timestamp_witness :
    listRuntime.Lawful ∧
    countThreats (ascii "DDOS_ATTEMPT") (ascii "10.0.0.1")
      (Analyze listRuntime flood1001).SecurityThreats = 1 ∧
    (∀ th ∈ (Analyze listRuntime flood1001).SecurityThreats,
      th.ThreatType = ascii "DDOS_ATTEMPT" →
        th.Timestamp ∈ timestampsOf flood1001 th.IP ∧
        ∀ t ∈ timestampsOf flood1001 th.IP, Time.Before t th.Timestamp = false) :=
  ⟨listRuntime_lawful, flood_ddos_count, fun th h1 h2 =>
    ⟨((Analyze_ddos_timestamp listRuntime flood1001 listRuntime_lawful).2.2 th h1 h2).1,
      ((Analyze_ddos_timestamp listRuntime flood1001 listRuntime_lawful).2.2 th h1 h2).2.1⟩⟩

theorem reverseRuntime_lawful : reverseRuntime.Lawful :=
  ⟨listRuntime_lawful.1, fun m => List.reverse_perm m, fun m => List.reverse_perm m⟩

theorem pairwise_of_mem {α : Type} {R : α → α → Prop} (l : List α)
    (h : ∀ a ∈ l, ∀ b ∈ l, R a b) : l.Pairwise R := by
  induction l with
  | nil => exact List.Pairwise.nil
  | cons x l ih =>
    rw [List.pairwise_cons]
    exact ⟨fun b hb => h x (List.mem_cons_self _ _) b (List.mem_cons_of_mem _ hb),
      ih (fun a ha b hb => h a (List.mem_cons_of_mem _ ha) b (List.mem_cons_of_mem _ hb))⟩

/-- Claim C15: the threats `Analyze` returns are the per-entry threats of the valid
entries, in the order of the entries, followed by the `BRUTE_FORCE` threats, followed
by the `DDOS_ATTEMPT` threats; no threat of the two whole-dataset checks comes
before a per-entry threat, and no `DDOS_ATTEMPT` threat before a `BRUTE_FORCE`
threat. -/
theorem Analyze_threat_order (rt : Runtime) (entries : List LogEntry) :
    ∃ bruteForce ddos : List SecurityThreat,
      (Analyze rt entries).SecurityThreats =
        (entries.filter LogEntry.IsValid).flatMap detectThreats ++ bruteForce ++ ddos ∧
      (∀ th ∈ (entries.filter LogEntry.IsValid).flatMap detectThreats,
        th.ThreatType ∈ perEntryTypes) ∧
      (∀ th ∈ bruteForce, th.ThreatType = ascii "BRUTE_FORCE") ∧
      (∀ th ∈ ddos, th.ThreatType = ascii "DDOS_ATTEMPT") ∧
      bruteForce = (Analyze rt entries).SecurityThreats.filter
        (fun th => decide (th.ThreatType = ascii "BRUTE_FORCE")) ∧
      ddos = (Analyze rt entries).SecurityThreats.filter
        (fun th => decide (th.ThreatType = ascii "DDOS_ATTEMPT")) ∧
      (Analyze rt entries).SecurityThreats.Pairwise (fun a b =>
        ¬ ((a.ThreatType = ascii "BRUTE_FORCE" ∨ a.ThreatType = ascii "DDOS_ATTEMPT") ∧
            b.ThreatType ∈ perEntryTypes) ∧
        ¬ (a.ThreatType = ascii "DDOS_ATTEMPT" ∧ b.ThreatType = ascii "BRUTE_FORCE")) := by
  have hper : ∀ th ∈ (entries.filter LogEntry.IsValid).flatMap detectThreats,
      th.ThreatType ∈ perEntryTypes := by
    intro th hth
    rw [List.mem_flatMap] at hth
    obtain ⟨e, -, he⟩ := hth
    exact detectThreats_type e th he
  have hdecomp : ∃ bruteForce ddos : List SecurityThreat,
      (Analyze rt entries).SecurityThreats =
        (entries.filter LogEntry.IsValid).flatMap detectThreats ++ bruteForce ++ ddos ∧
      (∀ th ∈ bruteForce, th.ThreatType = ascii "BRUTE_FORCE") ∧
      (∀ th ∈ ddos, th.ThreatType = ascii "DDOS_ATTEMPT") := by
    cases entries with
    | nil => exact ⟨[], [], by simp [Analyze, emptyStatistics], by simp, by simp⟩
    | cons first rest =>
      exact ⟨_, _, SecurityThreats_eq rt first rest, fun th h => bruteForce_type rt _ th h,
        fun th h => detectTrafficAnomalies_type rt _ th h⟩
  obtain ⟨bf, dd, heq, hbf, hdd⟩ := hdecomp
  have hne1 : ∀ ty ∈ perEntryTypes, ty ≠ ascii "BRUTE_FORCE" ∧ ty ≠ ascii "DDOS_ATTEMPT" := by
    decide
  have hne2 : ascii "BRUTE_FORCE" ≠ ascii "DDOS_ATTEMPT" := by decide
  refine ⟨bf, dd, heq, hper, hbf, hdd, ?_, ?_, ?_⟩
  · rw [heq, List.filter_append, List.filter_append]
    have e1 : ((entries.filter LogEntry.IsValid).flatMap detectThreats).filter
        (fun th => decide (th.ThreatType = ascii "BRUTE_FORCE")) = [] := by
      rw [List.filter_eq_nil_iff]
      intro th hth
      simpa using (hne1 _ (hper th hth)).1
    have e2 : bf.filter (fun th => decide (th.ThreatType = ascii "BRUTE_FORCE")) = bf := by
      rw [List.filter_eq_self]
      intro th hth
      simpa using hbf th hth
    have e3 : dd.filter (fun th => decide (th.ThreatType = ascii "BRUTE_FORCE")) = [] := by
      rw [List.filter_eq_nil_iff]
      intro th hth
      rw [decide_eq_true_eq, hdd th hth]
      exact fun h => hne2 h.symm
    rw [e1, e2, e3]
    simp
  · rw [heq, List.filter_append, List.filter_append]
    have e1 : ((entries.filter LogEntry.IsValid).flatMap detectThreats).filter
        (fun th => decide (th.ThreatType = ascii "DDOS_ATTEMPT")) = [] := by
      rw [List.filter_eq_nil_iff]
      intro th hth
      simpa using (hne1 _ (hper th hth)).2
    have e2 : bf.filter (fun th => decide (th.ThreatType = ascii "DDOS_ATTEMPT")) = [] := by
      rw [List.filter_eq_nil_iff]
      intro th hth
      rw [decide_eq_true_eq, hbf th hth]
      exact hne2
    have e3 : dd.filter (fun th => decide (th.ThreatType = ascii "DDOS_ATTEMPT")) = dd := by
      rw [List.filter_eq_self]
      intro th hth
      simpa using hdd th hth
    rw [e1, e2, e3]
    simp
  · have hR1 : ∀ a ∈ (entries.filter LogEntry.IsValid).flatMap detectThreats,
        ∀ b : SecurityThreat,
        ¬ ((a.ThreatType = ascii "BRUTE_FORCE" ∨ a.ThreatType = ascii "DDOS_ATTEMPT") ∧
            b.ThreatType ∈ perEntryTypes) ∧
        ¬ (a.ThreatType = ascii "DDOS_ATTEMPT" ∧ b.ThreatType = ascii "BRUTE_FORCE") := by
      intro a ha b
      have h := hne1 _ (hper a ha)
      exact ⟨fun hc => hc.1.elim h.1 h.2, fun hc => h.2 hc.1⟩
    have hR2 : ∀ a ∈ bf, ∀ b, (b ∈ bf ∨ b ∈ dd) →
        ¬ ((a.ThreatType = ascii "BRUTE_FORCE" ∨ a.ThreatType = ascii "DDOS_ATTEMPT") ∧
            b.ThreatType ∈ perEntryTypes) ∧
        ¬ (a.ThreatType = ascii "DDOS_ATTEMPT" ∧ b.ThreatType = ascii "BRUTE_FORCE") := by
      intro a ha b hb
      refine ⟨fun hc => ?_, fun hc => hne2 ((hbf a ha).symm.trans hc.1)⟩
      have h := hne1 _ hc.2
      rcases hb with hb | hb
      · exact h.1 (hbf b hb)
      · exact h.2 (hdd b hb)
    have hR3 : ∀ a ∈ dd, ∀ b ∈ dd,
        ¬ ((a.ThreatType = ascii "BRUTE_FORCE" ∨ a.ThreatType = ascii "DDOS_ATTEMPT") ∧
            b.ThreatType ∈ perEntryTypes) ∧
        ¬ (a.ThreatType = ascii "DDOS_ATTEMPT" ∧ b.ThreatType = ascii "BRUTE_FORCE") := by
      intro a _ b hb
      refine ⟨fun hc => (hne1 _ hc.2).2 (hdd b hb), fun hc => hne2 (hc.2.symm.trans (hdd b hb))⟩
    rw [heq, List.pairwise_append, List.pairwise_append]
    refine ⟨⟨pairwise_of_mem _ (fun a ha b _ => hR1 a ha b),
      pairwise_of_mem _ (fun a ha b hb => hR2 a ha b (Or.inl hb)),
      fun a ha b _ => hR1 a ha b⟩, pairwise_of_mem _ hR3, ?_⟩
    intro a ha b hb
    rcases List.mem_append.1 ha with h | h
    · exact hR1 a h b
    · exact hR2 a h b (Or.inr hb)

theorem bruteForceOf_congr (rt1 rt2 : Runtime) (hs : rt1.sortSlice = rt2.sortSlice) :
    bruteForceOf rt1 = bruteForceOf rt2 := by
  funext kv
  unfold bruteForceOf
  rw [hs]

theorem sortedIfLong_congr (rt1 rt2 : Runtime) (hs : rt1.sortSlice = rt2.sortSlice) :
    sortedIfLong rt1 = sortedIfLong rt2 := by
  funext ts
  unfold sortedIfLong
  rw [hs]

/-- Two runs that differ only in the order of the `range` loops return the same
threats up to their order. -/
theorem threats_perm (rt1 rt2 : Runtime) (entries : List LogEntry) (h1 : rt1.Lawful)
    (h2 : rt2.Lawful) (hs : rt1.sortSlice = rt2.sortSlice) :
    (Analyze rt1 entries).SecurityThreats.Perm (Analyze rt2 entries).SecurityThreats := by
  have hn := requestMap_keys_nodup entries
  rw [threats_decomp rt1 h1, threats_decomp rt2 h2,
    (detectBruteForce_map rt1 h1 _ hn).2.2, (detectBruteForce_map rt2 h2 _ hn).2.2,
    detectBruteForce_threats, detectBruteForce_threats, detectTrafficAnomalies_eq,
    detectTrafficAnomalies_eq, bruteForceOf_congr rt1 rt2 hs, sortedIfLong_congr rt1 rt2 hs]
  apply List.Perm.append
  · apply List.Perm.append (List.Perm.refl _)
    exact List.Perm.flatMap_right _ ((h1.2.1 _).trans (h2.2.1 _).symm)
  · exact List.Perm.flatMap_right _ ((h1.2.2 _).trans (h2.2.2 _).symm)

/-- Claim C16: two runs of `Analyze` on the same entries whose `range` loops visit
the IPs in different orders return the same threats up to their order, hence the
same set of (Type, IP, Timestamp) triples. -/
theorem Analyze_triples_order_independent (rt1 rt2 : Runtime) (entries : List LogEntry)
    (h1 : rt1.Lawful) (h2 : rt2.Lawful) (hs : rt1.sortSlice = rt2.sortSlice) :
    (Analyze rt1 entries).SecurityThreats.Perm (Analyze rt2 entries).SecurityThreats ∧
    (triples (Analyze rt1 entries).SecurityThreats).Perm
      (triples (Analyze rt2 entries).SecurityThreats) ∧
    ∀ x, x ∈ triples (Analyze rt1 entries).SecurityThreats ↔
      x ∈ triples (Analyze rt2 entries).SecurityThreats := by
  have hp := threats_perm rt1 rt2 entries h1 h2 hs
  have hp' : (triples (Analyze rt1 entries).SecurityThreats).Perm
      (triples (Analyze rt2 entries).SecurityThreats) := hp.map _
  exact ⟨hp, hp', fun x => hp'.mem_iff⟩

theorem twoBursts_orders :
    triples (Analyze listRuntime twoBursts).SecurityThreats =
      [(ascii "BRUTE_FORCE", ascii "10.0.0.1", ⟨46000000000, 0⟩),
        (ascii "BRUTE_FORCE", ascii "10.0.0.2", ⟨46000000000, 0⟩)] ∧
    triples (Analyze reverseRuntime twoBursts).SecurityThreats =
      [(ascii "BRUTE_FORCE", ascii "10.0.0.2", ⟨46000000000, 0⟩),
        (ascii "BRUTE_FORCE", ascii "10.0.0.1", ⟨46000000000, 0⟩)] := by
  constructor <;> decide!

/-- Claim C16 at two bursts of 55 entries from two IPs, for a run that visits the
IPs in the order of the map and a run that visits them in the reverse order: the
two sequences of triples differ in order and hold the same triples. -/
theorem Analyze_triples_order_independent_witness :
    triples (Analyze listRuntime twoBursts).SecurityThreats =
      [(ascii "BRUTE_FORCE", ascii "10.0.0.1", ⟨46000000000, 0⟩),
        (ascii "BRUTE_FORCE", ascii "10.0.0.2", ⟨46000000000, 0⟩)] ∧
    triples (Analyze reverseRuntime twoBursts).SecurityThreats =
      [(ascii "BRUTE_FORCE", ascii "10.0.0.2", ⟨46000000000, 0⟩),
        (ascii "BRUTE_FORCE", ascii "10.0.0.1", ⟨46000000000, 0⟩)] ∧
    (triples (Analyze listRuntime twoBursts).SecurityThreats).Perm
      (triples (Analyze reverseRuntime twoBursts).SecurityThreats) :=
  ⟨twoBursts_orders.1, twoBursts_orders.2,
    (Analyze_triples_order_independent listRuntime reverseRuntime twoBursts listRuntime_lawful
      reverseRuntime_lawful rfl).2.1⟩

/-! ## The per-entry checks -/

theorem foldEq_kelvin (p : Nat) (h : p = 107 ∨ p = 75) : foldEq p 226 = false := by
  rcases h with rfl | rfl <;> decide

theorem foldEq_longS (p : Nat) (h : p = 115 ∨ p = 83) : foldEq p 197 = false := by
  rcases h with rfl | rfl <;> decide

theorem matchFold_of_FoldMatch (kw mid : GoString) (h : FoldMatch kw mid) (rest : GoString) :
    matchFold kw (mid ++ rest) = some rest := by
  induction h with
  | nil => rfl
  | byte p c ps cs hpc _ ih =>
    simp only [List.cons_append, matchFold, hpc, if_true, ih]
  | kelvin p ps cs hp _ ih =>
    have hf := foldEq_kelvin p hp
    simp only [List.cons_append, matchFold, hf, Bool.false_eq_true, if_false, List.take,
      List.drop, hp, true_and, and_self, if_true, ih]
  | longS p ps cs hp _ ih =>
    have hf := foldEq_longS p hp
    have h197 : ¬ ((197 : Nat) = 226) := by decide
    simp only [List.cons_append, matchFold, hf, Bool.false_eq_true, if_false, h197, false_and,
      and_false, List.take, List.drop, hp, true_and, and_self, if_true, ih]

theorem FoldMatch_of_matchFold (kw : GoString) :
    ∀ text rest : GoString, matchFold kw text = some rest →
      ∃ mid, text = mid ++ rest ∧ FoldMatch kw mid := by
  induction kw with
  | nil =>
    intro text rest h
    simp only [matchFold, Option.some.injEq] at h
    exact ⟨[], by simp [h], FoldMatch.nil⟩
  | cons p ps ih =>
    intro text rest h
    cases text with
    | nil => simp [matchFold] at h
    | cons c cs =>
      simp only [matchFold] at h
      split_ifs at h with h1 h2 h3
      · obtain ⟨mid, hm, hf⟩ := ih cs rest h
        exact ⟨c :: mid, by simp [hm], FoldMatch.byte p c ps mid h1 hf⟩
      · obtain ⟨mid, hm, hf⟩ := ih _ rest h
        obtain ⟨hp, hc, htake⟩ := h2
        have hcs : cs = 132 :: 170 :: cs.drop 2 := by
          have := List.take_append_drop 2 cs
          rw [htake] at this
          exact this.symm
        refine ⟨226 :: 132 :: 170 :: mid, ?_, FoldMatch.kelvin p ps mid hp hf⟩
        rw [hc, hcs]
        simp only [List.cons_append, List.cons.injEq, true_and]
        simpa using hm
      · obtain ⟨mid, hm, hf⟩ := ih _ rest h
        obtain ⟨hp, hc, htake⟩ := h3
        have hcs : cs = 191 :: cs.drop 1 := by
          have := List.take_append_drop 1 cs
          rw [htake] at this
          exact this.symm
        refine ⟨197 :: 191 :: mid, ?_, FoldMatch.longS p ps mid hp hf⟩
        rw [hc, hcs]
        simp only [List.cons_append, List.cons.injEq, true_and]
        simpa using hm

/-- A pattern made of literals matches a text exactly when the text contains one of
the literals, ignoring case. -/
theorem MatchString_lits (kws : List GoString) (s : GoString) :
    MatchString (kws.map Alt.lit) s = true ↔ ∃ kw ∈ kws, ContainsFold kw s := by
  unfold MatchString ContainsFold
  simp only [List.any_eq_true, List.mem_tails, List.mem_map]
  constructor
  · rintro ⟨text, ⟨pre, hpre⟩, alt, ⟨kw, hkw, rfl⟩, hmatch⟩
    simp only [Alt.matchesAt, Option.isSome_iff_exists] at hmatch
    obtain ⟨rest, hrest⟩ := hmatch
    obtain ⟨mid, hm, hf⟩ := FoldMatch_of_matchFold kw text rest hrest
    exact ⟨kw, hkw, pre, mid, rest, by rw [← hpre, hm, List.append_assoc], hf⟩
  · rintro ⟨kw, hkw, pre, mid, post, hs, hf⟩
    refine ⟨mid ++ post, ⟨pre, by rw [hs, List.append_assoc]⟩, Alt.lit kw, ⟨kw, hkw, rfl⟩, ?_⟩
    simp only [Alt.matchesAt, matchFold_of_FoldMatch kw mid hf post, Option.isSome_some]

theorem MatchString_mono (alts alts' : List Alt) (s : GoString)
    (hsub : ∀ a ∈ alts, a ∈ alts') (h : MatchString alts s = true) :
    MatchString alts' s = true := by
  unfold MatchString at h ⊢
  simp only [List.any_eq_true] at h ⊢
  obtain ⟨text, ht, a, ha, hm⟩ := h
  exact ⟨text, ht, a, hsub a ha, hm⟩

theorem bruteForcePattern_eq : bruteForcePattern = authKeywords.map Alt.lit := rfl

theorem mem_detectThreats (e : LogEntry) (th : SecurityThreat) :
    th ∈ detectThreats e ↔
      (MatchString sqlInjectionPattern e.URL = true ∧
        th = { ThreatType := ascii "SQL_INJECTION", IP := e.IP, URL := e.URL,
               Timestamp := e.Timestamp, Severity := ascii "HIGH",
               Description := Description.sqlInjection }) ∨
      ((MatchString xssPattern e.URL || MatchString xssPattern e.UserAgent) = true ∧
        th = { ThreatType := ascii "XSS", IP := e.IP, URL := e.URL,
               Timestamp := e.Timestamp, Severity := ascii "MEDIUM",
               Description := Description.xss }) ∨
      (MatchString scannerPattern e.URL = true ∧
        th = { ThreatType := ascii "DIRECTORY_TRAVERSAL", IP := e.IP, URL := e.URL,
               Timestamp := e.Timestamp, Severity := ascii "HIGH",
               Description := Description.directoryTraversal }) ∨
      (MatchString suspiciousUAPattern e.UserAgent = true ∧
        th = { ThreatType := ascii "SUSPICIOUS_BOT", IP := e.IP, URL := e.URL,
               Timestamp := e.Timestamp, Severity := ascii "MEDIUM",
               Description := Description.suspiciousBot (truncateString e.UserAgent 50) }) ∨
      ((MatchString bruteForcePattern e.URL && decide (e.Status = 401)) = true ∧
        th = { ThreatType := ascii "AUTH_FAILURE", IP := e.IP, URL := e.URL,
               Timestamp := e.Timestamp, Severity := ascii "LOW",
               Description := Description.authFailure }) := by
  rw [detectThreats_eq]
  simp only [List.mem_append, List.mem_ite_nil_right, List.mem_singleton]

theorem sublist_ite {α : Type} (c : Prop) [Decidable c] (t : α) :
    (if c then [t] else []).Sublist [t] := by
  split_ifs
  · exact List.Sublist.refl _
  · exact List.nil_sublist _

theorem detectThreats_sublist (e : LogEntry) : (detectThreats e).Sublist (allThreats e) := by
  rw [detectThreats_eq]
  exact (sublist_ite _ _).append ((sublist_ite _ _).append ((sublist_ite _ _).append
    ((sublist_ite _ _).append (sublist_ite _ _))))

/-- Claim C14: the five checks of `detectThreats` are decided each by its own
condition; the result is a subsequence of the five threats of the entry in the order
`SQL_INJECTION`, `XSS`, `DIRECTORY_TRAVERSAL`, `SUSPICIOUS_BOT`, `AUTH_FAILURE`, with
severities `HIGH`, `MEDIUM`, `HIGH`, `MEDIUM`, `LOW`, so it has at most five threats
and no type twice; every threat carries the IP, URL and timestamp of the entry. -/
theorem detectThreats_independent (e : LogEntry) :
    (detectThreats e).Sublist (allThreats e) ∧ (detectThreats e).length ≤ 5 ∧
    ((detectThreats e).map SecurityThreat.ThreatType).Nodup ∧
    (allThreats e).map (fun th => (th.ThreatType, th.Severity)) =
      [(ascii "SQL_INJECTION", ascii "HIGH"), (ascii "XSS", ascii "MEDIUM"),
        (ascii "DIRECTORY_TRAVERSAL", ascii "HIGH"), (ascii "SUSPICIOUS_BOT", ascii "MEDIUM"),
        (ascii "AUTH_FAILURE", ascii "LOW")] ∧
    (∀ th ∈ detectThreats e,
      th.IP = e.IP ∧ th.URL = e.URL ∧ th.Timestamp = e.Timestamp) ∧
    ((∃ th ∈ detectThreats e, th.ThreatType = ascii "SQL_INJECTION") ↔
      MatchString sqlInjectionPattern e.URL = true) ∧
    ((∃ th ∈ detectThreats e, th.ThreatType = ascii "XSS") ↔
      (MatchString xssPattern e.URL = true ∨ MatchString xssPattern e.UserAgent = true)) ∧
    ((∃ th ∈ detectThreats e, th.ThreatType = ascii "DIRECTORY_TRAVERSAL") ↔
      MatchString scannerPattern e.URL = true) ∧
    ((∃ th ∈ detectThreats e, th.ThreatType = ascii "SUSPICIOUS_BOT") ↔
      MatchString suspiciousUAPattern e.UserAgent = true) ∧
    ((∃ th ∈ detectThreats e, th.ThreatType = ascii "AUTH_FAILURE") ↔
      (MatchString bruteForcePattern e.URL = true ∧ e.Status = 401)) := by
  have hsub := detectThreats_sublist e
  refine ⟨hsub, ?_, ?_, rfl, ?_, ?_, ?_, ?_, ?_, ?_⟩
  · exact hsub.length_le
  · have hmap := hsub.map SecurityThreat.ThreatType
    refine List.Nodup.sublist hmap ?_
    show perEntryTypes.Nodup
    decide
  · intro th hth
    rw [mem_detectThreats] at hth
    rcases hth with ⟨-, rfl⟩ | ⟨-, rfl⟩ | ⟨-, rfl⟩ | ⟨-, rfl⟩ | ⟨-, rfl⟩ <;> exact ⟨rfl, rfl, rfl⟩
  · constructor
    · rintro ⟨th, hth, hty⟩
      rw [mem_detectThreats] at hth
      rcases hth with ⟨hc, rfl⟩ | ⟨hc, rfl⟩ | ⟨hc, rfl⟩ | ⟨hc, rfl⟩ | ⟨hc, rfl⟩
      · exact hc
      all_goals exact absurd hty (by dsimp only; decide)
    · intro hc
      exact ⟨_, (mem_detectThreats e _).2 (Or.inl ⟨hc, rfl⟩), rfl⟩
  · constructor
    · rintro ⟨th, hth, hty⟩
      rw [mem_detectThreats] at hth
      rcases hth with ⟨hc, rfl⟩ | ⟨hc, rfl⟩ | ⟨hc, rfl⟩ | ⟨hc, rfl⟩ | ⟨hc, rfl⟩
      · exact absurd hty (by dsimp only; decide)
      · simpa using hc
      all_goals exact absurd hty (by dsimp only; decide)
    · intro hc
      exact ⟨_, (mem_detectThreats e _).2 (Or.inr (Or.inl ⟨by simpa using hc, rfl⟩)), rfl⟩
  · constructor
    · rintro ⟨th, hth, hty⟩
      rw [mem_detectThreats] at hth
      rcases hth with ⟨hc, rfl⟩ | ⟨hc, rfl⟩ | ⟨hc, rfl⟩ | ⟨hc, rfl⟩ | ⟨hc, rfl⟩
      · exact absurd hty (by dsimp only; decide)
      · exact absurd hty (by dsimp only; decide)
      · exact hc
      all_goals exact absurd hty (by dsimp only; decide)
    · intro hc
      exact ⟨_, (mem_detectThreats e _).2 (Or.inr (Or.inr (Or.inl ⟨hc, rfl⟩))), rfl⟩
  · constructor
    · rintro ⟨th, hth, hty⟩
      rw [mem_detectThreats] at hth
      rcases hth with ⟨hc, rfl⟩ | ⟨hc, rfl⟩ | ⟨hc, rfl⟩ | ⟨hc, rfl⟩ | ⟨hc, rfl⟩
      · exact absurd hty (by dsimp only; decide)
      · exact absurd hty (by dsimp only; decide)
      · exact absurd hty (by dsimp only; decide)
      · exact hc
      · exact absurd hty (by dsimp only; decide)
    · intro hc
      exact ⟨_, (mem_detectThreats e _).2 (Or.inr (Or.inr (Or.inr (Or.inl ⟨hc, rfl⟩)))), rfl⟩
  · constructor
    · rintro ⟨th, hth, hty⟩
      rw [mem_detectThreats] at hth
      rcases hth with ⟨hc, rfl⟩ | ⟨hc, rfl⟩ | ⟨hc, rfl⟩ | ⟨hc, rfl⟩ | ⟨hc, rfl⟩
      · exact absurd hty (by dsimp only; decide)
      · exact absurd hty (by dsimp only; decide)
      · exact absurd hty (by dsimp only; decide)
      · exact absurd hty (by dsimp only; decide)
      · simpa using hc
    · intro hc
      exact ⟨_, (mem_detectThreats e _).2
        (Or.inr (Or.inr (Or.inr (Or.inr ⟨by simpa using hc, rfl⟩)))), rfl⟩

theorem filter_ite {α : Type} (c : Prop) [Decidable c] (t : α) (p : α → Bool) :
    (if c then [t] else []).filter p = if c ∧ p t = true then [t] else [] := by
  by_cases hc : c
  · by_cases hp : p t = true
    · simp [hc, hp]
    · simp [hc, hp]
  · simp [hc]

theorem filter_sqlInjection (e : LogEntry) :
    (detectThreats e).filter (fun th => decide (th.ThreatType = ascii "SQL_INJECTION")) =
      if MatchString sqlInjectionPattern e.URL = true then
        [sqlThreat e]
      else [] := by
  have h2 : decide (ascii "XSS" = ascii "SQL_INJECTION") = false := by decide
  have h3 : decide (ascii "DIRECTORY_TRAVERSAL" = ascii "SQL_INJECTION") = false := by decide
  have h4 : decide (ascii "SUSPICIOUS_BOT" = ascii "SQL_INJECTION") = false := by decide
  have h5 : decide (ascii "AUTH_FAILURE" = ascii "SQL_INJECTION") = false := by decide
  rw [detectThreats_eq]
  simp only [List.filter_append, filter_ite, h2, h3, h4, h5, decide_True, Bool.false_eq_true,
    and_false, and_true, if_false, List.append_nil, sqlThreat]

theorem filter_authFailure (e : LogEntry) :
    (detectThreats e).filter (fun th => decide (th.ThreatType = ascii "AUTH_FAILURE")) =
      if MatchString bruteForcePattern e.URL = true ∧ e.Status = 401 then
        [authThreat e]
      else [] := by
  have h1 : decide (ascii "SQL_INJECTION" = ascii "AUTH_FAILURE") = false := by decide
  have h2 : decide (ascii "XSS" = ascii "AUTH_FAILURE") = false := by decide
  have h3 : decide (ascii "DIRECTORY_TRAVERSAL" = ascii "AUTH_FAILURE") = false := by decide
  have h4 : decide (ascii "SUSPICIOUS_BOT" = ascii "AUTH_FAILURE") = false := by decide
  rw [detectThreats_eq]
  simp only [List.filter_append, filter_ite, h1, h2, h3, h4, decide_True, Bool.false_eq_true,
    and_false, and_true, if_false, List.nil_append, Bool.and_eq_true, decide_eq_true_eq,
    authThreat]

/-- Claim C12: the threats of type `AUTH_FAILURE` that `detectThreats` returns for an
entry are one threat, of severity `LOW`, when the URL contains one of the seven
keywords, ignoring case, and the status is 401, and none otherwise; so none for the
statuses 403, 400 and 200. -/
theorem detectThreats_authFailure (e : LogEntry) :
    ((∃ kw ∈ authKeywords, ContainsFold kw e.URL) ∧ e.Status = 401 →
      (detectThreats e).filter (fun th => decide (th.ThreatType = ascii "AUTH_FAILURE")) =
        [authThreat e]) ∧
    (¬ ((∃ kw ∈ authKeywords, ContainsFold kw e.URL) ∧ e.Status = 401) →
      (detectThreats e).filter (fun th => decide (th.ThreatType = ascii "AUTH_FAILURE")) =
        []) ∧
    ((∃ th ∈ detectThreats e, th.ThreatType = ascii "AUTH_FAILURE") ↔
      ((∃ kw ∈ authKeywords, ContainsFold kw e.URL) ∧ e.Status = 401)) ∧
    (e.Status = 403 ∨ e.Status = 400 ∨ e.Status = 200 →
      ∀ th ∈ detectThreats e, th.ThreatType ≠ ascii "AUTH_FAILURE") := by
  have hfilter := filter_authFailure e
  have hmatch : MatchString bruteForcePattern e.URL = true ↔
      ∃ kw ∈ authKeywords, ContainsFold kw e.URL := by
    rw [bruteForcePattern_eq]
    exact MatchString_lits authKeywords e.URL
  have hpos : (∃ kw ∈ authKeywords, ContainsFold kw e.URL) ∧ e.Status = 401 →
      (detectThreats e).filter (fun th => decide (th.ThreatType = ascii "AUTH_FAILURE")) =
        [authThreat e] := by
    intro hc
    rw [hfilter, if_pos ⟨hmatch.2 hc.1, hc.2⟩]
  have hneg : ¬ ((∃ kw ∈ authKeywords, ContainsFold kw e.URL) ∧ e.Status = 401) →
      (detectThreats e).filter (fun th => decide (th.ThreatType = ascii "AUTH_FAILURE")) =
        [] := by
    intro hc
    rw [hfilter, if_neg (fun h => hc ⟨hmatch.1 h.1, h.2⟩)]
  have hiff : (∃ th ∈ detectThreats e, th.ThreatType = ascii "AUTH_FAILURE") ↔
      ((∃ kw ∈ authKeywords, ContainsFold kw e.URL) ∧ e.Status = 401) := by
    constructor
    · rintro ⟨th, hth, hty⟩
      by_contra hc
      have : th ∈ (detectThreats e).filter
          (fun th => decide (th.ThreatType = ascii "AUTH_FAILURE")) :=
        List.mem_filter.2 ⟨hth, by simpa using hty⟩
      rw [hneg hc] at this
      simp at this
    · intro hc
      have : authThreat e ∈
          (detectThreats e).filter (fun th => decide (th.ThreatType = ascii "AUTH_FAILURE")) := by
        rw [hpos hc]
        exact List.mem_singleton.2 rfl
      exact ⟨_, (List.mem_filter.1 this).1, rfl⟩
  refine ⟨hpos, hneg, hiff, ?_⟩
  intro hs th hth hty
  have := (hiff.1 ⟨th, hth, hty⟩).2
  omega

theorem sqlKeywords_sub : ∀ a ∈ sqlKeywords.map Alt.lit, a ∈ sqlInjectionPattern := by
  intro a ha
  simp only [sqlKeywords, List.map_cons, List.map_nil, List.mem_cons, List.mem_singleton,
    List.not_mem_nil, or_false] at ha
  rcases ha with rfl | rfl | rfl | rfl | rfl | rfl | rfl <;> simp [sqlInjectionPattern]

/-- Claim C13: for an entry whose URL contains, ignoring case, one of the seven SQL
keywords, `detectThreats` returns exactly one threat of type `SQL_INJECTION`: its
severity is `HIGH` and it carries the IP, URL and timestamp of the entry. -/
theorem detectThreats_sqlInjection (e : LogEntry)
    (h : ∃ kw ∈ sqlKeywords, ContainsFold kw e.URL) :
    (detectThreats e).filter (fun th => decide (th.ThreatType = ascii "SQL_INJECTION")) =
      [sqlThreat e] ∧
    sqlThreat e ∈ detectThreats e ∧
    (sqlThreat e).Severity = ascii "HIGH" ∧ (sqlThreat e).IP = e.IP ∧
    (sqlThreat e).URL = e.URL ∧ (sqlThreat e).Timestamp = e.Timestamp := by
  have hm : MatchString sqlInjectionPattern e.URL = true :=
    MatchString_mono _ _ _ sqlKeywords_sub ((MatchString_lits sqlKeywords e.URL).2 h)
  have hf := filter_sqlInjection e
  rw [if_pos hm] at hf
  refine ⟨hf, ?_, rfl, rfl, rfl, rfl⟩
  have : sqlThreat e ∈
      (detectThreats e).filter (fun th => decide (th.ThreatType = ascii "SQL_INJECTION")) := by
    rw [hf]
    exact List.mem_singleton.2 rfl
  exact (List.mem_filter.1 this).1

/-- Claim C13 at the URL `/login.php?id=1' UNION SELECT password FROM users--`. -/
theorem detectThreats_sqlInjection_witness :
    (∃ kw ∈ sqlKeywords, ContainsFold kw injectionEntry.URL) ∧
    (detectThreats injectionEntry).filter
        (fun th => decide (th.ThreatType = ascii "SQL_INJECTION")) =
      [sqlThreat injectionEntry] ∧
    (sqlThreat injectionEntry).Severity = ascii "HIGH" ∧
    (sqlThreat injectionEntry).URL = injectionURL :=
  ⟨(MatchString_lits sqlKeywords injectionEntry.URL).1 (by decide),
    (detectThreats_sqlInjection injectionEntry
      ((MatchString_lits sqlKeywords injectionEntry.URL).1 (by decide))).1, rfl, rfl⟩

/-! ## The order of the threats table -/

theorem threatLess_eq_false (a b : SecurityThreat) :
    threatLess b a = false ↔
      severityRank b < severityRank a ∨
        (severityRank a = severityRank b ∧ b.Timestamp.nanos ≤ a.Timestamp.nanos) := by
  unfold threatLess severityRank
  split_ifs with h
  · simp only [gt_iff_lt, decide_eq_false_iff_not, not_lt]
    constructor
    · intro hle
      exact Or.inl (by omega)
    · rintro (hlt | ⟨heq, -⟩)
      · omega
      · exact absurd heq.symm h
  · simp only [Time.After, decide_eq_false_iff_not, not_lt]
    constructor
    · intro hle
      exact Or.inr ⟨by omega, hle⟩
    · rintro (hlt | ⟨-, hle⟩)
      · omega
      · exact hle

theorem insertionSortBy_sorts : SortsBy threatLess (insertionSortBy threatLess) := by
  haveI : IsTotal SecurityThreat (fun a b => threatLess b a = false) := ⟨fun a b => by
    rw [threatLess_eq_false, threatLess_eq_false]
    omega⟩
  haveI : IsTrans SecurityThreat (fun a b => threatLess b a = false) := ⟨fun a b c h1 h2 => by
    rw [threatLess_eq_false] at h1 h2 ⊢
    omega⟩
  intro l
  exact ⟨List.perm_insertionSort _ l, List.sorted_insertionSort _ l⟩

/-- Claim C17: the order in which `displaySecurityThreats` renders the threats is a
permutation of the input in which every threat has a higher severity rank than each
later one, or the same rank and a timestamp that is not earlier; this holds in
particular for two consecutive threats. -/
theorem displaySecurityThreats_sorted
    (sortSlice : (SecurityThreat → SecurityThreat → Bool) → List SecurityThreat →
      List SecurityThreat)
    (threats : List SecurityThreat) (hs : SortsBy threatLess (sortSlice threatLess)) :
    (displaySecurityThreats sortSlice threats).Perm threats ∧
    (displaySecurityThreats sortSlice threats).Pairwise (fun a b =>
      severityRank b < severityRank a ∨
        (severityRank a = severityRank b ∧ a.Timestamp.Before b.Timestamp = false)) ∧
    (displaySecurityThreats sortSlice threats).Chain' (fun a b =>
      severityRank b < severityRank a ∨
        (severityRank a = severityRank b ∧ a.Timestamp.Before b.Timestamp = false)) := by
  have hperm : (displaySecurityThreats sortSlice threats).Perm threats := by
    unfold displaySecurityThreats
    split_ifs with h
    · rw [List.length_eq_zero] at h
      rw [h]
    · exact (hs threats).1
  have hpair : (displaySecurityThreats sortSlice threats).Pairwise (fun a b =>
      severityRank b < severityRank a ∨
        (severityRank a = severityRank b ∧ a.Timestamp.Before b.Timestamp = false)) := by
    unfold displaySecurityThreats
    split_ifs with h
    · exact List.Pairwise.nil
    · refine List.Pairwise.imp ?_ (hs threats).2
      intro a b hab
      rw [threatLess_eq_false] at hab
      rw [Before_eq_false]
      exact hab
  exact ⟨hperm, hpair, hpair.chain'⟩

/-- Claim C17 at three threats: the later of the two `HIGH` threats is rendered
first, the `LOW` threat last. -/
theorem displaySecurityThreats_sorted_witness :
    displaySecurityThreats insertionSortBy sampleThreats =
      [burstThreat, sqlThreat injectionEntry, authThreat validEntry] ∧
    (displaySecurityThreats insertionSortBy sampleThreats).Perm sampleThreats ∧
    (displaySecurityThreats insertionSortBy sampleThreats).Chain' (fun a b =>
      severityRank b < severityRank a ∨
        (severityRank a = severityRank b ∧ a.Timestamp.Before b.Timestamp = false)) :=
  ⟨by decide,
    (displaySecurityThreats_sorted insertionSortBy sampleThreats insertionSortBy_sorts).1,
    (displaySecurityThreats_sorted insertionSortBy sampleThreats insertionSortBy_sorts).2.2⟩

end LogAnalyzer
